import Mathlib

/-!
# MyContainer and its six traversal orders

A shallow embedding of `MyContainer.hpp` (namespace `ex4`).

* `std::vector<T>` is a `List T`; positions (iterators into a vector) are
  natural numbers, the end iterator of `v` being `v.length`.
* A member function whose effect on its object matters returns the object
  after the call next to its result.  A thrown exception is an `Except.error`
  result.
* A raw subscript `v[i]` has no defined result when `i` is out of range, so
  code that subscripts returns an `Option`, and `none` stands for such a read
  (or for a loop that has used up its iteration budget).  Where the statement
  before the subscript has checked the index, the read is total.
* `size_t` arithmetic on the cursors of the hand-written loops is taken
  modulo `USIZE = 2 ^ 64`.
* Where two objects matter at once (a container and its copy, a container and
  a cursor held across calls) the objects live in a store or memory by
  address, and a member function writes the members of its own object.
* The element type `T` carries `DecidableEq` (`operator==`), a linear order
  (`operator<`, `operator>`) and `ToString` (`operator<<`).
-/

namespace ex4

/-! ## Machine integers and exceptions -/

/-- Number of values of the unsigned type `size_t`. -/
def USIZE : Nat := 2 ^ 64

/-- Unsigned increment `x + 1` on `size_t`. -/
def usize_inc (x : Nat) : Nat := (x + 1) % USIZE

/-- Unsigned decrement `x - 1` on `size_t`; it wraps to `USIZE - 1` at zero. -/
def usize_dec (x : Nat) : Nat := (x + USIZE - 1) % USIZE

/-- Unsigned sum `x + y` on `size_t`. -/
def usize_add (x y : Nat) : Nat := (x + y) % USIZE

/-- Unsigned difference `x - y` on `size_t`, for operands below `USIZE`. -/
def usize_sub (x y : Nat) : Nat := (x + USIZE - y) % USIZE

/-- The two exception classes the header throws, with their messages. -/
inductive Exn where
  | runtime_error (what : String)
  | out_of_range (what : String)
deriving DecidableEq

/-! ## The standard algorithms the header calls -/

/-- Appends one element: `std::vector::push_back`. -/
def push_back {T : Type} (v : List T) (x : T) : List T := v ++ [x]

/-- Position of the first element equal to `value`, or `v.length` (the end
iterator) when there is none: `std::find(v.begin(), v.end(), value)`. -/
def std_find {T : Type} [DecidableEq T] : List T → T → Nat
  | [], _ => 0
  | x :: rest, value => if x = value then 0 else std_find rest value + 1

/-- One round of the compaction loop of `std::remove`: the element at the read
position `i` is copied down to the write position `st.2` unless it equals
`value`. -/
def std_remove_step {T : Type} [DecidableEq T] (value : T) (st : List T × Nat) (i : Nat) :
    List T × Nat :=
  match st.1[i]? with
  | some x => if x = value then st else (st.1.set st.2 x, st.2 + 1)
  | none => st

/-- The vector after `std::remove(v.begin(), v.end(), value)` together with
the returned position (the new logical end).  The vector keeps its length; the
elements from the returned position on are leftovers. -/
def std_remove {T : Type} [DecidableEq T] (v : List T) (value : T) : List T × Nat :=
  (List.range v.length).foldl (std_remove_step value) (v, 0)

/-- Erases the positions `first ≤ i < last`: `std::vector::erase(first, last)`. -/
def erase {T : Type} (v : List T) (first last : Nat) : List T :=
  v.take first ++ v.drop last

/-- Reverses a vector in place: `std::reverse(v.begin(), v.end())`. -/
def std_reverse {T : Type} (v : List T) : List T := v.reverse

/-- Sorts with respect to the strict comparison `comp`:
`std::sort(v.begin(), v.end(), comp)`.  In the result no element is `comp`-before
an element that precedes it.  Over a linear order the sorted arrangement of a
multiset is unique, so the sorting method does not show in the result; where
the order of equivalent elements matters the routine is left open, bound by
`std_sort_contract`. -/
def std_sort {T : Type} (comp : T → T → Prop) [DecidableRel comp] (v : List T) : List T :=
  v.insertionSort (fun a b => ¬ comp b a)

/-- The container: `std::vector<T> elements`. -/
structure MyContainer (T : Type) where
  elements : List T
deriving DecidableEq

namespace MyContainer

variable {T : Type}

/-- The empty container of `MyContainer() = default`. -/
def empty : MyContainer T := MyContainer.mk []

/-- Adds an element at the end: `void add(const T& element)`. -/
def add (self : MyContainer T) (element : T) : MyContainer T :=
  MyContainer.mk (push_back self.elements element)

/-- The message of the exception thrown by `remove`. -/
def notFound : Exn := Exn.runtime_error "Element was not found in the container"

/-- Removes every element equal to `element`: `void remove(const T& element)`.
The result is the outcome of the call and the container after it; the throw
comes before any change. -/
def remove [DecidableEq T] (self : MyContainer T) (element : T) :
    Except Exn Unit × MyContainer T :=
  if std_find self.elements element = self.elements.length then
    (Except.error notFound, self)
  else
    let r := std_remove self.elements element
    (Except.ok (), MyContainer.mk (erase r.1 r.2 r.1.length))

/-- Number of stored elements: `size_t size() const`. -/
def size (self : MyContainer T) : Nat := self.elements.length

/-- One round of the printing loop of `operator<<`: writes the element at
position `i`, and the separator unless `i` is the last position. -/
def operator_lshift_step [ToString T] (elements : List T) (os : Option String) (i : Nat) :
    Option String := do
  let os ← os
  let e ← elements[i]?
  let os := os ++ toString e
  if i < usize_sub elements.length 1 then some (os ++ ", ") else some os

/-- The stream after `os << container`, where `os` is the text written so far:
`friend std::ostream& operator<<(std::ostream&, const MyContainer<T>&)`. -/
def operator_lshift [ToString T] (os : String) (container : MyContainer T) : Option String :=
  let os := os ++ "["
  if container.elements.isEmpty then
    some (os ++ "]")
  else
    ((List.range container.elements.length).foldl (operator_lshift_step container.elements) (some os)).map
      (fun os => os ++ "]")

end MyContainer

/-! ## The six iterator classes

Each iterator owns the sequence its constructor computed, an index into it and
the address of the container it was taken from. -/

/-- Fields of `class OrderIterator`. -/
structure OrderIterator (T : Type) where
  _elements : List T
  current_index : Nat
  owner : Nat
deriving DecidableEq

/-- Fields of `class ReverseOrderIterator`. -/
structure ReverseOrderIterator (T : Type) where
  reverse_elements : List T
  current_index : Nat
  owner : Nat
deriving DecidableEq

/-- Fields of `class AscendingIterator`. -/
structure AscendingIterator (T : Type) where
  sorted_elements : List T
  current_index : Nat
  owner : Nat
deriving DecidableEq

/-- Fields of `class DescendingOrder`. -/
structure DescendingOrder (T : Type) where
  reverse_sorted_elements : List T
  current_index : Nat
  owner : Nat
deriving DecidableEq

/-- Fields of `class SideCrossIterator`. -/
structure SideCrossIterator (T : Type) where
  sorted_elements : List T
  side_cross_order : List T
  current_index : Nat
  owner : Nat
deriving DecidableEq

/-- Fields of `class MiddleOutIterator`. -/
structure MiddleOutIterator (T : Type) where
  middle_out_order : List T
  current_index : Nat
  owner : Nat
deriving DecidableEq

/-- The local variables of the two-cursor loop in the constructor of
`SideCrossIterator`. -/
structure SideCrossState (T : Type) where
  left : Nat
  right : Nat
  side_cross_order : List T
deriving DecidableEq

section constructors

variable {T : Type}

/-- Constructor `OrderIterator(elements, index, container)`: copies the vector. -/
def OrderIterator.init (elements : List T) (index : Nat) (container : Nat) :
    OrderIterator T :=
  OrderIterator.mk elements index container

/-- Constructor `ReverseOrderIterator(elements, index, container)`: copies the
vector and reverses the copy. -/
def ReverseOrderIterator.init (elements : List T) (index : Nat) (container : Nat) :
    ReverseOrderIterator T :=
  ReverseOrderIterator.mk (std_reverse elements) index container

/-- Constructor `AscendingIterator(elements, index, container)`: copies the
vector and sorts the copy with `operator<`. -/
def AscendingIterator.init [LinearOrder T] (elements : List T) (index : Nat)
    (container : Nat) : AscendingIterator T :=
  AscendingIterator.mk (std_sort (fun a b => a < b) elements) index container

/-- Constructor `DescendingOrder(elements, index, container)`: copies the vector
and sorts the copy with `std::greater<T>`. -/
def DescendingOrder.init [LinearOrder T] (elements : List T) (index : Nat)
    (container : Nat) : DescendingOrder T :=
  DescendingOrder.mk (std_sort (fun a b => a > b) elements) index container

/-- Body of the `while (left <= right)` loop: emits `sorted_elements[left++]`
and then, if the cursors have not crossed, `sorted_elements[right--]`. -/
def side_cross_body (sorted_elements : List T) (st : SideCrossState T) :
    Option (SideCrossState T) := do
  let x ← sorted_elements[st.left]?
  let order := push_back st.side_cross_order x
  let left := usize_inc st.left
  if left ≤ st.right then
    let y ← sorted_elements[st.right]?
    some (SideCrossState.mk left (usize_dec st.right) (push_back order y))
  else
    some (SideCrossState.mk left st.right order)

/-- The `while (left <= right)` loop, run for at most `fuel` tests of its
condition; `none` when the budget runs out or a subscript is out of range. -/
def side_cross_loop (sorted_elements : List T) :
    Nat → SideCrossState T → Option (SideCrossState T)
  | 0, _ => none
  | fuel + 1, st =>
    if st.left ≤ st.right then
      (side_cross_body sorted_elements st).bind (side_cross_loop sorted_elements fuel)
    else
      some st

/-- The states in which the `while (left <= right)` loop tests its condition, in
order, for at most `fuel` rounds of the body; the list ends with the state in
which the loop exits, or where the body has no result or the rounds are used
up. -/
def side_cross_states (sorted_elements : List T) :
    Nat → SideCrossState T → List (SideCrossState T)
  | 0, st => [st]
  | fuel + 1, st =>
    if st.left ≤ st.right then
      match side_cross_body sorted_elements st with
      | some next => st :: side_cross_states sorted_elements fuel next
      | none => [st]
    else
      [st]

/-- Constructor `SideCrossIterator(elements, index, container)`: nothing is
emitted for an empty vector; otherwise the copy is sorted and read from both
ends.  The loop gets one test of its condition per element and one more. -/
def SideCrossIterator.init [LinearOrder T] (elements : List T) (index : Nat)
    (container : Nat) : Option (SideCrossIterator T) :=
  if elements.isEmpty then
    some (SideCrossIterator.mk elements [] index container)
  else
    let sorted_elements := std_sort (fun a b => a < b) elements
    let start := SideCrossState.mk 0 (usize_sub sorted_elements.length 1) []
    (side_cross_loop sorted_elements (sorted_elements.length + 1) start).map
      (fun st => SideCrossIterator.mk sorted_elements st.side_cross_order index container)

/-- Body of the `for (offset = 1; offset <= mid; ++offset)` loop: the left
neighbour at distance `offset`, then the right one, each behind its guard. -/
def middle_out_body (elements : List T) (n mid : Nat) (order : Option (List T))
    (offset : Nat) : Option (List T) := do
  let order ← order
  let order ←
    if mid ≥ offset then (elements[usize_sub mid offset]?).map (push_back order)
    else some order
  if usize_add mid offset < n then (elements[usize_add mid offset]?).map (push_back order)
  else some order

/-- Constructor `MiddleOutIterator(elements, index, container)`: nothing is
emitted for an empty vector; otherwise the element at `n / 2` comes first and
the loop walks outwards from it. -/
def MiddleOutIterator.init (elements : List T) (index : Nat) (container : Nat) :
    Option (MiddleOutIterator T) :=
  if elements.isEmpty then
    some (MiddleOutIterator.mk [] index container)
  else
    let n := elements.length
    let mid := n / 2
    ((elements[mid]?).bind (fun m =>
      (List.range' 1 mid).foldl (middle_out_body elements n mid) (some (push_back [] m)))).map
      (fun order => MiddleOutIterator.mk order index container)

end constructors

/-! ### The operators of the iterators

The six classes repeat the same five operators over their own sequence.  An
operator returns its result and the iterator after the call. -/

/-- The exception thrown by every `operator*`. -/
def outOfBounds : Exn := Exn.out_of_range "Iterator out of bounds"

namespace OrderIterator

variable {T : Type}

/-- Member `const T& operator*() const` of `OrderIterator`: throws when the index is
not below the size of `_elements`, and returns the element at the index otherwise. -/
def operator_star (self : OrderIterator T) : Except Exn T × OrderIterator T :=
  if h : self.current_index ≥ self._elements.length then
    (Except.error outOfBounds, self)
  else
    (Except.ok (self._elements.get ⟨self.current_index, Nat.lt_of_not_le h⟩), self)

/-- Member `OrderIterator& operator++()`: `++current_index`, then a reference to the
iterator itself. -/
def operator_pre_increment (self : OrderIterator T) : OrderIterator T × OrderIterator T :=
  let self := OrderIterator.mk self._elements (usize_inc self.current_index) self.owner
  (self, self)

/-- Member `OrderIterator operator++(int)`: a copy taken before `++current_index`. -/
def operator_post_increment (self : OrderIterator T) : OrderIterator T × OrderIterator T :=
  let tmp := self
  (tmp, OrderIterator.mk self._elements (usize_inc self.current_index) self.owner)

/-- Member `bool operator==(const OrderIterator& other) const`: same owner and same
index. -/
def operator_eq (self other : OrderIterator T) : Bool :=
  decide (self.owner = other.owner) && decide (self.current_index = other.current_index)

/-- Member `bool operator!=(const OrderIterator& other) const`: the negation of
`operator==`. -/
def operator_ne (self other : OrderIterator T) : Bool :=
  !(self.operator_eq other)

end OrderIterator

namespace ReverseOrderIterator

variable {T : Type}

/-- Member `const T& operator*() const` of `ReverseOrderIterator`: throws when the index is
not below the size of `reverse_elements`, and returns the element at the index otherwise. -/
def operator_star (self : ReverseOrderIterator T) : Except Exn T × ReverseOrderIterator T :=
  if h : self.current_index ≥ self.reverse_elements.length then
    (Except.error outOfBounds, self)
  else
    (Except.ok (self.reverse_elements.get ⟨self.current_index, Nat.lt_of_not_le h⟩), self)

/-- Member `ReverseOrderIterator& operator++()`: `++current_index`, then a reference to the
iterator itself. -/
def operator_pre_increment (self : ReverseOrderIterator T) : ReverseOrderIterator T × ReverseOrderIterator T :=
  let self := ReverseOrderIterator.mk self.reverse_elements (usize_inc self.current_index) self.owner
  (self, self)

/-- Member `ReverseOrderIterator operator++(int)`: a copy taken before `++current_index`. -/
def operator_post_increment (self : ReverseOrderIterator T) : ReverseOrderIterator T × ReverseOrderIterator T :=
  let tmp := self
  (tmp, ReverseOrderIterator.mk self.reverse_elements (usize_inc self.current_index) self.owner)

/-- Member `bool operator==(const ReverseOrderIterator& other) const`: same owner and same
index. -/
def operator_eq (self other : ReverseOrderIterator T) : Bool :=
  decide (self.owner = other.owner) && decide (self.current_index = other.current_index)

/-- Member `bool operator!=(const ReverseOrderIterator& other) const`: the negation of
`operator==`. -/
def operator_ne (self other : ReverseOrderIterator T) : Bool :=
  !(self.operator_eq other)

end ReverseOrderIterator

namespace AscendingIterator

variable {T : Type}

/-- Member `const T& operator*() const` of `AscendingIterator`: throws when the index is
not below the size of `sorted_elements`, and returns the element at the index otherwise. -/
def operator_star (self : AscendingIterator T) : Except Exn T × AscendingIterator T :=
  if h : self.current_index ≥ self.sorted_elements.length then
    (Except.error outOfBounds, self)
  else
    (Except.ok (self.sorted_elements.get ⟨self.current_index, Nat.lt_of_not_le h⟩), self)

/-- Member `AscendingIterator& operator++()`: `++current_index`, then a reference to the
iterator itself. -/
def operator_pre_increment (self : AscendingIterator T) : AscendingIterator T × AscendingIterator T :=
  let self := AscendingIterator.mk self.sorted_elements (usize_inc self.current_index) self.owner
  (self, self)

/-- Member `AscendingIterator operator++(int)`: a copy taken before `++current_index`. -/
def operator_post_increment (self : AscendingIterator T) : AscendingIterator T × AscendingIterator T :=
  let tmp := self
  (tmp, AscendingIterator.mk self.sorted_elements (usize_inc self.current_index) self.owner)

/-- Member `bool operator==(const AscendingIterator& other) const`: same owner and same
index. -/
def operator_eq (self other : AscendingIterator T) : Bool :=
  decide (self.owner = other.owner) && decide (self.current_index = other.current_index)

/-- Member `bool operator!=(const AscendingIterator& other) const`: the negation of
`operator==`. -/
def operator_ne (self other : AscendingIterator T) : Bool :=
  !(self.operator_eq other)

end AscendingIterator

namespace DescendingOrder

variable {T : Type}

/-- Member `const T& operator*() const` of `DescendingOrder`: throws when the index is
not below the size of `reverse_sorted_elements`, and returns the element at the index otherwise. -/
def operator_star (self : DescendingOrder T) : Except Exn T × DescendingOrder T :=
  if h : self.current_index ≥ self.reverse_sorted_elements.length then
    (Except.error outOfBounds, self)
  else
    (Except.ok (self.reverse_sorted_elements.get ⟨self.current_index, Nat.lt_of_not_le h⟩), self)

/-- Member `DescendingOrder& operator++()`: `++current_index`, then a reference to the
iterator itself. -/
def operator_pre_increment (self : DescendingOrder T) : DescendingOrder T × DescendingOrder T :=
  let self := DescendingOrder.mk self.reverse_sorted_elements (usize_inc self.current_index) self.owner
  (self, self)

/-- Member `DescendingOrder operator++(int)`: a copy taken before `++current_index`. -/
def operator_post_increment (self : DescendingOrder T) : DescendingOrder T × DescendingOrder T :=
  let tmp := self
  (tmp, DescendingOrder.mk self.reverse_sorted_elements (usize_inc self.current_index) self.owner)

/-- Member `bool operator==(const DescendingOrder& other) const`: same owner and same
index. -/
def operator_eq (self other : DescendingOrder T) : Bool :=
  decide (self.owner = other.owner) && decide (self.current_index = other.current_index)

/-- Member `bool operator!=(const DescendingOrder& other) const`: the negation of
`operator==`. -/
def operator_ne (self other : DescendingOrder T) : Bool :=
  !(self.operator_eq other)

end DescendingOrder

namespace SideCrossIterator

variable {T : Type}

/-- Member `const T& operator*() const` of `SideCrossIterator`: throws when the index is
not below the size of `side_cross_order`, and returns the element at the index otherwise. -/
def operator_star (self : SideCrossIterator T) : Except Exn T × SideCrossIterator T :=
  if h : self.current_index ≥ self.side_cross_order.length then
    (Except.error outOfBounds, self)
  else
    (Except.ok (self.side_cross_order.get ⟨self.current_index, Nat.lt_of_not_le h⟩), self)

/-- Member `SideCrossIterator& operator++()`: `++current_index`, then a reference to the
iterator itself. -/
def operator_pre_increment (self : SideCrossIterator T) : SideCrossIterator T × SideCrossIterator T :=
  let self := SideCrossIterator.mk self.sorted_elements self.side_cross_order (usize_inc self.current_index) self.owner
  (self, self)

/-- Member `SideCrossIterator operator++(int)`: a copy taken before `++current_index`. -/
def operator_post_increment (self : SideCrossIterator T) : SideCrossIterator T × SideCrossIterator T :=
  let tmp := self
  (tmp, SideCrossIterator.mk self.sorted_elements self.side_cross_order (usize_inc self.current_index) self.owner)

/-- Member `bool operator==(const SideCrossIterator& other) const`: same owner and same
index. -/
def operator_eq (self other : SideCrossIterator T) : Bool :=
  decide (self.owner = other.owner) && decide (self.current_index = other.current_index)

/-- Member `bool operator!=(const SideCrossIterator& other) const`: the negation of
`operator==`. -/
def operator_ne (self other : SideCrossIterator T) : Bool :=
  !(self.operator_eq other)

end SideCrossIterator

namespace MiddleOutIterator

variable {T : Type}

/-- Member `const T& operator*() const` of `MiddleOutIterator`: throws when the index is
not below the size of `middle_out_order`, and returns the element at the index otherwise. -/
def operator_star (self : MiddleOutIterator T) : Except Exn T × MiddleOutIterator T :=
  if h : self.current_index ≥ self.middle_out_order.length then
    (Except.error outOfBounds, self)
  else
    (Except.ok (self.middle_out_order.get ⟨self.current_index, Nat.lt_of_not_le h⟩), self)

/-- Member `MiddleOutIterator& operator++()`: `++current_index`, then a reference to the
iterator itself. -/
def operator_pre_increment (self : MiddleOutIterator T) : MiddleOutIterator T × MiddleOutIterator T :=
  let self := MiddleOutIterator.mk self.middle_out_order (usize_inc self.current_index) self.owner
  (self, self)

/-- Member `MiddleOutIterator operator++(int)`: a copy taken before `++current_index`. -/
def operator_post_increment (self : MiddleOutIterator T) : MiddleOutIterator T × MiddleOutIterator T :=
  let tmp := self
  (tmp, MiddleOutIterator.mk self.middle_out_order (usize_inc self.current_index) self.owner)

/-- Member `bool operator==(const MiddleOutIterator& other) const`: same owner and same
index. -/
def operator_eq (self other : MiddleOutIterator T) : Bool :=
  decide (self.owner = other.owner) && decide (self.current_index = other.current_index)

/-- Member `bool operator!=(const MiddleOutIterator& other) const`: the negation of
`operator==`. -/
def operator_ne (self other : MiddleOutIterator T) : Bool :=
  !(self.operator_eq other)

end MiddleOutIterator

namespace MyContainer

variable {T : Type}

/-! ### The twelve accessors

`this` is the address of the container the accessor is called on. -/

/-- Member `OrderIterator begin_order()`. -/
def begin_order (self : MyContainer T) (this : Nat) : OrderIterator T × MyContainer T :=
  (OrderIterator.init self.elements 0 this, self)

/-- Member `OrderIterator end_order()`. -/
def end_order (self : MyContainer T) (this : Nat) : OrderIterator T × MyContainer T :=
  (OrderIterator.init self.elements self.elements.length this, self)

/-- Member `ReverseOrderIterator begin_reverse_order()`. -/
def begin_reverse_order (self : MyContainer T) (this : Nat) :
    ReverseOrderIterator T × MyContainer T :=
  (ReverseOrderIterator.init self.elements 0 this, self)

/-- Member `ReverseOrderIterator end_reverse_order()`. -/
def end_reverse_order (self : MyContainer T) (this : Nat) :
    ReverseOrderIterator T × MyContainer T :=
  (ReverseOrderIterator.init self.elements self.elements.length this, self)

/-- Member `AscendingIterator begin_ascending_order()`. -/
def begin_ascending_order [LinearOrder T] (self : MyContainer T) (this : Nat) :
    AscendingIterator T × MyContainer T :=
  (AscendingIterator.init self.elements 0 this, self)

/-- Member `AscendingIterator end_ascending_order()`. -/
def end_ascending_order [LinearOrder T] (self : MyContainer T) (this : Nat) :
    AscendingIterator T × MyContainer T :=
  (AscendingIterator.init self.elements self.elements.length this, self)

/-- Member `DescendingOrder begin_descending_order()`. -/
def begin_descending_order [LinearOrder T] (self : MyContainer T) (this : Nat) :
    DescendingOrder T × MyContainer T :=
  (DescendingOrder.init self.elements 0 this, self)

/-- Member `DescendingOrder end_descending_order()`. -/
def end_descending_order [LinearOrder T] (self : MyContainer T) (this : Nat) :
    DescendingOrder T × MyContainer T :=
  (DescendingOrder.init self.elements self.elements.length this, self)

/-- Member `SideCrossIterator begin_side_cross_order()`. -/
def begin_side_cross_order [LinearOrder T] (self : MyContainer T) (this : Nat) :
    Option (SideCrossIterator T) × MyContainer T :=
  (SideCrossIterator.init self.elements 0 this, self)

/-- Member `SideCrossIterator end_side_cross_order()`. -/
def end_side_cross_order [LinearOrder T] (self : MyContainer T) (this : Nat) :
    Option (SideCrossIterator T) × MyContainer T :=
  (SideCrossIterator.init self.elements self.elements.length this, self)

/-- Member `MiddleOutIterator begin_middle_out_order()`. -/
def begin_middle_out_order (self : MyContainer T) (this : Nat) :
    Option (MiddleOutIterator T) × MyContainer T :=
  (MiddleOutIterator.init self.elements 0 this, self)

/-- Member `MiddleOutIterator end_middle_out_order()`. -/
def end_middle_out_order (self : MyContainer T) (this : Nat) :
    Option (MiddleOutIterator T) × MyContainer T :=
  (MiddleOutIterator.init self.elements self.elements.length this, self)

end MyContainer

/-! ## A client of one container -/

/-- A call a client makes on one container. -/
inductive Call (T : Type) where
  | add (element : T)
  | remove (element : T)
  | begin_order
  | end_order
  | begin_reverse_order
  | end_reverse_order
  | begin_ascending_order
  | end_ascending_order
  | begin_descending_order
  | end_descending_order
  | begin_side_cross_order
  | end_side_cross_order
  | begin_middle_out_order
  | end_middle_out_order
deriving DecidableEq

section client
variable {T : Type} [LinearOrder T]

/-- Whether the call is a `remove`. -/
def Call.is_remove : Call T → Bool
  | Call.remove _ => true
  | _ => false

/-- The container after one call made on the container at address `this`; a
client that catches the exception of a failed `remove` goes on with the
container as the call left it, and an iterator that is returned is dropped. -/
def exec (this : Nat) (c : MyContainer T) : Call T → MyContainer T
  | Call.add element => c.add element
  | Call.remove element => (c.remove element).2
  | Call.begin_order => (c.begin_order this).2
  | Call.end_order => (c.end_order this).2
  | Call.begin_reverse_order => (c.begin_reverse_order this).2
  | Call.end_reverse_order => (c.end_reverse_order this).2
  | Call.begin_ascending_order => (c.begin_ascending_order this).2
  | Call.end_ascending_order => (c.end_ascending_order this).2
  | Call.begin_descending_order => (c.begin_descending_order this).2
  | Call.end_descending_order => (c.end_descending_order this).2
  | Call.begin_side_cross_order => (c.begin_side_cross_order this).2
  | Call.end_side_cross_order => (c.end_side_cross_order this).2
  | Call.begin_middle_out_order => (c.begin_middle_out_order this).2
  | Call.end_middle_out_order => (c.end_middle_out_order this).2

/-- The container after a sequence of calls, made in order. -/
def run (this : Nat) (c : MyContainer T) (calls : List (Call T)) : MyContainer T :=
  calls.foldl (exec this) c

/-- Number of `add` calls in a sequence of calls. -/
def num_adds : List (Call T) → Nat
  | [] => 0
  | Call.add _ :: rest => num_adds rest + 1
  | _ :: rest => num_adds rest

/-- The values of the `add` calls of a sequence of calls, in call order. -/
def added_values : List (Call T) → List T
  | [] => []
  | Call.add element :: rest => element :: added_values rest
  | _ :: rest => added_values rest

/-- Number of elements one call deletes from the container `c`: the stored
elements equal to the argument for a `remove` that succeeds, none otherwise. -/
def deleted_by (c : MyContainer T) : Call T → Nat
  | Call.remove element =>
    match (c.remove element).1 with
    | Except.ok _ => c.elements.count element
    | Except.error _ => 0
  | _ => 0

/-- Number of elements deleted in all by a sequence of calls that starts on
the container `c`. -/
def num_deleted (this : Nat) : MyContainer T → List (Call T) → Nat
  | _, [] => 0
  | c, call :: rest => deleted_by c call + num_deleted this (exec this c call) rest

end client

/-! ## Copies and several containers -/

/-- Copy constructor `MyContainer(const MyContainer& other)`: the new container
gets a copy of the vector of `other`. -/
def MyContainer.copy {T : Type} (other : MyContainer T) : MyContainer T :=
  MyContainer.mk other.elements

/-- Member `MyContainer& operator=(const MyContainer& other)` of the container
at address `this`, where `other` lives at `other_address`: the vector is
copied unless both are the same object.  The result is the container after
the call. -/
def MyContainer.operator_assign {T : Type} (self : MyContainer T) (this : Nat)
    (other : MyContainer T) (other_address : Nat) : MyContainer T :=
  if this ≠ other_address then MyContainer.mk other.elements else self

/-- The containers of a program, by address. -/
def Store (T : Type) : Type := Nat → MyContainer T

/-- The store after one call made on the container at address `this`. -/
def store_call {T : Type} [LinearOrder T] (st : Store T) (this : Nat) (call : Call T) :
    Store T :=
  Function.update st this (exec this (st this) call)

/-- The store after a sequence of calls made on the container at address `this`. -/
def store_run {T : Type} [LinearOrder T] (st : Store T) (this : Nat) (calls : List (Call T)) :
    Store T :=
  calls.foldl (fun st call => store_call st this call) st

/-- The store after `MyContainer<T> dst(src)`: the container at `dst` is
copy-constructed from the one at `src`. -/
def store_copy_construct {T : Type} (st : Store T) (dst src : Nat) : Store T :=
  Function.update st dst (MyContainer.copy (st src))

/-- The store after `dst = src`. -/
def store_assign {T : Type} (st : Store T) (dst src : Nat) : Store T :=
  Function.update st dst ((st dst).operator_assign dst (st src) src)

/-! ## Containers and iterators in memory -/

/-- An object of a program: a container, or an iterator of one of the six
classes.  An iterator holds its sequence as a member of its own and the
address of its owner. -/
inductive Obj (T : Type) where
  | container (c : MyContainer T)
  | order (it : OrderIterator T)
  | reverse_order (it : ReverseOrderIterator T)
  | ascending (it : AscendingIterator T)
  | descending (it : DescendingOrder T)
  | side_cross (it : SideCrossIterator T)
  | middle_out (it : MiddleOutIterator T)
deriving DecidableEq

/-- The objects of a program by address; `none` where no object lives. -/
def Memory (T : Type) : Type := Nat → Option (Obj T)

section memory
variable {T : Type} [LinearOrder T]

/-- The iterator that a call on the container `c` at address `this` returns:
none for `add` and `remove`, and for an accessor whose constructor has no
result. -/
def returned (this : Nat) (c : MyContainer T) : Call T → Option (Obj T)
  | Call.add _ => none
  | Call.remove _ => none
  | Call.begin_order => some (Obj.order (c.begin_order this).1)
  | Call.end_order => some (Obj.order (c.end_order this).1)
  | Call.begin_reverse_order => some (Obj.reverse_order (c.begin_reverse_order this).1)
  | Call.end_reverse_order => some (Obj.reverse_order (c.end_reverse_order this).1)
  | Call.begin_ascending_order => some (Obj.ascending (c.begin_ascending_order this).1)
  | Call.end_ascending_order => some (Obj.ascending (c.end_ascending_order this).1)
  | Call.begin_descending_order => some (Obj.descending (c.begin_descending_order this).1)
  | Call.end_descending_order => some (Obj.descending (c.end_descending_order this).1)
  | Call.begin_side_cross_order => (c.begin_side_cross_order this).1.map Obj.side_cross
  | Call.end_side_cross_order => (c.end_side_cross_order this).1.map Obj.side_cross
  | Call.begin_middle_out_order => (c.begin_middle_out_order this).1.map Obj.middle_out
  | Call.end_middle_out_order => (c.end_middle_out_order this).1.map Obj.middle_out

/-- The memory after the statement `c.call(...)` on the object at address
`this`: a member function of the container writes the members of its own
object.  Nothing happens where `this` holds no container. -/
def mem_call (m : Memory T) (this : Nat) (call : Call T) : Memory T :=
  match m this with
  | some (Obj.container c) => Function.update m this (some (Obj.container (exec this c call)))
  | _ => m

/-- The memory after a sequence of calls on the container at address `this`. -/
def mem_run (m : Memory T) (this : Nat) (calls : List (Call T)) : Memory T :=
  calls.foldl (fun m call => mem_call m this call) m

/-- The memory after the declaration `auto it = c.call();` that puts the
iterator returned by an accessor of the container at `this` at the address
`it`; `none` where `this` holds no container or the call returns no
iterator. -/
def mem_declare (m : Memory T) (this it : Nat) (call : Call T) : Option (Memory T) :=
  match m this with
  | some (Obj.container c) =>
    (returned this c call).map
      (fun o => Function.update (mem_call m this call) it (some o))
  | _ => none

end memory

/-- The memory after `++it` on the iterator at address `it`. -/
def mem_operator_pre_increment {T : Type} (m : Memory T) (it : Nat) : Memory T :=
  match m it with
  | some (Obj.order x) => Function.update m it (some (Obj.order x.operator_pre_increment.2))
  | some (Obj.reverse_order x) =>
    Function.update m it (some (Obj.reverse_order x.operator_pre_increment.2))
  | some (Obj.ascending x) =>
    Function.update m it (some (Obj.ascending x.operator_pre_increment.2))
  | some (Obj.descending x) =>
    Function.update m it (some (Obj.descending x.operator_pre_increment.2))
  | some (Obj.side_cross x) =>
    Function.update m it (some (Obj.side_cross x.operator_pre_increment.2))
  | some (Obj.middle_out x) =>
    Function.update m it (some (Obj.middle_out x.operator_pre_increment.2))
  | _ => m

/-- The memory after `k` times `++it`. -/
def mem_advance {T : Type} (m : Memory T) (it : Nat) : Nat → Memory T
  | 0 => m
  | k + 1 => mem_advance (mem_operator_pre_increment m it) it k

/-- The result of `*it` for the iterator at address `it`: the element or the
exception; `none` where `it` holds no iterator. -/
def mem_operator_star {T : Type} (m : Memory T) (it : Nat) : Option (Except Exn T) :=
  match m it with
  | some (Obj.order x) => some x.operator_star.1
  | some (Obj.reverse_order x) => some x.operator_star.1
  | some (Obj.ascending x) => some x.operator_star.1
  | some (Obj.descending x) => some x.operator_star.1
  | some (Obj.side_cross x) => some x.operator_star.1
  | some (Obj.middle_out x) => some x.operator_star.1
  | _ => none

/-! ## The scanning loop of the clients -/

/-- The loop `for (auto it = begin; it != end(); ++it) result.push_back(*it);`
of the tests and the demo, for any of the six iterator classes: `fin` is the
end accessor, called on the container `s` before every round.  The loop gets
`fuel` tests of its condition; `none` when they are used up or an accessor has
no result, `Except.error` when a dereference throws. -/
def scan_loop {S C T : Type} (fin : S → Option C × S) (ne : C → C → Bool)
    (star : C → Except Exn T × C) (inc : C → C × C) :
    Nat → S → C → List T → Option (Except Exn (List T))
  | 0, _, _, _ => none
  | fuel + 1, s, it, result =>
    match fin s with
    | (none, _) => none
    | (some last, s) =>
      if ne it last then
        match star it with
        | (Except.ok x, it) => scan_loop fin ne star inc fuel s (inc it).2 (push_back result x)
        | (Except.error e, _) => some (Except.error e)
      else
        some (Except.ok result)

namespace MyContainer

variable {T : Type}

/-- The scan `for (auto it = c.begin_order(); it != c.end_order(); ++it)`. -/
def scan_order (self : MyContainer T) (this fuel : Nat) :
    Option (Except Exn (List T)) :=
  scan_loop (fun s : MyContainer T => (some (s.end_order this).1, (s.end_order this).2))
    OrderIterator.operator_ne OrderIterator.operator_star OrderIterator.operator_pre_increment
    fuel (self.begin_order this).2 (self.begin_order this).1 []

/-- The scan `for (auto it = c.begin_reverse_order(); it != c.end_reverse_order(); ++it)`. -/
def scan_reverse_order (self : MyContainer T) (this fuel : Nat) :
    Option (Except Exn (List T)) :=
  scan_loop (fun s : MyContainer T => (some (s.end_reverse_order this).1, (s.end_reverse_order this).2))
    ReverseOrderIterator.operator_ne ReverseOrderIterator.operator_star ReverseOrderIterator.operator_pre_increment
    fuel (self.begin_reverse_order this).2 (self.begin_reverse_order this).1 []

/-- The scan `for (auto it = c.begin_ascending_order(); it != c.end_ascending_order(); ++it)`. -/
def scan_ascending_order [LinearOrder T] (self : MyContainer T) (this fuel : Nat) :
    Option (Except Exn (List T)) :=
  scan_loop (fun s : MyContainer T => (some (s.end_ascending_order this).1, (s.end_ascending_order this).2))
    AscendingIterator.operator_ne AscendingIterator.operator_star AscendingIterator.operator_pre_increment
    fuel (self.begin_ascending_order this).2 (self.begin_ascending_order this).1 []

/-- The scan `for (auto it = c.begin_descending_order(); it != c.end_descending_order(); ++it)`. -/
def scan_descending_order [LinearOrder T] (self : MyContainer T) (this fuel : Nat) :
    Option (Except Exn (List T)) :=
  scan_loop (fun s : MyContainer T => (some (s.end_descending_order this).1, (s.end_descending_order this).2))
    DescendingOrder.operator_ne DescendingOrder.operator_star DescendingOrder.operator_pre_increment
    fuel (self.begin_descending_order this).2 (self.begin_descending_order this).1 []

/-- The scan `for (auto it = c.begin_side_cross_order(); it != c.end_side_cross_order(); ++it)`. -/
def scan_side_cross_order [LinearOrder T] (self : MyContainer T) (this fuel : Nat) :
    Option (Except Exn (List T)) :=
  match self.begin_side_cross_order this with
  | (none, _) => none
  | (some first, s) =>
    scan_loop (fun s : MyContainer T => s.end_side_cross_order this)
      SideCrossIterator.operator_ne SideCrossIterator.operator_star SideCrossIterator.operator_pre_increment
      fuel s first []

/-- The scan `for (auto it = c.begin_middle_out_order(); it != c.end_middle_out_order(); ++it)`. -/
def scan_middle_out_order (self : MyContainer T) (this fuel : Nat) :
    Option (Except Exn (List T)) :=
  match self.begin_middle_out_order this with
  | (none, _) => none
  | (some first, s) =>
    scan_loop (fun s : MyContainer T => s.end_middle_out_order this)
      MiddleOutIterator.operator_ne MiddleOutIterator.operator_star MiddleOutIterator.operator_pre_increment
      fuel s first []

end MyContainer

/-! ## Reference orders -/

/-- Alternation of two sequences, `a0, b0, a1, b1, ...`; what is left of the
longer one follows at the end. -/
def alternate {T : Type} : List T → List T → List T
  | a :: as, b :: bs => a :: b :: alternate as bs
  | as, [] => as
  | [], bs => bs

/-- The order "smallest, largest, 2nd-smallest, 2nd-largest, ..." over a sorted
sequence `s`: the front half of `s` alternated with the back half read
backwards. -/
def alternate_ends {T : Type} (s : List T) : List T :=
  alternate (s.take ((s.length + 1) / 2)) (s.reverse.take (s.length / 2))

/-- What the two-cursor loop has emitted after `k` rounds. -/
def cross_emitted {T : Type} (s : List T) (k : Nat) : List T :=
  alternate (s.take k) (s.reverse.take k)

/-- What the middle-out order emits at one offset from the middle index `mid`:
the element `offset` places to the left and then, when that position exists,
the element `offset` places to the right. -/
def middle_out_emission {T : Type} (e : List T) (mid offset : Nat) : List T :=
  (e[mid - offset]?).toList ++ (if mid + offset < e.length then (e[mid + offset]?).toList else [])

/-- The middle-out order of a snapshot `e` in words: the element at the middle
index `n / 2`, then the emissions at the offsets `1, 2, ..., n / 2` in this order. -/
def middle_out_ref {T : Type} (e : List T) : List T :=
  (e[e.length / 2]?).toList ++
    (List.range' 1 (e.length / 2)).flatMap (middle_out_emission e (e.length / 2))

/-- The relation between the two cursors of the side-cross loop over a vector
of length `n` whenever the loop tests its condition: either the cursors
enclose the part not yet emitted, or they have just passed each other on the
middle element of a vector of odd length. -/
def cross_cursors_ok (n : Nat) (left right : Nat) : Prop :=
  (left + right + 1 = n ∧ 2 * left ≤ n) ∨ (left = right + 1 ∧ left + right = n)

/-! ## Lemmas -/

section lemmas_eq
variable {T : Type} [DecidableEq T]

theorem std_find_le (v : List T) (value : T) : std_find v value ≤ v.length := by
  induction v with
  | nil => simp [std_find]
  | cons x rest ih =>
    simp only [std_find]
    split
    · simp
    · simp; omega

theorem std_find_eq_length_iff (v : List T) (value : T) :
    std_find v value = v.length ↔ value ∉ v := by
  induction v with
  | nil => simp [std_find]
  | cons x rest ih =>
    simp only [std_find]
    by_cases h : x = value
    · subst h; simp
    · have h2 : ¬ value = x := fun e => h e.symm
      simp [h, h2, ih]

/-- Invariant of the compaction loop after the read position has passed `i` elements. -/
theorem std_remove_fold (v : List T) (value : T) (i : Nat) (hi : i ≤ v.length) :
    let st := (List.range i).foldl (std_remove_step value) (v, 0)
    st.1.length = v.length ∧ st.2 ≤ i ∧
      st.1.take st.2 = (v.take i).filter (fun x => x ≠ value) ∧
      st.1.drop i = v.drop i := by
  induction i with
  | zero => simp
  | succ i ih =>
    have ih := ih (by omega)
    simp only [List.range_succ, List.foldl_append, List.foldl_cons, List.foldl_nil]
    generalize (List.range i).foldl (std_remove_step value) (v, 0) = st at ih ⊢
    obtain ⟨a, first⟩ := st
    simp only at ih ⊢
    obtain ⟨hlen, hle, htake, hdrop⟩ := ih
    have hiv : i < v.length := by omega
    have hia : i < a.length := by omega
    have hai : a[i]? = some v[i] := by
      have := congrArg (fun l => l[0]?) hdrop
      simpa [hia, hiv] using this
    have hv : v.take (i + 1) = v.take i ++ [v[i]] := by
      rw [List.take_succ, List.getElem?_eq_getElem hiv]; rfl
    simp only [std_remove_step, hai]
    by_cases hx : v[i] = value
    · simp only [hx, if_true]
      refine ⟨hlen, by omega, ?_, ?_⟩
      · rw [htake, hv, List.filter_append]; simp [hx]
      · have := congrArg (fun l => l.drop 1) hdrop
        simpa using this
    · simp only [hx, if_false]
      refine ⟨by simpa using hlen, by omega, ?_, ?_⟩
      · have hfa : first < a.length := by omega
        rw [hv, List.filter_append, ← htake, List.take_succ]
        simp [hx, List.getElem?_set, hfa]
        rw [List.set_take]
        exact List.set_eq_of_length_le (by simp)
      · show List.drop (i + 1) (a.set first v[i]) = List.drop (i + 1) v
        rw [List.drop_set_of_lt _ _ (by omega)]
        have := congrArg (fun l => l.drop 1) hdrop
        simpa using this


theorem std_remove_spec (v : List T) (value : T) :
    (std_remove v value).1.length = v.length ∧
      (std_remove v value).2 ≤ v.length ∧
      (std_remove v value).1.take (std_remove v value).2 = v.filter (fun x => x ≠ value) := by
  have h := std_remove_fold v value v.length (le_refl _)
  simp only [List.take_length] at h
  exact ⟨h.1, h.2.1, h.2.2.1⟩

theorem erase_std_remove (v : List T) (value : T) :
    erase (std_remove v value).1 (std_remove v value).2 (std_remove v value).1.length
      = v.filter (fun x => x ≠ value) := by
  obtain ⟨_, _, h3⟩ := std_remove_spec v value
  simp [erase, h3]


end lemmas_eq

theorem usize_inc_eq (x : Nat) (h : x + 1 < USIZE) : usize_inc x = x + 1 := by
  unfold usize_inc; exact Nat.mod_eq_of_lt h

theorem usize_dec_eq (x : Nat) (h1 : 1 ≤ x) (h2 : x < USIZE) : usize_dec x = x - 1 := by
  unfold usize_dec
  have e : x + USIZE - 1 = (x - 1) + USIZE := by omega
  rw [e, Nat.add_mod_right, Nat.mod_eq_of_lt (by omega)]

theorem usize_sub_eq (x y : Nat) (h1 : y ≤ x) (h2 : x < USIZE) : usize_sub x y = x - y := by
  unfold usize_sub
  have e : x + USIZE - y = (x - y) + USIZE := by omega
  rw [e, Nat.add_mod_right, Nat.mod_eq_of_lt (by omega)]

theorem usize_add_eq (x y : Nat) (h : x + y < USIZE) : usize_add x y = x + y := by
  unfold usize_add; exact Nat.mod_eq_of_lt h

theorem intercalate_go_concat (s : String) (as : List String) (acc a : String) :
    String.intercalate.go acc s (as ++ [a]) = String.intercalate.go acc s as ++ s ++ a := by
  induction as generalizing acc with
  | nil => simp [String.intercalate.go]
  | cons b bs ih => simp [String.intercalate.go, ih]

theorem intercalate_concat (s : String) (as : List String) (a : String) :
    String.intercalate s (as ++ [a]) =
      if as = [] then a else String.intercalate s as ++ s ++ a := by
  cases as with
  | nil => simp [String.intercalate, String.intercalate.go]
  | cons b bs => simp [String.intercalate, intercalate_go_concat]


section lemmas_print
variable {T : Type} [ToString T]

theorem operator_lshift_fold (elements : List T) (os : String) (hn : elements.length < USIZE)
    (i : Nat) (hi : i ≤ elements.length) :
    (List.range i).foldl (MyContainer.operator_lshift_step elements) (some os) =
      some (os ++ String.intercalate ", " ((elements.take i).map toString) ++
        if 0 < i ∧ i < elements.length then ", " else "") := by
  induction i with
  | zero => simp [String.intercalate]
  | succ i ih =>
    have hiv : i < elements.length := by omega
    rw [List.range_succ, List.foldl_append, ih (by omega)]
    have hs : usize_sub elements.length 1 = elements.length - 1 :=
      usize_sub_eq _ 1 (by omega) hn
    have ht : elements.take (i + 1) = elements.take i ++ [elements[i]] := by
      rw [List.take_succ, List.getElem?_eq_getElem hiv]; rfl
    simp only [List.foldl_cons, List.foldl_nil, MyContainer.operator_lshift_step, hs,
      List.getElem?_eq_getElem hiv, ht, List.map_append, List.map_cons, List.map_nil,
      intercalate_concat]
    have hc : (i < elements.length - 1) ↔ (i + 1 < elements.length) := by omega
    simp only [Option.bind_eq_bind, Option.some_bind, hc]
    rcases Nat.eq_zero_or_pos i with h0 | h0
    · subst h0
      by_cases h1 : 0 + 1 < elements.length <;> simp [h1, String.intercalate, String.append_assoc]
    · have hne : ¬ (List.map toString (List.take i elements) = []) := by
        intro h
        have h2 := congrArg List.length h
        simp only [List.length_map, List.length_take, List.length_nil] at h2
        omega
      rw [if_neg hne]
      by_cases h1 : i + 1 < elements.length <;>
        simp [h1, h0, hiv, String.append_assoc]

theorem operator_lshift_spec (os : String) (c : MyContainer T) (hn : c.elements.length < USIZE) :
    MyContainer.operator_lshift os c =
      some (os ++ "[" ++ String.intercalate ", " (c.elements.map toString) ++ "]") := by
  unfold MyContainer.operator_lshift
  by_cases he : c.elements = []
  · simp [he, String.intercalate]
  · have hi : c.elements.isEmpty = false := by
      cases h : c.elements with
      | nil => exact absurd h he
      | cons a l => rfl
    simp only [hi, Bool.false_eq_true, if_false]
    rw [operator_lshift_fold c.elements (os ++ "[") hn c.elements.length (le_refl _)]
    simp

end lemmas_print

section lemmas_cross
variable {T : Type}

theorem alternate_nil_right (as : List T) : alternate as [] = as := by
  cases as <;> rfl

theorem alternate_nil_left (bs : List T) : alternate [] bs = bs := by
  cases bs <;> rfl

theorem length_alternate (as bs : List T) :
    (alternate as bs).length = as.length + bs.length := by
  induction as generalizing bs with
  | nil => simp [alternate_nil_left]
  | cons a as ih =>
    cases bs with
    | nil => simp [alternate]
    | cons b bs => simp [alternate, ih]; omega

theorem alternate_concat_both (as bs : List T) (a b : T) (h : as.length = bs.length) :
    alternate (as ++ [a]) (bs ++ [b]) = alternate as bs ++ [a, b] := by
  induction as generalizing bs with
  | nil =>
    cases bs with
    | nil => simp [alternate]
    | cons b bs => simp at h
  | cons x as ih =>
    cases bs with
    | nil => simp at h
    | cons y bs =>
      simp only [List.length_cons, Nat.add_right_cancel_iff] at h
      simp [alternate, ih bs h]

theorem alternate_concat_left (as bs : List T) (a : T) (h : as.length = bs.length) :
    alternate (as ++ [a]) bs = alternate as bs ++ [a] := by
  induction as generalizing bs with
  | nil =>
    cases bs with
    | nil => simp [alternate]
    | cons b bs => simp at h
  | cons x as ih =>
    cases bs with
    | nil => simp at h
    | cons y bs =>
      simp only [List.length_cons, Nat.add_right_cancel_iff] at h
      simp [alternate, ih bs h]

theorem alternate_getElem_even (as bs : List T) (h : bs.length ≤ as.length)
    (h2 : as.length ≤ bs.length + 1) (j : Nat) :
    (alternate as bs)[2 * j]? = as[j]? := by
  induction as generalizing bs j with
  | nil => 
    cases bs with
    | nil => simp [alternate]
    | cons b bs => simp at h
  | cons x as ih =>
    cases bs with
    | nil =>
      have h3 : as = [] := by simpa using h2
      subst h3
      cases j with
      | zero => simp [alternate]
      | succ j =>
        rw [alternate_nil_right, List.getElem?_eq_none (by simp; omega),
          List.getElem?_eq_none (by simp)]
    | cons y bs =>
      cases j with
      | zero => simp [alternate]
      | succ j =>
        simp only [List.length_cons] at h h2
        have := ih bs (by omega) (by omega) j
        simpa [alternate, Nat.mul_succ] using this

theorem alternate_getElem_odd (as bs : List T) (h : bs.length ≤ as.length)
    (h2 : as.length ≤ bs.length + 1) (j : Nat) :
    (alternate as bs)[2 * j + 1]? = bs[j]? := by
  induction as generalizing bs j with
  | nil => 
    cases bs with
    | nil => simp [alternate]
    | cons b bs => simp at h
  | cons x as ih =>
    cases bs with
    | nil => simp at h2; simp [alternate, h2]
    | cons y bs =>
      cases j with
      | zero => simp [alternate]
      | succ j =>
        simp only [List.length_cons] at h h2
        have := ih bs (by omega) (by omega) j
        simpa [alternate, Nat.mul_succ] using this

theorem cross_emitted_succ (s : List T) (k : Nat)
    (hk : k < s.length) (hr : s.length - 1 - k < s.length) :
    cross_emitted s (k + 1) = cross_emitted s k ++ [s[k], s[s.length - 1 - k]] := by
  unfold cross_emitted
  have hkr : k < s.reverse.length := by simpa using hk
  have e1 : s.take (k + 1) = s.take k ++ [s[k]] := by
    rw [List.take_succ, List.getElem?_eq_getElem hk]; rfl
  have e2 : s.reverse.take (k + 1) = s.reverse.take k ++ [s[s.length - 1 - k]] := by
    rw [List.take_succ, List.getElem?_eq_getElem hkr, List.getElem_reverse]; rfl
  rw [e1, e2, alternate_concat_both]
  simp

theorem cross_emitted_even (s : List T) (k : Nat) (h : 2 * k = s.length) :
    cross_emitted s k = alternate_ends s := by
  unfold cross_emitted alternate_ends
  have e1 : (s.length + 1) / 2 = k := by omega
  have e2 : s.length / 2 = k := by omega
  rw [e1, e2]

theorem cross_emitted_odd (s : List T) (k : Nat) (h : 2 * k + 1 = s.length) (hk : k < s.length) :
    cross_emitted s k ++ [s[k]] = alternate_ends s := by
  unfold cross_emitted alternate_ends
  have e1 : (s.length + 1) / 2 = k + 1 := by omega
  have e2 : s.length / 2 = k := by omega
  have e3 : s.take (k + 1) = s.take k ++ [s[k]] := by
    rw [List.take_succ, List.getElem?_eq_getElem hk]; rfl
  rw [e1, e2, e3, alternate_concat_left]
  simp

/-- The two-cursor loop, started after `k` rounds, runs to its exit with the
cursors inside the vector, and ends with the alternation of both ends. -/
theorem side_cross_loop_from (s : List T) (hn : s.length < USIZE) (h1 : 1 ≤ s.length) :
    ∀ (fuel k : Nat), 2 * k ≤ s.length → s.length + 2 ≤ 2 * k + 2 * fuel →
      side_cross_loop s fuel (SideCrossState.mk k (s.length - 1 - k) (cross_emitted s k)) =
        some (SideCrossState.mk ((s.length + 1) / 2) ((s.length - 1) / 2) (alternate_ends s)) := by
  intro fuel
  induction fuel with
  | zero => intro k h2 h3; omega
  | succ fuel ih =>
    intro k h2 h3
    rcases Nat.lt_or_ge (2 * k + 1) s.length with hlt | hge
    · -- two emissions, both cursors move
      have hk : k < s.length := by omega
      have hr : s.length - 1 - k < s.length := by omega
      have hc : k ≤ s.length - 1 - k := by omega
      have hc2 : k + 1 ≤ s.length - 1 - k := by omega
      simp only [side_cross_loop, hc, if_true, side_cross_body, List.getElem?_eq_getElem hk,
        List.getElem?_eq_getElem hr, usize_inc_eq k (by omega), hc2, Option.bind_eq_bind,
        Option.some_bind, usize_dec_eq (s.length - 1 - k) (by omega) (by omega), push_back,
        List.append_assoc, List.singleton_append]
      rw [← cross_emitted_succ s k hk hr]
      have e : s.length - 1 - k - 1 = s.length - 1 - (k + 1) := by omega
      rw [e]
      exact ih (k + 1) (by omega) (by omega)
    · rcases Nat.eq_or_lt_of_le hge with heq | hlt2
      · -- the cursors meet: one emission
        have hk : k < s.length := by omega
        have hc : k ≤ s.length - 1 - k := by omega
        have hc2 : ¬ (k + 1 ≤ s.length - 1 - k) := by omega
        cases fuel with
        | zero => omega
        | succ fuel =>
          simp only [side_cross_loop, hc, if_true, side_cross_body, List.getElem?_eq_getElem hk,
            usize_inc_eq k (by omega), hc2, if_false, Option.bind_eq_bind,
            Option.some_bind, push_back]
          rw [cross_emitted_odd s k (by omega) hk]
          have e1 : (s.length + 1) / 2 = k + 1 := by omega
          have e2 : (s.length - 1) / 2 = s.length - 1 - k := by omega
          rw [e1, e2]
      · -- the cursors have crossed
        have hc : ¬ (k ≤ s.length - 1 - k) := by omega
        simp only [side_cross_loop, hc, if_false]
        rw [cross_emitted_even s k (by omega)]
        have e1 : (s.length + 1) / 2 = k := by omega
        have e2 : (s.length - 1) / 2 = s.length - 1 - k := by omega
        rw [e1, e2]


end lemmas_cross

theorem perm_std_sort {T : Type} (comp : T → T → Prop) [DecidableRel comp] (v : List T) :
    List.Perm (std_sort comp v) v := List.perm_insertionSort _ v

theorem length_std_sort {T : Type} (comp : T → T → Prop) [DecidableRel comp] (v : List T) :
    (std_sort comp v).length = v.length := List.length_insertionSort _ v

section lemmas_sort
variable {T : Type} [LinearOrder T]

theorem std_sort_lt (v : List T) :
    std_sort (fun a b => a < b) v = v.insertionSort (fun a b => a ≤ b) := by
  simp only [std_sort, not_lt]

theorem std_sort_gt (v : List T) :
    std_sort (fun a b => a > b) v = v.insertionSort (fun a b => a ≥ b) := by
  simp only [std_sort, gt_iff_lt, not_lt, ge_iff_le]

theorem sorted_std_sort_lt (v : List T) :
    List.Sorted (fun a b => a ≤ b) (std_sort (fun a b => a < b) v) := by
  rw [std_sort_lt]; exact List.sorted_insertionSort _ v

theorem sorted_std_sort_gt (v : List T) :
    List.Sorted (fun a b => a ≥ b) (std_sort (fun a b => a > b) v) := by
  rw [std_sort_gt]; exact List.sorted_insertionSort _ v

end lemmas_sort


/-! ## Container lemmas -/

theorem remove_of_mem {T : Type} [DecidableEq T] (c : MyContainer T) (v : T)
    (h : v ∈ c.elements) :
    c.remove v = (Except.ok (), MyContainer.mk (c.elements.filter (fun x => x ≠ v))) := by
  have hf : ¬ (std_find c.elements v = c.elements.length) := by
    rw [std_find_eq_length_iff]; exact fun hn => hn h
  simp only [MyContainer.remove, hf, if_false, erase_std_remove]

theorem remove_of_not_mem {T : Type} [DecidableEq T] (c : MyContainer T) (v : T)
    (h : v ∉ c.elements) :
    c.remove v = (Except.error MyContainer.notFound, c) := by
  have hf : std_find c.elements v = c.elements.length :=
    (std_find_eq_length_iff c.elements v).mpr h
  simp only [MyContainer.remove, hf, if_true]

theorem length_filter_ne_add_count {T : Type} [DecidableEq T] (xs : List T) (v : T) :
    (xs.filter (fun x => x ≠ v)).length + xs.count v = xs.length := by
  induction xs with
  | nil => simp
  | cons x xs ih =>
    by_cases h : x = v
    · subst h
      rw [List.filter_cons_of_neg (by simp), List.count_cons_self, List.length_cons]
      omega
    · rw [List.filter_cons_of_pos (by simpa using h), List.count_cons_of_ne (fun e => h e.symm),
        List.length_cons, List.length_cons]
      omega

theorem exec_view {T : Type} [LinearOrder T] (this : Nat) (c : MyContainer T) (call : Call T)
    (h1 : call.is_remove = false) (h2 : ∀ v, call ≠ Call.add v) : exec this c call = c := by
  cases call with
  | add v => exact absurd rfl (h2 v)
  | remove v => simp [Call.is_remove] at h1
  | _ => rfl

theorem exec_size {T : Type} [LinearOrder T] (this : Nat) (c : MyContainer T) (call : Call T) :
    (exec this c call).size + deleted_by c call = c.size + num_adds [call] := by
  cases call with
  | add v => simp [exec, deleted_by, num_adds, MyContainer.add, MyContainer.size, push_back]
  | remove v =>
    by_cases h : v ∈ c.elements
    · simp only [exec, deleted_by, remove_of_mem c v h, num_adds, MyContainer.size]
      exact length_filter_ne_add_count c.elements v
    · simp only [exec, deleted_by, remove_of_not_mem c v h, num_adds, MyContainer.size]
  | _ => rfl

theorem num_adds_cons {T : Type} [LinearOrder T] (call : Call T) (rest : List (Call T)) :
    num_adds (call :: rest) = num_adds [call] + num_adds rest := by
  cases call <;> simp [num_adds, Nat.add_comm]

theorem run_size {T : Type} [LinearOrder T] (this : Nat) (calls : List (Call T)) :
    ∀ c : MyContainer T,
      (run this c calls).size + num_deleted this c calls = c.size + num_adds calls := by
  induction calls with
  | nil => intro c; simp [run, num_deleted, num_adds]
  | cons call rest ih =>
    intro c
    have h1 := ih (exec this c call)
    have h2 := exec_size this c call
    rw [num_adds_cons]
    simp only [run, List.foldl_cons, num_deleted] at h1 ⊢
    omega

theorem run_elements_of_no_remove {T : Type} [LinearOrder T] (this : Nat)
    (calls : List (Call T)) (h : ∀ call ∈ calls, call.is_remove = false) :
    ∀ c : MyContainer T, (run this c calls).elements = c.elements ++ added_values calls := by
  induction calls with
  | nil => intro c; simp [run, added_values]
  | cons call rest ih =>
    intro c
    have hr := ih (fun x hx => h x (List.mem_cons_of_mem _ hx)) (exec this c call)
    have hc := h call (List.mem_cons_self _ _)
    simp only [run, List.foldl_cons] at hr ⊢
    rw [hr]
    cases call with
    | add v => simp [exec, added_values, MyContainer.add, push_back]
    | remove v => simp [Call.is_remove] at hc
    | _ => rfl

theorem side_cross_init {T : Type} [LinearOrder T] (elements : List T) (index container : Nat)
    (hn : elements.length < USIZE) :
    SideCrossIterator.init elements index container =
      some (SideCrossIterator.mk (std_sort (fun a b => a < b) elements)
        (alternate_ends (std_sort (fun a b => a < b) elements)) index container) := by
  cases elements with
  | nil => simp [SideCrossIterator.init, std_sort, alternate_ends, alternate]
  | cons a l =>
    have hl : (std_sort (fun a b => a < b) (a :: l)).length = (a :: l).length :=
      length_std_sort _ _
    have h1 : 1 ≤ (std_sort (fun a b => a < b) (a :: l)).length := by
      rw [hl]; simp
    have hn2 : (std_sort (fun a b => a < b) (a :: l)).length < USIZE := by
      rw [hl]; exact hn
    have h := side_cross_loop_from (std_sort (fun a b => a < b) (a :: l)) hn2 h1
      ((std_sort (fun a b => a < b) (a :: l)).length + 1) 0 (by omega) (by omega)
    simp only [SideCrossIterator.init, List.isEmpty_cons, Bool.false_eq_true, if_false,
      usize_sub_eq _ 1 h1 hn2]
    have e : cross_emitted (std_sort (fun a b => a < b) (a :: l)) 0 = [] := by
      simp [cross_emitted, alternate]
    rw [e] at h
    simp only [Nat.sub_zero] at h
    rw [h]
    rfl


/-! ## The side-cross order by position -/

theorem length_alternate_ends {T : Type} (s : List T) : (alternate_ends s).length = s.length := by
  simp only [alternate_ends, length_alternate, List.length_take, List.length_reverse]
  omega

theorem alternate_ends_even {T : Type} (s : List T) (k : Nat) (h : 2 * k < s.length) :
    (alternate_ends s)[2 * k]? = s[k]? := by
  unfold alternate_ends
  rw [alternate_getElem_even _ _ (by simp; omega) (by simp; omega)]
  rw [List.getElem?_take_of_lt (by omega)]

theorem alternate_ends_odd {T : Type} (s : List T) (k : Nat) (h : 2 * k + 1 < s.length) :
    (alternate_ends s)[2 * k + 1]? = s[s.length - 1 - k]? := by
  unfold alternate_ends
  rw [alternate_getElem_odd _ _ (by simp; omega) (by simp; omega)]
  rw [List.getElem?_take_of_lt (by omega), List.getElem?_reverse (by omega)]

/-! ## The middle-out loop -/

theorem middle_out_body_some {T : Type} (e : List T) (acc : List T) (offset : Nat)
    (hn : e.length < USIZE) (h1 : 1 ≤ offset) (h2 : offset ≤ e.length / 2) :
    middle_out_body e e.length (e.length / 2) (some acc) offset =
      some (acc ++ middle_out_emission e (e.length / 2) offset) := by
  have hge : e.length / 2 ≥ offset := h2
  have hs : usize_sub (e.length / 2) offset = e.length / 2 - offset :=
    usize_sub_eq _ _ h2 (by omega)
  have ha : usize_add (e.length / 2) offset = e.length / 2 + offset :=
    usize_add_eq _ _ (by omega)
  have hl : e.length / 2 - offset < e.length := by omega
  simp only [middle_out_body, Option.bind_eq_bind, Option.some_bind, hge, if_true, hs, ha,
    List.getElem?_eq_getElem hl, Option.map_some', middle_out_emission, Option.toList,
    push_back]
  by_cases hr : e.length / 2 + offset < e.length
  · simp [hr, List.getElem?_eq_getElem hr, push_back]
  · simp [hr]

theorem middle_out_fold {T : Type} (e : List T) (hn : e.length < USIZE) :
    ∀ (offsets : List Nat) (acc : List T),
      (∀ o ∈ offsets, 1 ≤ o ∧ o ≤ e.length / 2) →
      offsets.foldl (middle_out_body e e.length (e.length / 2)) (some acc) =
        some (acc ++ offsets.flatMap (middle_out_emission e (e.length / 2))) := by
  intro offsets
  induction offsets with
  | nil => intro acc _; simp
  | cons o rest ih =>
    intro acc h
    have ho := h o (List.mem_cons_self _ _)
    rw [List.foldl_cons, middle_out_body_some e acc o hn ho.1 ho.2,
      ih _ (fun x hx => h x (List.mem_cons_of_mem _ hx))]
    simp [List.flatMap_cons]

theorem middle_out_init {T : Type} (elements : List T) (index container : Nat)
    (hn : elements.length < USIZE) :
    MiddleOutIterator.init elements index container =
      some (MiddleOutIterator.mk (middle_out_ref elements) index container) := by
  cases hE : elements with
  | nil => simp [MiddleOutIterator.init, middle_out_ref]
  | cons a l =>
    rw [← hE]
    have hpos : 0 < elements.length := by rw [hE]; simp
    have hmid : elements.length / 2 < elements.length := by omega
    have hemp : elements.isEmpty = false := by rw [hE]; rfl
    have hf := middle_out_fold elements hn (List.range' 1 (elements.length / 2))
      [elements[elements.length / 2]] (by
        intro o ho
        rw [List.mem_range'_1] at ho
        omega)
    simp only [MiddleOutIterator.init, hemp, Bool.false_eq_true, if_false,
      List.getElem?_eq_getElem hmid, Option.some_bind, push_back, List.nil_append, hf,
      Option.map_some', middle_out_ref, Option.toList]


theorem alternate_perm_append {T : Type} (as bs : List T) :
    List.Perm (alternate as bs) (as ++ bs) := by
  induction as generalizing bs with
  | nil => rw [alternate_nil_left]; simp
  | cons a as ih =>
    cases bs with
    | nil => simp [alternate]
    | cons b bs =>
      simp only [alternate, List.cons_append]
      refine List.Perm.cons a ?_
      exact (List.Perm.cons b (ih bs)).trans List.perm_middle.symm

theorem middle_out_flat_eq_alternate {T : Type} (e : List T) (k : Nat)
    (hk : k ≤ e.length / 2) :
    (List.range' 1 k).flatMap (middle_out_emission e (e.length / 2)) =
      alternate (((e.take (e.length / 2)).reverse).take k)
        ((e.drop (e.length / 2 + 1)).take k) := by
  induction k with
  | zero => simp [alternate]
  | succ k ih =>
    have ih := ih (by omega)
    have hlr : ((e.take (e.length / 2)).reverse).length = e.length / 2 := by
      simp; omega
    have hk1 : k < ((e.take (e.length / 2)).reverse).length := by omega
    have hleft : ((e.take (e.length / 2)).reverse)[k]? = e[e.length / 2 - (1 + k)]? := by
      rw [List.getElem?_reverse (by simpa using hk1), List.getElem?_take_of_lt (by
        simp only [List.length_take]; omega)]
      congr 1
      simp only [List.length_take]
      omega
    obtain ⟨x, hlsome⟩ : ∃ x, e[e.length / 2 - (1 + k)]? = some x :=
      ⟨_, List.getElem?_eq_getElem (by omega)⟩
    rw [List.range'_concat, List.flatMap_append, ih, List.take_succ, hleft]
    simp only [Nat.one_mul, List.flatMap_cons, List.flatMap_nil, List.append_nil,
      middle_out_emission, hlsome, Option.toList]
    by_cases hr : e.length / 2 + (1 + k) < e.length
    · obtain ⟨y, hrsome⟩ : ∃ y, e[e.length / 2 + (1 + k)]? = some y :=
        ⟨_, List.getElem?_eq_getElem hr⟩
      have hright : (e.drop (e.length / 2 + 1))[k]? = e[e.length / 2 + (1 + k)]? := by
        rw [List.getElem?_drop]; congr 1; omega
      rw [List.take_succ (l := e.drop (e.length / 2 + 1)), hright, hrsome]
      simp only [hr, if_true, Option.toList]
      rw [alternate_concat_both _ _ _ _ (by simp; omega)]
      rfl
    · have hlen : (e.drop (e.length / 2 + 1)).length ≤ k := by
        simp only [List.length_drop]; omega
      rw [List.take_of_length_le (Nat.le_succ_of_le hlen), List.take_of_length_le hlen]
      simp only [hr, if_false, List.append_nil]
      rw [alternate_concat_left _ _ _ (by simp; omega)]


theorem middle_out_ref_eq_alternate {T : Type} (e : List T) :
    middle_out_ref e =
      (e[e.length / 2]?).toList ++
        alternate (e.take (e.length / 2)).reverse (e.drop (e.length / 2 + 1)) := by
  unfold middle_out_ref
  rw [middle_out_flat_eq_alternate e (e.length / 2) (le_refl _)]
  rw [List.take_of_length_le (l := (e.take (e.length / 2)).reverse) (by simp),
    List.take_of_length_le (l := e.drop (e.length / 2 + 1)) (by simp; omega)]

theorem middle_out_ref_perm {T : Type} (e : List T) : List.Perm (middle_out_ref e) e := by
  cases hE : e with
  | nil => simp [middle_out_ref]
  | cons a l =>
    rw [← hE]
    have hmid : e.length / 2 < e.length := by
      have : 0 < e.length := by rw [hE]; simp
      omega
    rw [middle_out_ref_eq_alternate, List.getElem?_eq_getElem hmid]
    have hsplit : e = e.take (e.length / 2) ++ e[e.length / 2] :: e.drop (e.length / 2 + 1) := by
      rw [← List.drop_eq_getElem_cons hmid, List.take_append_drop]
    have h1 := alternate_perm_append (e.take (e.length / 2)).reverse (e.drop (e.length / 2 + 1))
    have h2 : List.Perm ((e.take (e.length / 2)).reverse ++ e.drop (e.length / 2 + 1))
        (e.take (e.length / 2) ++ e.drop (e.length / 2 + 1)) :=
      List.Perm.append_right _ (List.reverse_perm _)
    have h3 : List.Perm (e[e.length / 2] :: (e.take (e.length / 2) ++ e.drop (e.length / 2 + 1)))
        (e.take (e.length / 2) ++ e[e.length / 2] :: e.drop (e.length / 2 + 1)) :=
      List.perm_middle.symm
    have h4 := (List.Perm.cons e[e.length / 2] (h1.trans h2)).trans h3
    rw [← hsplit] at h4
    exact h4


/-! ## Permutations, iterator fields and operators -/

theorem length_middle_out_ref {T : Type} (e : List T) : (middle_out_ref e).length = e.length :=
  (middle_out_ref_perm e).length_eq

theorem alternate_ends_perm {T : Type} (s : List T) : List.Perm (alternate_ends s) s := by
  unfold alternate_ends
  have h1 := alternate_perm_append (s.take ((s.length + 1) / 2)) (s.reverse.take (s.length / 2))
  have e : s.length - s.length / 2 = (s.length + 1) / 2 := by omega
  rw [List.take_reverse, e] at h1
  have h2 : List.Perm (s.take ((s.length + 1) / 2) ++ (s.drop ((s.length + 1) / 2)).reverse)
      (s.take ((s.length + 1) / 2) ++ s.drop ((s.length + 1) / 2)) :=
    List.Perm.append_left _ (List.reverse_perm _)
  rw [List.take_append_drop] at h2
  rw [List.take_reverse, e]
  exact h1.trans h2

theorem side_cross_init_fields {T : Type} [LinearOrder T] (elements : List T)
    (index container : Nat) (it : SideCrossIterator T)
    (h : SideCrossIterator.init elements index container = some it) :
    it.current_index = index ∧ it.owner = container := by
  unfold SideCrossIterator.init at h
  split at h
  · cases h; exact ⟨rfl, rfl⟩
  · simp only [Option.map_eq_some'] at h
    obtain ⟨st, _, hst⟩ := h
    cases hst; exact ⟨rfl, rfl⟩

theorem middle_out_init_fields {T : Type} (elements : List T)
    (index container : Nat) (it : MiddleOutIterator T)
    (h : MiddleOutIterator.init elements index container = some it) :
    it.current_index = index ∧ it.owner = container := by
  unfold MiddleOutIterator.init at h
  split at h
  · cases h; exact ⟨rfl, rfl⟩
  · simp only [Option.map_eq_some'] at h
    obtain ⟨st, _, hst⟩ := h
    cases hst; exact ⟨rfl, rfl⟩

theorem usize_inc_le (x : Nat) : usize_inc x ≤ x + 1 := Nat.mod_le _ _

theorem order_operator_star_of_lt {T : Type} (it : OrderIterator T)
    (h : it.current_index < it._elements.length) :
    ∃ x, it._elements[it.current_index]? = some x ∧ it.operator_star.1 = Except.ok x := by
  refine ⟨it._elements.get ⟨it.current_index, h⟩, ?_, ?_⟩
  · simp [List.getElem?_eq_getElem h]
  · have hn : ¬ (it.current_index ≥ it._elements.length) := by omega
    simp only [OrderIterator.operator_star, hn, dite_false]

theorem order_operator_star_of_ge {T : Type} (it : OrderIterator T)
    (h : it._elements.length ≤ it.current_index) :
    it.operator_star.1 = Except.error outOfBounds := by
  have hn : it.current_index ≥ it._elements.length := h
  simp only [OrderIterator.operator_star, hn, dite_true]

theorem order_operator_star_error_iff {T : Type} (it : OrderIterator T) :
    it.operator_star.1 = Except.error outOfBounds ↔ it._elements.length ≤ it.current_index := by
  constructor
  · intro h
    by_contra hc
    obtain ⟨x, _, hx⟩ := order_operator_star_of_lt it (by omega)
    rw [hx] at h
    cases h
  · exact order_operator_star_of_ge it

theorem order_operator_star_snd {T : Type} (it : OrderIterator T) : it.operator_star.2 = it := by
  unfold OrderIterator.operator_star
  split <;> rfl

theorem order_operator_eq_iff {T : Type} (a b : OrderIterator T) :
    a.operator_eq b = true ↔ a.owner = b.owner ∧ a.current_index = b.current_index := by
  simp [OrderIterator.operator_eq]

theorem order_advance_index_le {T : Type} (it : OrderIterator T) (k : Nat) :
    (Nat.iterate (fun x : OrderIterator T => x.operator_pre_increment.2) k it).current_index
        ≤ it.current_index + k ∧
      (Nat.iterate (fun x : OrderIterator T => x.operator_pre_increment.2) k it)._elements = it._elements := by
  induction k with
  | zero => exact ⟨Nat.le_refl _, rfl⟩
  | succ k ih =>
    rw [Function.iterate_succ_apply']
    generalize Nat.iterate (fun x : OrderIterator T => x.operator_pre_increment.2) k it = y at ih
    have h := usize_inc_le y.current_index
    constructor
    · show usize_inc y.current_index ≤ it.current_index + (k + 1)
      omega
    · exact ih.2

theorem reverse_operator_star_of_lt {T : Type} (it : ReverseOrderIterator T)
    (h : it.current_index < it.reverse_elements.length) :
    ∃ x, it.reverse_elements[it.current_index]? = some x ∧ it.operator_star.1 = Except.ok x := by
  refine ⟨it.reverse_elements.get ⟨it.current_index, h⟩, ?_, ?_⟩
  · simp [List.getElem?_eq_getElem h]
  · have hn : ¬ (it.current_index ≥ it.reverse_elements.length) := by omega
    simp only [ReverseOrderIterator.operator_star, hn, dite_false]

theorem reverse_operator_star_of_ge {T : Type} (it : ReverseOrderIterator T)
    (h : it.reverse_elements.length ≤ it.current_index) :
    it.operator_star.1 = Except.error outOfBounds := by
  have hn : it.current_index ≥ it.reverse_elements.length := h
  simp only [ReverseOrderIterator.operator_star, hn, dite_true]

theorem reverse_operator_star_error_iff {T : Type} (it : ReverseOrderIterator T) :
    it.operator_star.1 = Except.error outOfBounds ↔ it.reverse_elements.length ≤ it.current_index := by
  constructor
  · intro h
    by_contra hc
    obtain ⟨x, _, hx⟩ := reverse_operator_star_of_lt it (by omega)
    rw [hx] at h
    cases h
  · exact reverse_operator_star_of_ge it

theorem reverse_operator_star_snd {T : Type} (it : ReverseOrderIterator T) : it.operator_star.2 = it := by
  unfold ReverseOrderIterator.operator_star
  split <;> rfl

theorem reverse_operator_eq_iff {T : Type} (a b : ReverseOrderIterator T) :
    a.operator_eq b = true ↔ a.owner = b.owner ∧ a.current_index = b.current_index := by
  simp [ReverseOrderIterator.operator_eq]

theorem reverse_advance_index_le {T : Type} (it : ReverseOrderIterator T) (k : Nat) :
    (Nat.iterate (fun x : ReverseOrderIterator T => x.operator_pre_increment.2) k it).current_index
        ≤ it.current_index + k ∧
      (Nat.iterate (fun x : ReverseOrderIterator T => x.operator_pre_increment.2) k it).reverse_elements = it.reverse_elements := by
  induction k with
  | zero => exact ⟨Nat.le_refl _, rfl⟩
  | succ k ih =>
    rw [Function.iterate_succ_apply']
    generalize Nat.iterate (fun x : ReverseOrderIterator T => x.operator_pre_increment.2) k it = y at ih
    have h := usize_inc_le y.current_index
    constructor
    · show usize_inc y.current_index ≤ it.current_index + (k + 1)
      omega
    · exact ih.2

theorem ascending_operator_star_of_lt {T : Type} (it : AscendingIterator T)
    (h : it.current_index < it.sorted_elements.length) :
    ∃ x, it.sorted_elements[it.current_index]? = some x ∧ it.operator_star.1 = Except.ok x := by
  refine ⟨it.sorted_elements.get ⟨it.current_index, h⟩, ?_, ?_⟩
  · simp [List.getElem?_eq_getElem h]
  · have hn : ¬ (it.current_index ≥ it.sorted_elements.length) := by omega
    simp only [AscendingIterator.operator_star, hn, dite_false]

theorem ascending_operator_star_of_ge {T : Type} (it : AscendingIterator T)
    (h : it.sorted_elements.length ≤ it.current_index) :
    it.operator_star.1 = Except.error outOfBounds := by
  have hn : it.current_index ≥ it.sorted_elements.length := h
  simp only [AscendingIterator.operator_star, hn, dite_true]

theorem ascending_operator_star_error_iff {T : Type} (it : AscendingIterator T) :
    it.operator_star.1 = Except.error outOfBounds ↔ it.sorted_elements.length ≤ it.current_index := by
  constructor
  · intro h
    by_contra hc
    obtain ⟨x, _, hx⟩ := ascending_operator_star_of_lt it (by omega)
    rw [hx] at h
    cases h
  · exact ascending_operator_star_of_ge it

theorem ascending_operator_star_snd {T : Type} (it : AscendingIterator T) : it.operator_star.2 = it := by
  unfold AscendingIterator.operator_star
  split <;> rfl

theorem ascending_operator_eq_iff {T : Type} (a b : AscendingIterator T) :
    a.operator_eq b = true ↔ a.owner = b.owner ∧ a.current_index = b.current_index := by
  simp [AscendingIterator.operator_eq]

theorem ascending_advance_index_le {T : Type} (it : AscendingIterator T) (k : Nat) :
    (Nat.iterate (fun x : AscendingIterator T => x.operator_pre_increment.2) k it).current_index
        ≤ it.current_index + k ∧
      (Nat.iterate (fun x : AscendingIterator T => x.operator_pre_increment.2) k it).sorted_elements = it.sorted_elements := by
  induction k with
  | zero => exact ⟨Nat.le_refl _, rfl⟩
  | succ k ih =>
    rw [Function.iterate_succ_apply']
    generalize Nat.iterate (fun x : AscendingIterator T => x.operator_pre_increment.2) k it = y at ih
    have h := usize_inc_le y.current_index
    constructor
    · show usize_inc y.current_index ≤ it.current_index + (k + 1)
      omega
    · exact ih.2

theorem descending_operator_star_of_lt {T : Type} (it : DescendingOrder T)
    (h : it.current_index < it.reverse_sorted_elements.length) :
    ∃ x, it.reverse_sorted_elements[it.current_index]? = some x ∧ it.operator_star.1 = Except.ok x := by
  refine ⟨it.reverse_sorted_elements.get ⟨it.current_index, h⟩, ?_, ?_⟩
  · simp [List.getElem?_eq_getElem h]
  · have hn : ¬ (it.current_index ≥ it.reverse_sorted_elements.length) := by omega
    simp only [DescendingOrder.operator_star, hn, dite_false]

theorem descending_operator_star_of_ge {T : Type} (it : DescendingOrder T)
    (h : it.reverse_sorted_elements.length ≤ it.current_index) :
    it.operator_star.1 = Except.error outOfBounds := by
  have hn : it.current_index ≥ it.reverse_sorted_elements.length := h
  simp only [DescendingOrder.operator_star, hn, dite_true]

theorem descending_operator_star_error_iff {T : Type} (it : DescendingOrder T) :
    it.operator_star.1 = Except.error outOfBounds ↔ it.reverse_sorted_elements.length ≤ it.current_index := by
  constructor
  · intro h
    by_contra hc
    obtain ⟨x, _, hx⟩ := descending_operator_star_of_lt it (by omega)
    rw [hx] at h
    cases h
  · exact descending_operator_star_of_ge it

theorem descending_operator_star_snd {T : Type} (it : DescendingOrder T) : it.operator_star.2 = it := by
  unfold DescendingOrder.operator_star
  split <;> rfl

theorem descending_operator_eq_iff {T : Type} (a b : DescendingOrder T) :
    a.operator_eq b = true ↔ a.owner = b.owner ∧ a.current_index = b.current_index := by
  simp [DescendingOrder.operator_eq]

theorem descending_advance_index_le {T : Type} (it : DescendingOrder T) (k : Nat) :
    (Nat.iterate (fun x : DescendingOrder T => x.operator_pre_increment.2) k it).current_index
        ≤ it.current_index + k ∧
      (Nat.iterate (fun x : DescendingOrder T => x.operator_pre_increment.2) k it).reverse_sorted_elements = it.reverse_sorted_elements := by
  induction k with
  | zero => exact ⟨Nat.le_refl _, rfl⟩
  | succ k ih =>
    rw [Function.iterate_succ_apply']
    generalize Nat.iterate (fun x : DescendingOrder T => x.operator_pre_increment.2) k it = y at ih
    have h := usize_inc_le y.current_index
    constructor
    · show usize_inc y.current_index ≤ it.current_index + (k + 1)
      omega
    · exact ih.2

theorem side_cross_operator_star_of_lt {T : Type} (it : SideCrossIterator T)
    (h : it.current_index < it.side_cross_order.length) :
    ∃ x, it.side_cross_order[it.current_index]? = some x ∧ it.operator_star.1 = Except.ok x := by
  refine ⟨it.side_cross_order.get ⟨it.current_index, h⟩, ?_, ?_⟩
  · simp [List.getElem?_eq_getElem h]
  · have hn : ¬ (it.current_index ≥ it.side_cross_order.length) := by omega
    simp only [SideCrossIterator.operator_star, hn, dite_false]

theorem side_cross_operator_star_of_ge {T : Type} (it : SideCrossIterator T)
    (h : it.side_cross_order.length ≤ it.current_index) :
    it.operator_star.1 = Except.error outOfBounds := by
  have hn : it.current_index ≥ it.side_cross_order.length := h
  simp only [SideCrossIterator.operator_star, hn, dite_true]

theorem side_cross_operator_star_error_iff {T : Type} (it : SideCrossIterator T) :
    it.operator_star.1 = Except.error outOfBounds ↔ it.side_cross_order.length ≤ it.current_index := by
  constructor
  · intro h
    by_contra hc
    obtain ⟨x, _, hx⟩ := side_cross_operator_star_of_lt it (by omega)
    rw [hx] at h
    cases h
  · exact side_cross_operator_star_of_ge it

theorem side_cross_operator_star_snd {T : Type} (it : SideCrossIterator T) : it.operator_star.2 = it := by
  unfold SideCrossIterator.operator_star
  split <;> rfl

theorem side_cross_operator_eq_iff {T : Type} (a b : SideCrossIterator T) :
    a.operator_eq b = true ↔ a.owner = b.owner ∧ a.current_index = b.current_index := by
  simp [SideCrossIterator.operator_eq]

theorem side_cross_advance_index_le {T : Type} (it : SideCrossIterator T) (k : Nat) :
    (Nat.iterate (fun x : SideCrossIterator T => x.operator_pre_increment.2) k it).current_index
        ≤ it.current_index + k ∧
      (Nat.iterate (fun x : SideCrossIterator T => x.operator_pre_increment.2) k it).side_cross_order = it.side_cross_order := by
  induction k with
  | zero => exact ⟨Nat.le_refl _, rfl⟩
  | succ k ih =>
    rw [Function.iterate_succ_apply']
    generalize Nat.iterate (fun x : SideCrossIterator T => x.operator_pre_increment.2) k it = y at ih
    have h := usize_inc_le y.current_index
    constructor
    · show usize_inc y.current_index ≤ it.current_index + (k + 1)
      omega
    · exact ih.2

theorem middle_out_operator_star_of_lt {T : Type} (it : MiddleOutIterator T)
    (h : it.current_index < it.middle_out_order.length) :
    ∃ x, it.middle_out_order[it.current_index]? = some x ∧ it.operator_star.1 = Except.ok x := by
  refine ⟨it.middle_out_order.get ⟨it.current_index, h⟩, ?_, ?_⟩
  · simp [List.getElem?_eq_getElem h]
  · have hn : ¬ (it.current_index ≥ it.middle_out_order.length) := by omega
    simp only [MiddleOutIterator.operator_star, hn, dite_false]

theorem middle_out_operator_star_of_ge {T : Type} (it : MiddleOutIterator T)
    (h : it.middle_out_order.length ≤ it.current_index) :
    it.operator_star.1 = Except.error outOfBounds := by
  have hn : it.current_index ≥ it.middle_out_order.length := h
  simp only [MiddleOutIterator.operator_star, hn, dite_true]

theorem middle_out_operator_star_error_iff {T : Type} (it : MiddleOutIterator T) :
    it.operator_star.1 = Except.error outOfBounds ↔ it.middle_out_order.length ≤ it.current_index := by
  constructor
  · intro h
    by_contra hc
    obtain ⟨x, _, hx⟩ := middle_out_operator_star_of_lt it (by omega)
    rw [hx] at h
    cases h
  · exact middle_out_operator_star_of_ge it

theorem middle_out_operator_star_snd {T : Type} (it : MiddleOutIterator T) : it.operator_star.2 = it := by
  unfold MiddleOutIterator.operator_star
  split <;> rfl

theorem middle_out_operator_eq_iff {T : Type} (a b : MiddleOutIterator T) :
    a.operator_eq b = true ↔ a.owner = b.owner ∧ a.current_index = b.current_index := by
  simp [MiddleOutIterator.operator_eq]

theorem middle_out_advance_index_le {T : Type} (it : MiddleOutIterator T) (k : Nat) :
    (Nat.iterate (fun x : MiddleOutIterator T => x.operator_pre_increment.2) k it).current_index
        ≤ it.current_index + k ∧
      (Nat.iterate (fun x : MiddleOutIterator T => x.operator_pre_increment.2) k it).middle_out_order = it.middle_out_order := by
  induction k with
  | zero => exact ⟨Nat.le_refl _, rfl⟩
  | succ k ih =>
    rw [Function.iterate_succ_apply']
    generalize Nat.iterate (fun x : MiddleOutIterator T => x.operator_pre_increment.2) k it = y at ih
    have h := usize_inc_le y.current_index
    constructor
    · show usize_inc y.current_index ≤ it.current_index + (k + 1)
      omega
    · exact ih.2

theorem alternate_map {α β : Type} (f : α → β) (as bs : List α) :
    alternate (as.map f) (bs.map f) = (alternate as bs).map f := by
  induction as generalizing bs with
  | nil => simp [alternate_nil_left]
  | cons a as ih =>
    cases bs with
    | nil => simp [alternate]
    | cons b bs => simp [alternate, ih]

theorem middle_out_ref_map {α β : Type} (f : α → β) (l : List α) :
    middle_out_ref (l.map f) = (middle_out_ref l).map f := by
  rw [middle_out_ref_eq_alternate, middle_out_ref_eq_alternate]
  simp only [List.length_map, List.getElem?_map, List.map_append, ← alternate_map,
    List.map_reverse, List.map_take, List.map_drop]
  cases l[l.length / 2]? <;> rfl

theorem map_some_eq_map_range {α : Type} (l : List α) :
    l.map some = (List.range l.length).map (fun i => l[i]?) := by
  apply List.ext_getElem?
  intro i
  by_cases h : i < l.length
  · simp [List.getElem?_map, List.getElem?_range, h, List.getElem?_eq_getElem h]
  · rw [List.getElem?_eq_none (by simpa using h), List.getElem?_eq_none (by simpa using h)]

/-- The middle-out order reads the snapshot at the positions of the middle-out
order of `0, ..., n - 1`. -/
theorem middle_out_ref_positions {α : Type} (l : List α) :
    (middle_out_ref l).map some =
      (middle_out_ref (List.range l.length)).map (fun i => l[i]?) := by
  rw [← middle_out_ref_map, ← middle_out_ref_map, map_some_eq_map_range]

/-! ## The scanning loop, proved -/

/-- The scanning loop over cursors that share the sequence `v`: started at
index `idx it` with enough fuel, it ends without a throw and has appended the
rest of `v`. -/
theorem scan_loop_collects {S C T : Type} (fin : S → Option C × S) (ne : C → C → Bool)
    (star : C → Except Exn T × C) (inc : C → C × C) (s : S) (last : C) (v : List T)
    (idx : C → Nat) (inv : C → Prop)
    (hfin : fin s = (some last, s))
    (hne : ∀ it, inv it → (ne it last = true ↔ idx it ≠ v.length))
    (hstar : ∀ it, inv it → idx it < v.length →
      ∃ x, v[idx it]? = some x ∧ star it = (Except.ok x, it))
    (hinc : ∀ it, inv it → idx it < v.length → inv (inc it).2 ∧ idx (inc it).2 = idx it + 1) :
    ∀ (fuel : Nat) (it : C) (result : List T), inv it → idx it ≤ v.length →
      v.length - idx it < fuel →
      scan_loop fin ne star inc fuel s it result =
        some (Except.ok (result ++ v.drop (idx it))) := by
  intro fuel
  induction fuel with
  | zero => intro it result _ _ h; omega
  | succ fuel ih =>
    intro it result hi hle hf
    rcases Nat.eq_or_lt_of_le hle with heq | hlt
    · have hn : ne it last = false := by
        cases h : ne it last with
        | false => rfl
        | true => exact absurd heq ((hne it hi).mp h)
      simp only [scan_loop, hfin, hn, Bool.false_eq_true, if_false, heq, List.drop_length,
        List.append_nil]
    · have hn : ne it last = true := (hne it hi).mpr (by omega)
      obtain ⟨x, hx, hs⟩ := hstar it hi hlt
      obtain ⟨hi2, hidx⟩ := hinc it hi hlt
      have hd : v.drop (idx it) = x :: v.drop (idx it + 1) := by
        rw [List.drop_eq_getElem_cons hlt]
        have := List.getElem?_eq_getElem hlt
        rw [this] at hx
        rw [Option.some.inj hx]
      simp only [scan_loop, hfin, hn, if_true, hs]
      rw [ih (inc it).2 (push_back result x) hi2 (by omega) (by omega), hidx, hd]
      simp [push_back]


theorem order_scan_loop_spec {S T : Type} (fin : S → Option (OrderIterator T) × S) (s : S)
    (last : OrderIterator T) (v : List T) (this : Nat) (hv : v.length < USIZE)
    (hfin : fin s = (some last, s)) (hlo : last.owner = this)
    (hli : last.current_index = v.length) (fuel : Nat) (it : OrderIterator T)
    (hiv : it._elements = v) (hio : it.owner = this) (hle : it.current_index ≤ v.length)
    (hf : v.length - it.current_index < fuel) :
    scan_loop fin OrderIterator.operator_ne OrderIterator.operator_star OrderIterator.operator_pre_increment
        fuel s it [] = some (Except.ok (v.drop it.current_index)) := by
  have h := scan_loop_collects fin OrderIterator.operator_ne OrderIterator.operator_star
    OrderIterator.operator_pre_increment s last v (fun x => x.current_index)
    (fun x => x._elements = v ∧ x.owner = this) hfin
    (by
      intro x hx
      simp [OrderIterator.operator_ne, OrderIterator.operator_eq, hx.2, hlo, hli])
    (by
      intro x hx hlt
      have hlt2 : x.current_index < x._elements.length := by rw [hx.1]; exact hlt
      obtain ⟨y, hy, hs⟩ := order_operator_star_of_lt x hlt2
      refine ⟨y, by rw [← hx.1]; exact hy, ?_⟩
      exact Prod.ext hs (order_operator_star_snd x))
    (by
      intro x hx hlt
      have hlt2 : x.current_index < v.length := hlt
      refine ⟨⟨hx.1, hx.2⟩, ?_⟩
      exact usize_inc_eq x.current_index (by omega))
    fuel it [] ⟨hiv, hio⟩ hle hf
  simpa using h

theorem reverse_scan_loop_spec {S T : Type} (fin : S → Option (ReverseOrderIterator T) × S) (s : S)
    (last : ReverseOrderIterator T) (v : List T) (this : Nat) (hv : v.length < USIZE)
    (hfin : fin s = (some last, s)) (hlo : last.owner = this)
    (hli : last.current_index = v.length) (fuel : Nat) (it : ReverseOrderIterator T)
    (hiv : it.reverse_elements = v) (hio : it.owner = this) (hle : it.current_index ≤ v.length)
    (hf : v.length - it.current_index < fuel) :
    scan_loop fin ReverseOrderIterator.operator_ne ReverseOrderIterator.operator_star ReverseOrderIterator.operator_pre_increment
        fuel s it [] = some (Except.ok (v.drop it.current_index)) := by
  have h := scan_loop_collects fin ReverseOrderIterator.operator_ne ReverseOrderIterator.operator_star
    ReverseOrderIterator.operator_pre_increment s last v (fun x => x.current_index)
    (fun x => x.reverse_elements = v ∧ x.owner = this) hfin
    (by
      intro x hx
      simp [ReverseOrderIterator.operator_ne, ReverseOrderIterator.operator_eq, hx.2, hlo, hli])
    (by
      intro x hx hlt
      have hlt2 : x.current_index < x.reverse_elements.length := by rw [hx.1]; exact hlt
      obtain ⟨y, hy, hs⟩ := reverse_operator_star_of_lt x hlt2
      refine ⟨y, by rw [← hx.1]; exact hy, ?_⟩
      exact Prod.ext hs (reverse_operator_star_snd x))
    (by
      intro x hx hlt
      have hlt2 : x.current_index < v.length := hlt
      refine ⟨⟨hx.1, hx.2⟩, ?_⟩
      exact usize_inc_eq x.current_index (by omega))
    fuel it [] ⟨hiv, hio⟩ hle hf
  simpa using h

theorem ascending_scan_loop_spec {S T : Type} (fin : S → Option (AscendingIterator T) × S) (s : S)
    (last : AscendingIterator T) (v : List T) (this : Nat) (hv : v.length < USIZE)
    (hfin : fin s = (some last, s)) (hlo : last.owner = this)
    (hli : last.current_index = v.length) (fuel : Nat) (it : AscendingIterator T)
    (hiv : it.sorted_elements = v) (hio : it.owner = this) (hle : it.current_index ≤ v.length)
    (hf : v.length - it.current_index < fuel) :
    scan_loop fin AscendingIterator.operator_ne AscendingIterator.operator_star AscendingIterator.operator_pre_increment
        fuel s it [] = some (Except.ok (v.drop it.current_index)) := by
  have h := scan_loop_collects fin AscendingIterator.operator_ne AscendingIterator.operator_star
    AscendingIterator.operator_pre_increment s last v (fun x => x.current_index)
    (fun x => x.sorted_elements = v ∧ x.owner = this) hfin
    (by
      intro x hx
      simp [AscendingIterator.operator_ne, AscendingIterator.operator_eq, hx.2, hlo, hli])
    (by
      intro x hx hlt
      have hlt2 : x.current_index < x.sorted_elements.length := by rw [hx.1]; exact hlt
      obtain ⟨y, hy, hs⟩ := ascending_operator_star_of_lt x hlt2
      refine ⟨y, by rw [← hx.1]; exact hy, ?_⟩
      exact Prod.ext hs (ascending_operator_star_snd x))
    (by
      intro x hx hlt
      have hlt2 : x.current_index < v.length := hlt
      refine ⟨⟨hx.1, hx.2⟩, ?_⟩
      exact usize_inc_eq x.current_index (by omega))
    fuel it [] ⟨hiv, hio⟩ hle hf
  simpa using h

theorem descending_scan_loop_spec {S T : Type} (fin : S → Option (DescendingOrder T) × S) (s : S)
    (last : DescendingOrder T) (v : List T) (this : Nat) (hv : v.length < USIZE)
    (hfin : fin s = (some last, s)) (hlo : last.owner = this)
    (hli : last.current_index = v.length) (fuel : Nat) (it : DescendingOrder T)
    (hiv : it.reverse_sorted_elements = v) (hio : it.owner = this) (hle : it.current_index ≤ v.length)
    (hf : v.length - it.current_index < fuel) :
    scan_loop fin DescendingOrder.operator_ne DescendingOrder.operator_star DescendingOrder.operator_pre_increment
        fuel s it [] = some (Except.ok (v.drop it.current_index)) := by
  have h := scan_loop_collects fin DescendingOrder.operator_ne DescendingOrder.operator_star
    DescendingOrder.operator_pre_increment s last v (fun x => x.current_index)
    (fun x => x.reverse_sorted_elements = v ∧ x.owner = this) hfin
    (by
      intro x hx
      simp [DescendingOrder.operator_ne, DescendingOrder.operator_eq, hx.2, hlo, hli])
    (by
      intro x hx hlt
      have hlt2 : x.current_index < x.reverse_sorted_elements.length := by rw [hx.1]; exact hlt
      obtain ⟨y, hy, hs⟩ := descending_operator_star_of_lt x hlt2
      refine ⟨y, by rw [← hx.1]; exact hy, ?_⟩
      exact Prod.ext hs (descending_operator_star_snd x))
    (by
      intro x hx hlt
      have hlt2 : x.current_index < v.length := hlt
      refine ⟨⟨hx.1, hx.2⟩, ?_⟩
      exact usize_inc_eq x.current_index (by omega))
    fuel it [] ⟨hiv, hio⟩ hle hf
  simpa using h

theorem side_cross_scan_loop_spec {S T : Type} (fin : S → Option (SideCrossIterator T) × S) (s : S)
    (last : SideCrossIterator T) (v : List T) (this : Nat) (hv : v.length < USIZE)
    (hfin : fin s = (some last, s)) (hlo : last.owner = this)
    (hli : last.current_index = v.length) (fuel : Nat) (it : SideCrossIterator T)
    (hiv : it.side_cross_order = v) (hio : it.owner = this) (hle : it.current_index ≤ v.length)
    (hf : v.length - it.current_index < fuel) :
    scan_loop fin SideCrossIterator.operator_ne SideCrossIterator.operator_star SideCrossIterator.operator_pre_increment
        fuel s it [] = some (Except.ok (v.drop it.current_index)) := by
  have h := scan_loop_collects fin SideCrossIterator.operator_ne SideCrossIterator.operator_star
    SideCrossIterator.operator_pre_increment s last v (fun x => x.current_index)
    (fun x => x.side_cross_order = v ∧ x.owner = this) hfin
    (by
      intro x hx
      simp [SideCrossIterator.operator_ne, SideCrossIterator.operator_eq, hx.2, hlo, hli])
    (by
      intro x hx hlt
      have hlt2 : x.current_index < x.side_cross_order.length := by rw [hx.1]; exact hlt
      obtain ⟨y, hy, hs⟩ := side_cross_operator_star_of_lt x hlt2
      refine ⟨y, by rw [← hx.1]; exact hy, ?_⟩
      exact Prod.ext hs (side_cross_operator_star_snd x))
    (by
      intro x hx hlt
      have hlt2 : x.current_index < v.length := hlt
      refine ⟨⟨hx.1, hx.2⟩, ?_⟩
      exact usize_inc_eq x.current_index (by omega))
    fuel it [] ⟨hiv, hio⟩ hle hf
  simpa using h

theorem middle_out_scan_loop_spec {S T : Type} (fin : S → Option (MiddleOutIterator T) × S) (s : S)
    (last : MiddleOutIterator T) (v : List T) (this : Nat) (hv : v.length < USIZE)
    (hfin : fin s = (some last, s)) (hlo : last.owner = this)
    (hli : last.current_index = v.length) (fuel : Nat) (it : MiddleOutIterator T)
    (hiv : it.middle_out_order = v) (hio : it.owner = this) (hle : it.current_index ≤ v.length)
    (hf : v.length - it.current_index < fuel) :
    scan_loop fin MiddleOutIterator.operator_ne MiddleOutIterator.operator_star MiddleOutIterator.operator_pre_increment
        fuel s it [] = some (Except.ok (v.drop it.current_index)) := by
  have h := scan_loop_collects fin MiddleOutIterator.operator_ne MiddleOutIterator.operator_star
    MiddleOutIterator.operator_pre_increment s last v (fun x => x.current_index)
    (fun x => x.middle_out_order = v ∧ x.owner = this) hfin
    (by
      intro x hx
      simp [MiddleOutIterator.operator_ne, MiddleOutIterator.operator_eq, hx.2, hlo, hli])
    (by
      intro x hx hlt
      have hlt2 : x.current_index < x.middle_out_order.length := by rw [hx.1]; exact hlt
      obtain ⟨y, hy, hs⟩ := middle_out_operator_star_of_lt x hlt2
      refine ⟨y, by rw [← hx.1]; exact hy, ?_⟩
      exact Prod.ext hs (middle_out_operator_star_snd x))
    (by
      intro x hx hlt
      have hlt2 : x.current_index < v.length := hlt
      refine ⟨⟨hx.1, hx.2⟩, ?_⟩
      exact usize_inc_eq x.current_index (by omega))
    fuel it [] ⟨hiv, hio⟩ hle hf
  simpa using h

theorem scan_order_spec {T : Type} (c : MyContainer T) (this fuel : Nat)
    (h : c.size < USIZE) (hf : c.size < fuel) :
    c.scan_order this fuel = some (Except.ok c.elements) := by
  have := order_scan_loop_spec
    (fun s : MyContainer T => (some (s.end_order this).1, (s.end_order this).2)) c
    (c.end_order this).1 c.elements this h rfl rfl rfl fuel (c.begin_order this).1 rfl rfl
    (Nat.zero_le _) (by simpa [MyContainer.size] using hf)
  simpa [MyContainer.scan_order] using this

theorem scan_reverse_order_spec {T : Type} (c : MyContainer T) (this fuel : Nat)
    (h : c.size < USIZE) (hf : c.size < fuel) :
    c.scan_reverse_order this fuel = some (Except.ok (std_reverse c.elements)) := by
  have hl : (std_reverse c.elements).length = c.size := by simp [std_reverse, MyContainer.size]
  have := reverse_scan_loop_spec
    (fun s : MyContainer T => (some (s.end_reverse_order this).1, (s.end_reverse_order this).2)) c
    (c.end_reverse_order this).1 (std_reverse c.elements) this (by rw [hl]; exact h) rfl rfl
    (by rw [hl]; rfl) fuel (c.begin_reverse_order this).1 rfl rfl
    (Nat.zero_le _) (by rw [hl]; exact hf)
  simpa [MyContainer.scan_reverse_order] using this

theorem scan_ascending_order_spec {T : Type} [LinearOrder T] (c : MyContainer T)
    (this fuel : Nat) (h : c.size < USIZE) (hf : c.size < fuel) :
    c.scan_ascending_order this fuel =
      some (Except.ok (std_sort (fun a b => a < b) c.elements)) := by
  have hl : (std_sort (fun a b : T => a < b) c.elements).length = c.size := length_std_sort _ _
  have := ascending_scan_loop_spec
    (fun s : MyContainer T =>
      (some (s.end_ascending_order this).1, (s.end_ascending_order this).2)) c
    (c.end_ascending_order this).1 (std_sort (fun a b : T => a < b) c.elements) this
    (by rw [hl]; exact h) rfl rfl
    (by rw [hl]; rfl) fuel (c.begin_ascending_order this).1 rfl rfl
    (Nat.zero_le _) (by rw [hl]; exact hf)
  simpa [MyContainer.scan_ascending_order] using this

theorem scan_descending_order_spec {T : Type} [LinearOrder T] (c : MyContainer T)
    (this fuel : Nat) (h : c.size < USIZE) (hf : c.size < fuel) :
    c.scan_descending_order this fuel =
      some (Except.ok (std_sort (fun a b => a > b) c.elements)) := by
  have hl : (std_sort (fun a b : T => a > b) c.elements).length = c.size := length_std_sort _ _
  have := descending_scan_loop_spec
    (fun s : MyContainer T =>
      (some (s.end_descending_order this).1, (s.end_descending_order this).2)) c
    (c.end_descending_order this).1 (std_sort (fun a b : T => a > b) c.elements) this
    (by rw [hl]; exact h) rfl rfl
    (by rw [hl]; rfl) fuel (c.begin_descending_order this).1 rfl rfl
    (Nat.zero_le _) (by rw [hl]; exact hf)
  simpa [MyContainer.scan_descending_order] using this

theorem begin_side_cross_order_eq {T : Type} [LinearOrder T] (c : MyContainer T)
    (this index : Nat) (h : c.size < USIZE) :
    c.begin_side_cross_order this =
        (some (SideCrossIterator.mk (std_sort (fun a b => a < b) c.elements)
          (alternate_ends (std_sort (fun a b => a < b) c.elements)) 0 this), c) ∧
      c.end_side_cross_order this =
        (some (SideCrossIterator.mk (std_sort (fun a b => a < b) c.elements)
          (alternate_ends (std_sort (fun a b => a < b) c.elements)) c.elements.length this), c) ∧
      SideCrossIterator.init c.elements index this =
        some (SideCrossIterator.mk (std_sort (fun a b => a < b) c.elements)
          (alternate_ends (std_sort (fun a b => a < b) c.elements)) index this) :=
  ⟨congrArg (fun x => (x, c)) (side_cross_init c.elements 0 this h),
    congrArg (fun x => (x, c)) (side_cross_init c.elements c.elements.length this h),
    side_cross_init c.elements index this h⟩

theorem begin_middle_out_order_eq {T : Type} (c : MyContainer T)
    (this index : Nat) (h : c.size < USIZE) :
    c.begin_middle_out_order this =
        (some (MiddleOutIterator.mk (middle_out_ref c.elements) 0 this), c) ∧
      c.end_middle_out_order this =
        (some (MiddleOutIterator.mk (middle_out_ref c.elements) c.elements.length this), c) ∧
      MiddleOutIterator.init c.elements index this =
        some (MiddleOutIterator.mk (middle_out_ref c.elements) index this) :=
  ⟨congrArg (fun x => (x, c)) (middle_out_init c.elements 0 this h),
    congrArg (fun x => (x, c)) (middle_out_init c.elements c.elements.length this h),
    middle_out_init c.elements index this h⟩

theorem scan_side_cross_order_spec {T : Type} [LinearOrder T] (c : MyContainer T)
    (this fuel : Nat) (h : c.size < USIZE) (hf : c.size < fuel) :
    c.scan_side_cross_order this fuel =
      some (Except.ok (alternate_ends (std_sort (fun a b => a < b) c.elements))) := by
  have hl : (alternate_ends (std_sort (fun a b : T => a < b) c.elements)).length = c.size := by
    rw [length_alternate_ends, length_std_sort]; rfl
  obtain ⟨hb, he, _⟩ := begin_side_cross_order_eq c this 0 h
  have := side_cross_scan_loop_spec
    (fun s : MyContainer T => s.end_side_cross_order this) c
    _ (alternate_ends (std_sort (fun a b : T => a < b) c.elements)) this
    (by rw [hl]; exact h) he rfl
    (by rw [hl]; rfl) fuel (SideCrossIterator.mk (std_sort (fun a b => a < b) c.elements)
          (alternate_ends (std_sort (fun a b => a < b) c.elements)) 0 this) rfl rfl
    (Nat.zero_le _) (by rw [hl]; exact hf)
  simp only [MyContainer.scan_side_cross_order, hb]
  simpa using this

theorem scan_middle_out_order_spec {T : Type} (c : MyContainer T)
    (this fuel : Nat) (h : c.size < USIZE) (hf : c.size < fuel) :
    c.scan_middle_out_order this fuel = some (Except.ok (middle_out_ref c.elements)) := by
  have hl : (middle_out_ref c.elements).length = c.size := length_middle_out_ref _
  obtain ⟨hb, he, _⟩ := begin_middle_out_order_eq c this 0 h
  have := middle_out_scan_loop_spec
    (fun s : MyContainer T => s.end_middle_out_order this) c
    _ (middle_out_ref c.elements) this
    (by rw [hl]; exact h) he rfl
    (by rw [hl]; rfl) fuel (MiddleOutIterator.mk (middle_out_ref c.elements) 0 this) rfl rfl
    (Nat.zero_le _) (by rw [hl]; exact hf)
  simp only [MyContainer.scan_middle_out_order, hb]
  simpa using this

/-! ## Several containers -/

theorem store_run_other {T : Type} [LinearOrder T] (this other : Nat) (hne : other ≠ this)
    (calls : List (Call T)) : ∀ st : Store T, (store_run st this calls) other = st other := by
  induction calls with
  | nil => intro st; rfl
  | cons call rest ih =>
    intro st
    simp only [store_run, List.foldl_cons] at ih ⊢
    rw [ih (store_call st this call)]
    simp [store_call, Function.update, hne]

theorem store_run_same {T : Type} [LinearOrder T] (this : Nat)
    (calls : List (Call T)) :
    ∀ st : Store T, (store_run st this calls) this = run this (st this) calls := by
  induction calls with
  | nil => intro st; rfl
  | cons call rest ih =>
    intro st
    simp only [store_run, run, List.foldl_cons] at ih ⊢
    rw [ih (store_call st this call)]
    simp [store_call, Function.update]

/-! ## Sorted sequences over a linear order -/

theorem sorted_getElem_le {T : Type} [LinearOrder T] (s : List T)
    (hs : List.Sorted (fun a b => a ≤ b) s) (p q : Nat) (hpq : p ≤ q) (a b : T)
    (ha : s[p]? = some a) (hb : s[q]? = some b) : a ≤ b := by
  obtain ⟨hp, rfl⟩ := List.getElem?_eq_some.mp ha
  obtain ⟨hq, rfl⟩ := List.getElem?_eq_some.mp hb
  rcases Nat.eq_or_lt_of_le hpq with h | h
  · subst h; exact le_refl _
  · exact (List.pairwise_iff_getElem.mp hs) p q hp hq h

theorem std_sort_lt_congr {T : Type} [LinearOrder T] (v w : List T) (h : List.Perm v w) :
    std_sort (fun a b => a < b) v = std_sort (fun a b => a < b) w :=
  List.eq_of_perm_of_sorted
    ((perm_std_sort _ v).trans (h.trans (perm_std_sort _ w).symm))
    (sorted_std_sort_lt v) (sorted_std_sort_lt w)

theorem std_sort_gt_congr {T : Type} [LinearOrder T] (v w : List T) (h : List.Perm v w) :
    std_sort (fun a b => a > b) v = std_sort (fun a b => a > b) w :=
  List.eq_of_perm_of_sorted
    ((perm_std_sort _ v).trans (h.trans (perm_std_sort _ w).symm))
    (sorted_std_sort_gt v) (sorted_std_sort_gt w)

theorem std_sort_gt_eq_reverse {T : Type} [LinearOrder T] (v : List T) :
    std_sort (fun a b => a > b) v = (std_sort (fun a b => a < b) v).reverse := by
  refine List.eq_of_perm_of_sorted
    ((perm_std_sort _ v).trans ((List.reverse_perm _).trans (perm_std_sort _ v)).symm)
    (sorted_std_sort_gt v) ?_
  have h := sorted_std_sort_lt v
  exact List.pairwise_reverse.mpr h

/-- Over a linear order the elements equivalent to `x` are the copies of `x`,
so two rearrangements of each other list them alike. -/
theorem filter_equivalent_eq_of_perm {T : Type} [LinearOrder T] (v w : List T)
    (h : List.Perm v w) (x : T) :
    v.filter (fun y => decide (¬ y < x ∧ ¬ x < y)) =
      w.filter (fun y => decide (¬ y < x ∧ ¬ x < y)) := by
  have hp := h.filter (fun y => decide (¬ y < x ∧ ¬ x < y))
  have hall : ∀ l : List T, ∀ y ∈ l.filter (fun y => decide (¬ y < x ∧ ¬ x < y)), y = x := by
    intro l y hy
    have := (List.mem_filter.mp hy).2
    simp only [decide_eq_true_eq, not_lt] at this
    exact le_antisymm this.2 this.1
  rw [List.eq_replicate_iff.mpr ⟨rfl, hall v⟩, List.eq_replicate_iff.mpr ⟨rfl, hall w⟩,
    hp.length_eq]

theorem sorted_head_is_least {T : Type} [LinearOrder T] (s : List T)
    (hs : List.Sorted (fun a b => a ≤ b) s) (m : T) (hm : s[0]? = some m) :
    m ∈ s ∧ ∀ y ∈ s, m ≤ y := by
  refine ⟨List.getElem?_mem hm, ?_⟩
  intro y hy
  obtain ⟨i, hi⟩ := List.getElem?_of_mem hy
  exact sorted_getElem_le s hs 0 i (Nat.zero_le _) m y hm hi

theorem sorted_ge_head_is_greatest {T : Type} [LinearOrder T] (s : List T)
    (hs : List.Sorted (fun a b => a ≥ b) s) (m : T) (hm : s[0]? = some m) :
    m ∈ s ∧ ∀ y ∈ s, y ≤ m := by
  refine ⟨List.getElem?_mem hm, ?_⟩
  intro y hy
  obtain ⟨i, hi⟩ := List.getElem?_of_mem hy
  obtain ⟨h0, rfl⟩ := List.getElem?_eq_some.mp hm
  obtain ⟨hq, rfl⟩ := List.getElem?_eq_some.mp hi
  rcases Nat.eq_zero_or_pos i with h | h
  · subst h; exact le_refl _
  · exact (List.pairwise_iff_getElem.mp hs) 0 i h0 hq h

/-! ## The cursors of the two loops -/

/-- One round of the side-cross loop from a state in which the loop goes on:
both reads are inside the vector, neither cursor wraps, and the relation
between the cursors holds again afterwards. -/
theorem side_cross_body_step {T : Type} (s : List T) (hn : s.length < USIZE)
    (st : SideCrossState T) (hq : cross_cursors_ok s.length st.left st.right)
    (hc : st.left ≤ st.right) :
    st.left < s.length ∧ st.right < s.length ∧ usize_inc st.left = st.left + 1 ∧
      (st.left + 1 ≤ st.right → 1 ≤ st.right ∧ usize_dec st.right = st.right - 1) ∧
      ∃ next : SideCrossState T, side_cross_body s st = some next ∧
        cross_cursors_ok s.length next.left next.right ∧
        next.left = st.left + 1 ∧
        next.right = (if st.left + 1 ≤ st.right then st.right - 1 else st.right) ∧
        next.side_cross_order.length =
          st.side_cross_order.length + (if st.left + 1 ≤ st.right then 2 else 1) := by
  have hsum : st.left + st.right + 1 = s.length := by
    rcases hq with h | h
    · exact h.1
    · omega
  have hl : st.left < s.length := by omega
  have hr : st.right < s.length := by omega
  have hinc : usize_inc st.left = st.left + 1 := usize_inc_eq _ (by omega)
  refine ⟨hl, hr, hinc, ?_, ?_⟩
  · intro h
    exact ⟨by omega, usize_dec_eq _ (by omega) (by omega)⟩
  · by_cases h : st.left + 1 ≤ st.right
    · have hdec : usize_dec st.right = st.right - 1 := usize_dec_eq _ (by omega) (by omega)
      refine ⟨SideCrossState.mk (st.left + 1) (st.right - 1)
        (push_back (push_back st.side_cross_order (s.get ⟨st.left, hl⟩)) (s.get ⟨st.right, hr⟩)),
        ?_, ?_, rfl, by simp [h], ?_⟩
      · simp [side_cross_body, List.getElem?_eq_getElem hl, List.getElem?_eq_getElem hr, hinc,
          hdec, h]
      · left
        show st.left + 1 + (st.right - 1) + 1 = s.length ∧ 2 * (st.left + 1) ≤ s.length
        omega
      · simp [push_back, h]
    · refine ⟨SideCrossState.mk (st.left + 1) st.right
        (push_back st.side_cross_order (s.get ⟨st.left, hl⟩)), ?_, ?_, rfl, by simp [h], ?_⟩
      · simp [side_cross_body, List.getElem?_eq_getElem hl, hinc, h]
      · right
        show st.left + 1 = st.right + 1 ∧ st.left + 1 + st.right = s.length
        omega
      · simp [push_back, h]

/-- The relation between the cursors holds in every state in which the loop
tests its condition. -/
theorem side_cross_states_ok {T : Type} (s : List T) (hn : s.length < USIZE) :
    ∀ (fuel : Nat) (st : SideCrossState T), cross_cursors_ok s.length st.left st.right →
      ∀ x ∈ side_cross_states s fuel st, cross_cursors_ok s.length x.left x.right := by
  intro fuel
  induction fuel with
  | zero =>
    intro st hq x hx
    simp only [side_cross_states, List.mem_singleton] at hx
    rw [hx]; exact hq
  | succ fuel ih =>
    intro st hq x hx
    by_cases hc : st.left ≤ st.right
    · obtain ⟨_, _, _, _, next, hb, hqn, _⟩ := side_cross_body_step s hn st hq hc
      simp only [side_cross_states, hc, if_true, hb, List.mem_cons] at hx
      rcases hx with hx | hx
      · rw [hx]; exact hq
      · exact ih next hqn x hx
    · simp only [side_cross_states, hc, if_false, List.mem_singleton] at hx
      rw [hx]; exact hq

/-- The state in which the loop exits is the last of the states in which it
tested its condition. -/
theorem side_cross_loop_last {T : Type} (s : List T) :
    ∀ (fuel : Nat) (st fin : SideCrossState T), side_cross_loop s (fuel + 1) st = some fin →
      (side_cross_states s fuel st).getLast? = some fin ∧ ¬ (fin.left ≤ fin.right) := by
  intro fuel
  induction fuel with
  | zero =>
    intro st fin h
    by_cases hc : st.left ≤ st.right
    · simp [side_cross_loop, hc] at h
    · simp only [side_cross_loop, hc, if_false, Option.some.injEq] at h
      subst h
      exact ⟨rfl, hc⟩
  | succ fuel ih =>
    intro st fin h
    by_cases hc : st.left ≤ st.right
    · rw [side_cross_loop] at h
      simp only [hc, if_true] at h
      cases hb : side_cross_body s st with
      | none => rw [hb] at h; simp at h
      | some next =>
        rw [hb] at h
        simp only [Option.some_bind] at h
        obtain ⟨h1, h2⟩ := ih next fin h
        refine ⟨?_, h2⟩
        simp only [side_cross_states, hc, if_true, hb]
        rw [List.getLast?_cons, h1]
        rfl
    · rw [side_cross_loop] at h
      simp only [hc, if_false, Option.some.injEq] at h
      subst h
      refine ⟨?_, hc⟩
      simp [side_cross_states, hc]


theorem filter_ne_push_back {T : Type} [DecidableEq T] (xs : List T) (v : T) :
    (push_back xs v).filter (fun x => x ≠ v) = xs.filter (fun x => x ≠ v) := by
  simp [push_back, List.filter_append]

/-! ## Memory lemmas -/

section lemmas_memory

theorem mem_call_other {T : Type} [LinearOrder T] (m : Memory T) (this other : Nat) (hne : other ≠ this) (call : Call T) :
    (mem_call m this call) other = m other := by
  unfold mem_call
  cases hm : m this with
  | none => rfl
  | some o => cases o <;> simp [Function.update, hne]

theorem mem_call_same {T : Type} [LinearOrder T] (m : Memory T) (this : Nat) (c : MyContainer T)
    (h : m this = some (Obj.container c)) (call : Call T) :
    (mem_call m this call) this = some (Obj.container (exec this c call)) := by
  unfold mem_call
  rw [h]
  simp [Function.update]

theorem mem_run_other {T : Type} [LinearOrder T] (this other : Nat) (hne : other ≠ this) (calls : List (Call T)) :
    ∀ m : Memory T, (mem_run m this calls) other = m other := by
  induction calls with
  | nil => intro m; rfl
  | cons call rest ih =>
    intro m
    simp only [mem_run, List.foldl_cons] at ih ⊢
    rw [ih (mem_call m this call), mem_call_other m this other hne]

theorem mem_run_same {T : Type} [LinearOrder T] (this : Nat) (calls : List (Call T)) :
    ∀ (m : Memory T) (c : MyContainer T), m this = some (Obj.container c) →
      (mem_run m this calls) this = some (Obj.container (run this c calls)) := by
  induction calls with
  | nil => intro m c h; exact h
  | cons call rest ih =>
    intro m c h
    simp only [mem_run, run, List.foldl_cons] at ih ⊢
    exact ih (mem_call m this call) (exec this c call) (mem_call_same m this c h call)

/-- What `++it` leaves at the address `it` depends on the object there only. -/
theorem mem_operator_pre_increment_congr {T : Type} (m1 m2 : Memory T) (it : Nat) (h : m1 it = m2 it) :
    (mem_operator_pre_increment m1 it) it = (mem_operator_pre_increment m2 it) it := by
  unfold mem_operator_pre_increment
  rw [← h]
  cases hm : m1 it with
  | none => simp [hm, h ▸ hm]
  | some o => cases o <;> simp [Function.update, hm, h ▸ hm]

theorem mem_advance_congr {T : Type} (it : Nat) (k : Nat) :
    ∀ m1 m2 : Memory T, m1 it = m2 it → (mem_advance m1 it k) it = (mem_advance m2 it k) it := by
  induction k with
  | zero => intro m1 m2 h; exact h
  | succ k ih =>
    intro m1 m2 h
    exact ih _ _ (mem_operator_pre_increment_congr m1 m2 it h)

theorem mem_operator_star_congr {T : Type} (m1 m2 : Memory T) (it : Nat) (h : m1 it = m2 it) :
    mem_operator_star m1 it = mem_operator_star m2 it := by
  unfold mem_operator_star
  rw [h]

theorem mem_operator_pre_increment_other {T : Type} (m : Memory T) (it other : Nat) (hne : other ≠ it) :
    (mem_operator_pre_increment m it) other = m other := by
  unfold mem_operator_pre_increment
  cases hm : m it with
  | none => rfl
  | some o => cases o <;> simp [Function.update, hne]

theorem mem_advance_other {T : Type} (it other : Nat) (hne : other ≠ it) (k : Nat) :
    ∀ m : Memory T, (mem_advance m it k) other = m other := by
  induction k with
  | zero => intro m; rfl
  | succ k ih =>
    intro m
    simp only [mem_advance]
    rw [ih, mem_operator_pre_increment_other m it other hne]

/-- Every accessor returns an iterator. -/
theorem returned_accessor {T : Type} [LinearOrder T] (this : Nat) (c : MyContainer T) (h : c.size < USIZE)
    (call : Call T) (hr : call.is_remove = false) (ha : ∀ v, call ≠ Call.add v) :
    ∃ o : Obj T, returned this c call = some o := by
  obtain ⟨hb, he, _⟩ := begin_side_cross_order_eq c this 0 h
  obtain ⟨hb2, he2, _⟩ := begin_middle_out_order_eq c this 0 h
  cases call with
  | add v => exact absurd rfl (ha v)
  | remove v => simp [Call.is_remove] at hr
  | begin_side_cross_order => exact ⟨_, by simp only [returned, hb]; rfl⟩
  | end_side_cross_order => exact ⟨_, by simp only [returned, he]; rfl⟩
  | begin_middle_out_order => exact ⟨_, by simp only [returned, hb2]; rfl⟩
  | end_middle_out_order => exact ⟨_, by simp only [returned, he2]; rfl⟩
  | _ => exact ⟨_, rfl⟩

end lemmas_memory

/-! ## What `std::sort` promises -/

/-- C1: when `v` occurs in the stored sequence `xs`, `remove(v)` succeeds and
leaves exactly the elements of `xs` that differ from `v`, in their original
relative order. -/
theorem remove_deletes_every_occurrence {T : Type} [DecidableEq T] (xs : List T) (v : T)
    (h : v ∈ xs) :
    (MyContainer.mk xs).remove v =
      (Except.ok (), MyContainer.mk (xs.filter (fun x => x ≠ v))) :=
  remove_of_mem (MyContainer.mk xs) v h

/-- Witness for C1: `[1,2,2,3,2,4]` with `2` removed is `[1,3,4]`. -/
theorem remove_deletes_every_occurrence_witness :
    (2 : Int) ∈ [1, 2, 2, 3, 2, 4] ∧
      (MyContainer.mk [1, 2, 2, 3, 2, 4]).remove (2 : Int) =
        (Except.ok (), MyContainer.mk [1, 3, 4]) :=
  ⟨by decide, remove_deletes_every_occurrence [1, 2, 2, 3, 2, 4] 2 (by decide)⟩

/-- C2: `remove(v)` fails with the not-found error exactly when no stored
element equals `v` (so always on the empty container) and succeeds otherwise;
a failed call leaves the container, its size and its rendering as they were,
and the same call fails again. -/
theorem remove_fails_iff_absent {T : Type} [DecidableEq T] [ToString T]
    (c : MyContainer T) (v : T) :
    ((c.remove v).1 = Except.error MyContainer.notFound ↔ v ∉ c.elements) ∧
    ((c.remove v).1 = Except.ok () ↔ v ∈ c.elements) ∧
    ((MyContainer.empty : MyContainer T).remove v).1 = Except.error MyContainer.notFound ∧
    ((c.remove v).1 = Except.error MyContainer.notFound →
      (c.remove v).2 = c ∧ (c.remove v).2.size = c.size ∧
      (∀ os : String, (c.remove v).2.operator_lshift os = c.operator_lshift os) ∧
      ((c.remove v).2.remove v).1 = Except.error MyContainer.notFound) := by
  have hempty : ((MyContainer.empty : MyContainer T).remove v).1
      = Except.error MyContainer.notFound := by
    rw [remove_of_not_mem _ v (by simp [MyContainer.empty])]
  by_cases h : v ∈ c.elements
  · have e := remove_of_mem c v h
    refine ⟨?_, ?_, hempty, ?_⟩
    · rw [e]; simp [h]
    · rw [e]; simp [h]
    · rw [e]; intro hx; simp at hx
  · have e := remove_of_not_mem c v h
    refine ⟨?_, ?_, hempty, ?_⟩
    · rw [e]; simp [h]
    · rw [e]; simp [h]
    · intro _
      rw [e]
      exact ⟨rfl, rfl, fun _ => rfl, by rw [e]⟩

/-- Witness for C2: removing `4` from `[1,2,3]` fails and changes nothing. -/
theorem remove_fails_iff_absent_witness :
    ((MyContainer.mk [1, 2, 3]).remove (4 : Int)).2 = MyContainer.mk [1, 2, 3] ∧
      (((MyContainer.mk [1, 2, 3]).remove (4 : Int)).2.remove 4).1
        = Except.error MyContainer.notFound :=
  have h := (remove_fails_iff_absent (MyContainer.mk [1, 2, 3]) (4 : Int)).2.2.2 (by rfl)
  ⟨h.1, h.2.2.2⟩

/-- C3: `add(v)` is total and leaves the stored sequence followed by `v`: the
elements at the old positions are unchanged, `v` is last, and the size grows
by exactly one; this holds whether or not `v` was already stored. -/
theorem add_appends_at_the_end {T : Type} (c : MyContainer T) (v : T) :
    (c.add v).elements = c.elements ++ [v] ∧
    (c.add v).size = c.size + 1 ∧
    (∀ i : Nat, i < c.size → (c.add v).elements[i]? = c.elements[i]?) ∧
    (c.add v).elements[c.size]? = some v ∧
    (c.add v).elements.getLast? = some v := by
  refine ⟨rfl, ?_, ?_, ?_, ?_⟩
  · simp [MyContainer.add, MyContainer.size, push_back]
  · intro i hi
    simp only [MyContainer.size] at hi
    simp [MyContainer.add, push_back, List.getElem?_append_left hi]
  · simp [MyContainer.add, MyContainer.size, push_back]
  · simp [MyContainer.add, push_back]

/-- Witness for C3: adding `20` to `[10, 20]`, where it is stored already, gives
`[10, 20, 20]` and size 3. -/
theorem add_appends_at_the_end_witness :
    ((MyContainer.mk [10, 20]).add (20 : Int)).elements = [10, 20] ++ [20] ∧
      ((MyContainer.mk [10, 20]).add (20 : Int)).size = 2 + 1 ∧
      ((MyContainer.mk [10, 20]).add (20 : Int)).elements[2]? = some 20 :=
  have h := add_appends_at_the_end (MyContainer.mk [10, 20]) (20 : Int)
  ⟨h.1, h.2.1, h.2.2.2.1⟩

/-- C4: a new container has size 0, and after any sequence of calls made on an
initially empty container the size is the number of `add` calls minus the
number of elements deleted by the `remove` calls that succeeded. -/
theorem size_counts_adds_minus_deleted {T : Type} [LinearOrder T] (this : Nat)
    (calls : List (Call T)) :
    (MyContainer.empty : MyContainer T).size = 0 ∧
    num_deleted this (MyContainer.empty : MyContainer T) calls ≤ num_adds calls ∧
    (run this (MyContainer.empty : MyContainer T) calls).size =
      num_adds calls - num_deleted this (MyContainer.empty : MyContainer T) calls := by
  have h := run_size this calls (MyContainer.empty : MyContainer T)
  have h0 : (MyContainer.empty : MyContainer T).size = 0 := rfl
  rw [h0] at h
  refine ⟨h0, ?_, ?_⟩ <;> omega

/-- Witness for C4: four adds, a failed `remove(5)` and a `remove(2)` that
deletes two elements leave size `4 - 2`. -/
theorem size_counts_adds_minus_deleted_witness :
    (run 0 (MyContainer.empty : MyContainer Int)
      [Call.add 1, Call.add 2, Call.add 2, Call.remove 5, Call.remove 2, Call.add 4]).size
        = 4 - 2 :=
  (size_counts_adds_minus_deleted 0
    [Call.add 1, Call.add 2, Call.add 2, Call.remove 5, Call.remove 2, Call.add (4 : Int)]).2.2

/-- C5: the rendering of a stored sequence is `[`, the renderings of the
elements joined with `, `, and `]`; it is `[]` for the empty container and
`[v]` for a container that holds only `v`. -/
theorem print_is_bracketed_join {T : Type} [ToString T] (os : String) (c : MyContainer T)
    (v : T) (h : c.size < USIZE) :
    c.operator_lshift os =
      some (os ++ "[" ++ String.intercalate ", " (c.elements.map toString) ++ "]") ∧
    (MyContainer.empty : MyContainer T).operator_lshift os = some (os ++ "[]") ∧
    (MyContainer.mk [v]).operator_lshift os = some (os ++ "[" ++ toString v ++ "]") := by
  refine ⟨operator_lshift_spec os c h, ?_, ?_⟩
  · simp [MyContainer.operator_lshift, MyContainer.empty, String.append_assoc]
  · rw [operator_lshift_spec os (MyContainer.mk [v]) (by simp [USIZE])]
    simp [String.intercalate, String.intercalate.go]

/-- Witness for C5: the container `[10, 20, 30]` prints as `[10, 20, 30]`. -/
theorem print_is_bracketed_join_witness :
    (MyContainer.mk [(10 : Int), 20, 30]).operator_lshift "" = some "[10, 20, 30]" :=
  (print_is_bracketed_join "" (MyContainer.mk [(10 : Int), 20, 30]) 0 (by decide)).1.trans
    (by decide)

/-- C6: for a container built from empty by `add` calls with any view requests
made in between, the insertion-order view is the sequence of the added values;
none of the twelve accessors changes the container it is called on. -/
theorem insertion_view_is_the_add_sequence {T : Type} [LinearOrder T] (this : Nat)
    (calls : List (Call T)) (h : ∀ call ∈ calls, call.is_remove = false) :
    ((run this (MyContainer.empty : MyContainer T) calls).begin_order this).1._elements
      = added_values calls ∧
    (∀ c : MyContainer T,
      (c.begin_order this).2 = c ∧ (c.end_order this).2 = c ∧
      (c.begin_reverse_order this).2 = c ∧ (c.end_reverse_order this).2 = c ∧
      (c.begin_ascending_order this).2 = c ∧ (c.end_ascending_order this).2 = c ∧
      (c.begin_descending_order this).2 = c ∧ (c.end_descending_order this).2 = c ∧
      (c.begin_side_cross_order this).2 = c ∧ (c.end_side_cross_order this).2 = c ∧
      (c.begin_middle_out_order this).2 = c ∧ (c.end_middle_out_order this).2 = c) := by
  constructor
  · have e := run_elements_of_no_remove this calls h (MyContainer.empty : MyContainer T)
    simpa [MyContainer.begin_order, OrderIterator.init, MyContainer.empty] using e
  · intro c
    exact ⟨rfl, rfl, rfl, rfl, rfl, rfl, rfl, rfl, rfl, rfl, rfl, rfl⟩

/-- Witness for C6: three adds with views of four strategies requested in
between give the insertion-order view `[7, 15, 6]`. -/
theorem insertion_view_is_the_add_sequence_witness :
    ((run 0 (MyContainer.empty : MyContainer Int)
        [Call.add 7, Call.begin_side_cross_order, Call.end_ascending_order, Call.add 15,
          Call.begin_middle_out_order, Call.begin_reverse_order, Call.add 6]).begin_order 0).1._elements
      = [7, 15, 6] :=
  (insertion_view_is_the_add_sequence 0
    [Call.add 7, Call.begin_side_cross_order, Call.end_ascending_order, Call.add 15,
      Call.begin_middle_out_order, Call.begin_reverse_order, Call.add (6 : Int)]
    (by decide)).1

/-- C7: the reverse view has the length of the snapshot, its element at
position `i` is the snapshot element at position `n - 1 - i`, and the reverse
view of a container that holds a reverse view is the original sequence. -/
theorem reverse_view_reads_backwards {T : Type} (c : MyContainer T) (this other : Nat) :
    (c.begin_reverse_order this).1.reverse_elements.length = c.size ∧
    (∀ i : Nat, i < c.size →
      (c.begin_reverse_order this).1.reverse_elements[i]? = c.elements[c.size - 1 - i]?) ∧
    ((MyContainer.mk (c.begin_reverse_order this).1.reverse_elements).begin_reverse_order
      other).1.reverse_elements = c.elements := by
  refine ⟨?_, ?_, ?_⟩
  · simp [MyContainer.begin_reverse_order, ReverseOrderIterator.init, std_reverse,
      MyContainer.size]
  · intro i hi
    simp only [MyContainer.size] at hi
    simp only [MyContainer.begin_reverse_order, ReverseOrderIterator.init, std_reverse,
      MyContainer.size]
    exact List.getElem?_reverse hi
  · simp [MyContainer.begin_reverse_order, ReverseOrderIterator.init, std_reverse]

/-- Witness for C7: the reverse view of `[1, 2, 3, 4]` is `[4, 3, 2, 1]`, and
reversing that gives `[1, 2, 3, 4]` again. -/
theorem reverse_view_reads_backwards_witness :
    ((MyContainer.mk [1, 2, 3, (4 : Int)]).begin_reverse_order 0).1.reverse_elements
        = [4, 3, 2, 1] ∧
      ((MyContainer.mk ((MyContainer.mk [1, 2, 3, (4 : Int)]).begin_reverse_order
        0).1.reverse_elements).begin_reverse_order 1).1.reverse_elements = [1, 2, 3, 4] :=
  ⟨by decide, (reverse_view_reads_backwards (MyContainer.mk [1, 2, 3, (4 : Int)]) 0 1).2.2⟩

/-- C8: the ascending view is non-decreasing (pairwise, and so each element is
at most its successor) and is a permutation of the snapshot, with the same
length and the same number of copies of every value. -/
theorem ascending_view_sorted_permutation {T : Type} [LinearOrder T] (c : MyContainer T)
    (this : Nat) :
    List.Sorted (fun a b => a ≤ b) (c.begin_ascending_order this).1.sorted_elements ∧
    List.Chain' (fun a b => a ≤ b) (c.begin_ascending_order this).1.sorted_elements ∧
    List.Perm (c.begin_ascending_order this).1.sorted_elements c.elements ∧
    (c.begin_ascending_order this).1.sorted_elements.length = c.size ∧
    (∀ x : T, (c.begin_ascending_order this).1.sorted_elements.count x = c.elements.count x) := by
  have hs := sorted_std_sort_lt c.elements
  have hp := perm_std_sort (fun a b : T => a < b) c.elements
  exact ⟨hs, List.Pairwise.chain' hs, hp, hp.length_eq, fun x => hp.count_eq x⟩

/-- Witness for C8: the ascending view of `[5, 3, 5, 1, 3]` is `[1, 3, 3, 5, 5]`,
and that of `[-5, -1, -10, 3]` is `[-10, -5, -1, 3]`. -/
theorem ascending_view_sorted_permutation_witness :
    List.Perm ((MyContainer.mk [5, 3, 5, 1, (3 : Int)]).begin_ascending_order 0).1.sorted_elements
        [5, 3, 5, 1, 3] ∧
      ((MyContainer.mk [5, 3, 5, 1, (3 : Int)]).begin_ascending_order 0).1.sorted_elements
        = [1, 3, 3, 5, 5] ∧
      ((MyContainer.mk [-5, -1, -10, (3 : Int)]).begin_ascending_order 0).1.sorted_elements
        = [-10, -5, -1, 3] :=
  ⟨(ascending_view_sorted_permutation (MyContainer.mk [5, 3, 5, 1, (3 : Int)]) 0).2.2.1,
    by decide, by decide⟩

/-- C9: the descending view is non-increasing (pairwise, and so each element is
at least its successor) and is a permutation of the snapshot, with the same
length and the same number of copies of every value. -/
theorem descending_view_sorted_permutation {T : Type} [LinearOrder T] (c : MyContainer T)
    (this : Nat) :
    List.Sorted (fun a b => a ≥ b) (c.begin_descending_order this).1.reverse_sorted_elements ∧
    List.Chain' (fun a b => a ≥ b) (c.begin_descending_order this).1.reverse_sorted_elements ∧
    List.Perm (c.begin_descending_order this).1.reverse_sorted_elements c.elements ∧
    (c.begin_descending_order this).1.reverse_sorted_elements.length = c.size ∧
    (∀ x : T,
      (c.begin_descending_order this).1.reverse_sorted_elements.count x = c.elements.count x) := by
  have hs := sorted_std_sort_gt c.elements
  have hp := perm_std_sort (fun a b : T => a > b) c.elements
  exact ⟨hs, List.Pairwise.chain' hs, hp, hp.length_eq, fun x => hp.count_eq x⟩

/-- Witness for C9: the descending view of `[15, 5, 25, 10]` is
`[25, 15, 10, 5]`. -/
theorem descending_view_sorted_permutation_witness :
    List.Perm
        ((MyContainer.mk [15, 5, 25, (10 : Int)]).begin_descending_order 0).1.reverse_sorted_elements
        [15, 5, 25, 10] ∧
      ((MyContainer.mk [15, 5, 25, (10 : Int)]).begin_descending_order 0).1.reverse_sorted_elements
        = [25, 15, 10, 5] :=
  ⟨(descending_view_sorted_permutation (MyContainer.mk [15, 5, 25, (10 : Int)]) 0).2.2.1,
    by decide⟩

/-- C10: the constructor of the side-cross iterator returns, and its view has
the length `n` of the snapshot and alternates from both ends of the ascending
view `s`: position `2k` holds `s[k]` and position `2k+1` holds `s[n-1-k]`, for
every position below `n`. -/
theorem side_cross_view_alternates_ends {T : Type} [LinearOrder T] (c : MyContainer T)
    (this : Nat) (h : c.size < USIZE) :
    ∃ it : SideCrossIterator T,
      (c.begin_side_cross_order this).1 = some it ∧
      it.side_cross_order.length = c.size ∧
      (∀ k : Nat, 2 * k < c.size →
        it.side_cross_order[2 * k]? = (c.begin_ascending_order this).1.sorted_elements[k]?) ∧
      (∀ k : Nat, 2 * k + 1 < c.size →
        it.side_cross_order[2 * k + 1]? =
          (c.begin_ascending_order this).1.sorted_elements[c.size - 1 - k]?) := by
  have hl : (std_sort (fun a b : T => a < b) c.elements).length = c.size :=
    length_std_sort _ _
  refine ⟨_, congrArg Prod.fst (show c.begin_side_cross_order this = (_, c) from
    congrArg (fun x => (x, c)) (side_cross_init c.elements 0 this h)), ?_, ?_, ?_⟩
  · simp only [length_alternate_ends, hl]
  · intro k hk
    exact alternate_ends_even _ k (by rw [hl]; exact hk)
  · intro k hk
    have e := alternate_ends_odd (std_sort (fun a b : T => a < b) c.elements) k
      (by rw [hl]; exact hk)
    rw [hl] at e
    exact e

/-- Witness for C10: the snapshot `[7,15,6,1,2]` has the side-cross view
`[1,15,2,7,6]`, and `[3,8,12,18]` has `[3,18,8,12]`. -/
theorem side_cross_view_alternates_ends_witness :
    (∃ it : SideCrossIterator Int,
      ((MyContainer.mk [7, 15, 6, 1, 2]).begin_side_cross_order 0).1 = some it ∧
      it.side_cross_order.length = 5 ∧
      it.side_cross_order[2 * 1]? = some 2 ∧ it.side_cross_order[2 * 1 + 1]? = some 7) ∧
    ((MyContainer.mk [7, 15, 6, 1, 2]).begin_side_cross_order 0).1.map
      (fun it => it.side_cross_order) = some [1, 15, 2, 7, (6 : Int)] ∧
    ((MyContainer.mk [3, 8, 12, 18]).begin_side_cross_order 0).1.map
      (fun it => it.side_cross_order) = some [3, 18, 8, (12 : Int)] := by
  refine ⟨?_, by decide, by decide⟩
  obtain ⟨it, h1, h2, h3, h4⟩ :=
    side_cross_view_alternates_ends (MyContainer.mk [7, 15, 6, 1, (2 : Int)]) 0 (by decide)
  exact ⟨it, h1, h2, (h3 1 (by decide)).trans (by decide), (h4 1 (by decide)).trans (by decide)⟩
/-- C11: the side-cross view emits every stored element exactly once: it is a
permutation of the snapshot, with the same length and the same number of
copies of every value. -/
theorem side_cross_view_is_permutation {T : Type} [LinearOrder T] (c : MyContainer T)
    (this : Nat) (h : c.size < USIZE) :
    ∃ it : SideCrossIterator T,
      (c.begin_side_cross_order this).1 = some it ∧
      List.Perm it.side_cross_order c.elements ∧
      it.side_cross_order.length = c.size ∧
      (∀ x : T, it.side_cross_order.count x = c.elements.count x) := by
  have hp : List.Perm (alternate_ends (std_sort (fun a b : T => a < b) c.elements)) c.elements :=
    (alternate_ends_perm _).trans (perm_std_sort _ _)
  exact ⟨_, congrArg Prod.fst (show c.begin_side_cross_order this = (_, c) from
    congrArg (fun x => (x, c)) (side_cross_init c.elements 0 this h)),
    hp, hp.length_eq, fun x => hp.count_eq x⟩

/-- Witness for C11: the side-cross view of `[2, 9, 2, 4, 2]`, where the
cursors meet on a repeated value, is `[2, 9, 2, 4, 2]` with three copies of
`2`. -/
theorem side_cross_view_is_permutation_witness :
    (∃ it : SideCrossIterator Int,
      ((MyContainer.mk [2, 9, 2, 4, 2]).begin_side_cross_order 0).1 = some it ∧
      it.side_cross_order.length = 5 ∧ it.side_cross_order.count 2 = 3) ∧
    ((MyContainer.mk [2, 9, 2, 4, 2]).begin_side_cross_order 0).1.map
      (fun it => it.side_cross_order) = some [2, 9, 2, 4, (2 : Int)] := by
  refine ⟨?_, by decide⟩
  obtain ⟨it, h1, _, h3, h4⟩ :=
    side_cross_view_is_permutation (MyContainer.mk [2, 9, 2, 4, (2 : Int)]) 0 (by decide)
  exact ⟨it, h1, h3, (h4 2).trans (by decide)⟩

/-- C12: for a snapshot of odd length `n`, the last element of the side-cross
view is the middle element `s[(n-1)/2]` of the ascending view `s`. -/
theorem side_cross_last_is_middle {T : Type} [LinearOrder T] (c : MyContainer T)
    (this : Nat) (h : c.size < USIZE) (hodd : c.size % 2 = 1) :
    ∃ (it : SideCrossIterator T) (m : T),
      (c.begin_side_cross_order this).1 = some it ∧
      (c.begin_ascending_order this).1.sorted_elements[(c.size - 1) / 2]? = some m ∧
      it.side_cross_order.getLast? = some m := by
  have hl : (std_sort (fun a b : T => a < b) c.elements).length = c.size :=
    length_std_sort _ _
  have hm : (c.size - 1) / 2 < (std_sort (fun a b : T => a < b) c.elements).length := by
    rw [hl]; omega
  refine ⟨_, (std_sort (fun a b : T => a < b) c.elements).get ⟨(c.size - 1) / 2, hm⟩,
    congrArg Prod.fst (show c.begin_side_cross_order this = (_, c) from
      congrArg (fun x => (x, c)) (side_cross_init c.elements 0 this h)), ?_, ?_⟩
  · exact List.getElem?_eq_getElem hm
  · have e := alternate_ends_even (std_sort (fun a b : T => a < b) c.elements)
      ((c.size - 1) / 2) (by rw [hl]; omega)
    have e2 : 2 * ((c.size - 1) / 2) = c.size - 1 := by omega
    rw [e2] at e
    show (alternate_ends (std_sort (fun a b : T => a < b) c.elements)).getLast? = _
    have e3 : (std_sort (fun a b : T => a < b) c.elements).length - 1 = c.size - 1 := by
      rw [hl]
    rw [List.getLast?_eq_getElem?, length_alternate_ends, e3, e]
    exact List.getElem?_eq_getElem hm

/-- Witness for C12: the side-cross view of `[7, 15, 6, 1, 2]` ends with `6`,
the middle of `[1, 2, 6, 7, 15]`. -/
theorem side_cross_last_is_middle_witness :
    ∃ it : SideCrossIterator Int,
      ((MyContainer.mk [7, 15, 6, 1, 2]).begin_side_cross_order 0).1 = some it ∧
      it.side_cross_order.getLast? = some 6 := by
  obtain ⟨it, m, h1, h2, h3⟩ :=
    side_cross_last_is_middle (MyContainer.mk [7, 15, 6, 1, (2 : Int)]) 0 (by decide) (by decide)
  have h2b : some (6 : Int) = some m := h2
  have hm : m = 6 := (Option.some.inj h2b).symm
  subst hm
  exact ⟨it, h1, h3⟩

/-- C13: the constructor of the middle-out iterator returns, and for a
snapshot `e` of length `n` with `mid = n / 2` its view is `e[mid]` followed,
for `offset = 1, ..., mid` in this order, by `e[mid - offset]` and then by
`e[mid + offset]` when `mid + offset < n`. -/
theorem middle_out_view_walks_outwards {T : Type} (c : MyContainer T) (this : Nat)
    (h : c.size < USIZE) (hne : c.elements ≠ []) :
    ∃ (it : MiddleOutIterator T) (m : T),
      (c.begin_middle_out_order this).1 = some it ∧
      c.elements[c.size / 2]? = some m ∧
      it.middle_out_order =
        m :: (List.range' 1 (c.size / 2)).flatMap (fun offset =>
          (c.elements[c.size / 2 - offset]?).toList ++
            (if c.size / 2 + offset < c.size then (c.elements[c.size / 2 + offset]?).toList
              else [])) ∧
      (∀ offset : Nat, 1 ≤ offset → offset ≤ c.size / 2 →
        (c.elements[c.size / 2 - offset]?).isSome = true) ∧
      (∀ offset : Nat, c.size / 2 + offset < c.size →
        (c.elements[c.size / 2 + offset]?).isSome = true) := by
  have hpos : 0 < c.elements.length := List.length_pos.mpr hne
  have hmid : c.elements.length / 2 < c.elements.length := by omega
  refine ⟨_, c.elements.get ⟨c.elements.length / 2, hmid⟩,
    congrArg Prod.fst (show c.begin_middle_out_order this = (_, c) from
      congrArg (fun x => (x, c)) (middle_out_init c.elements 0 this h)),
    List.getElem?_eq_getElem hmid, ?_, ?_, ?_⟩
  · show middle_out_ref c.elements = _
    simp only [middle_out_ref, MyContainer.size, List.getElem?_eq_getElem hmid, Option.toList,
      List.singleton_append]
    rfl
  · intro offset _ _
    simp only [MyContainer.size]
    rw [List.getElem?_eq_getElem (by omega)]; rfl
  · intro offset ho
    simp only [MyContainer.size] at ho ⊢
    rw [List.getElem?_eq_getElem ho]; rfl

/-- Witness for C13: `[10,20,30,40,50]` has the middle-out view
`[30,20,40,10,50]` and `[5,15,25,35]` has `[25,15,35,5]`. -/
theorem middle_out_view_walks_outwards_witness :
    (∃ (it : MiddleOutIterator Int) (m : Int),
      ((MyContainer.mk [10, 20, 30, 40, 50]).begin_middle_out_order 0).1 = some it ∧
      m = 30 ∧ it.middle_out_order = [30, 20, 40, 10, 50]) ∧
    ((MyContainer.mk [5, 15, 25, (35 : Int)]).begin_middle_out_order 0).1.map
      (fun it => it.middle_out_order) = some [25, 15, 35, 5] := by
  refine ⟨?_, by decide⟩
  obtain ⟨it, m, h1, h2, h3, _⟩ :=
    middle_out_view_walks_outwards (MyContainer.mk [10, 20, 30, 40, (50 : Int)]) 0
      (by decide) (by decide)
  have hm : m = 30 := by
    have h2b : some (30 : Int) = some m := h2
    exact (Option.some.inj h2b).symm
  subst hm
  exact ⟨it, 30, h1, rfl, h3.trans (by decide)⟩

/-- Counterexample to C14 as stated: the middle-out view of `[5, 15, 25, 35]`
is `[25, 15, 35, 5]`; its first element is not the element `15` at index
`n / 2 - 1`.  For the snapshot of positions `[0, 1, 2, 3]` the view is
`[2, 1, 3, 0]`: it starts at position `2`, and one emitted position lies to the
right of the start against two to its left. -/
theorem middle_out_even_start_counterexample :
    ((MyContainer.mk [5, 15, 25, (35 : Int)]).begin_middle_out_order 0).1 =
      some (MiddleOutIterator.mk [25, 15, 35, 5] 0 0) ∧
    ([5, 15, 25, (35 : Int)])[4 / 2 - 1]? = some 15 ∧
    ¬ (∃ it : MiddleOutIterator Int,
        ((MyContainer.mk [5, 15, 25, (35 : Int)]).begin_middle_out_order 0).1 = some it ∧
        it.middle_out_order.head? = ([5, 15, 25, (35 : Int)])[4 / 2 - 1]?) ∧
    ((MyContainer.mk [0, 1, 2, (3 : Nat)]).begin_middle_out_order 0).1 =
      some (MiddleOutIterator.mk [2, 1, 3, 0] 0 0) ∧
    ([2, 1, 3, (0 : Nat)].filter (fun i => i > 2)).length = 1 ∧
    ([2, 1, 3, (0 : Nat)].filter (fun i => i < 2)).length = 2 := by
  have h0 : ((MyContainer.mk [5, 15, 25, (35 : Int)]).begin_middle_out_order 0).1 =
      some (MiddleOutIterator.mk [25, 15, 35, 5] 0 0) := by decide
  refine ⟨h0, by decide, ?_, by decide, by decide, by decide⟩
  rintro ⟨it, h1, h2⟩
  rw [h0] at h1
  cases h1
  revert h2
  decide

/-- C14 (amended): for a snapshot of even length `n ≥ 2` the middle-out view
starts at the upper of the two central indices, `n / 2`, and the left side gets
the extra emission: after the first element come the `n / 2` elements stored
left of index `n / 2`, nearest first, alternated with the `n / 2 - 1` elements
stored right of it. -/
theorem middle_out_even_starts_at_upper_middle {T : Type} (c : MyContainer T) (this : Nat)
    (h : c.size < USIZE) (heven : c.size % 2 = 0) (h2 : 2 ≤ c.size) :
    ∃ (it : MiddleOutIterator T) (m : T),
      (c.begin_middle_out_order this).1 = some it ∧
      c.elements[c.size / 2]? = some m ∧
      it.middle_out_order.head? = some m ∧
      it.middle_out_order =
        m :: alternate (c.elements.take (c.size / 2)).reverse (c.elements.drop (c.size / 2 + 1)) ∧
      (c.elements.take (c.size / 2)).length = c.size / 2 ∧
      (c.elements.drop (c.size / 2 + 1)).length = c.size / 2 - 1 := by
  simp only [MyContainer.size] at h heven h2 ⊢
  have hmid : c.elements.length / 2 < c.elements.length := by omega
  have hv : middle_out_ref c.elements =
      c.elements.get ⟨c.elements.length / 2, hmid⟩ ::
        alternate (c.elements.take (c.elements.length / 2)).reverse
          (c.elements.drop (c.elements.length / 2 + 1)) := by
    rw [middle_out_ref_eq_alternate, List.getElem?_eq_getElem hmid]
    rfl
  refine ⟨_, c.elements.get ⟨c.elements.length / 2, hmid⟩,
    congrArg Prod.fst (show c.begin_middle_out_order this = (_, c) from
      congrArg (fun x => (x, c)) (middle_out_init c.elements 0 this h)),
    List.getElem?_eq_getElem hmid, ?_, hv, ?_, ?_⟩
  · show (middle_out_ref c.elements).head? = _
    rw [hv]; rfl
  · simp only [List.length_take]; omega
  · simp only [List.length_drop]; omega

/-- Witness for C14 (amended): `[5, 15, 25, 35]` starts at `25`, the element at
index `4 / 2`, and then alternates `[15, 5]` with `[35]`. -/
theorem middle_out_even_starts_at_upper_middle_witness :
    ∃ it : MiddleOutIterator Int,
      ((MyContainer.mk [5, 15, 25, 35]).begin_middle_out_order 0).1 = some it ∧
      it.middle_out_order.head? = some 25 ∧
      it.middle_out_order = 25 :: alternate [15, 5] [35] := by
  obtain ⟨it, m, h1, h2, h3, h4, _⟩ :=
    middle_out_even_starts_at_upper_middle (MyContainer.mk [5, 15, 25, (35 : Int)]) 0
      (by decide) (by decide) (by decide)
  have h2b : some (25 : Int) = some m := h2
  have hm : m = 25 := (Option.some.inj h2b).symm
  subst hm
  exact ⟨it, h1, h3, h4⟩

/-- C15: the middle-out view of a snapshot of any length `n` has length `n` and
is a permutation of the snapshot, with the same number of copies of every
value: nothing is lost and nothing is emitted twice.  It reads the snapshot at
the positions of the middle-out order of `0, ..., n - 1`, which is a
permutation of these positions. -/
theorem middle_out_view_is_permutation {T : Type} [DecidableEq T] (c : MyContainer T)
    (this : Nat) (h : c.size < USIZE) :
    ∃ it : MiddleOutIterator T,
      (c.begin_middle_out_order this).1 = some it ∧
      it.middle_out_order.length = c.size ∧
      List.Perm it.middle_out_order c.elements ∧
      (∀ x : T, it.middle_out_order.count x = c.elements.count x) ∧
      it.middle_out_order.map some =
        (middle_out_ref (List.range c.size)).map (fun i => c.elements[i]?) ∧
      List.Perm (middle_out_ref (List.range c.size)) (List.range c.size) := by
  have hp := middle_out_ref_perm c.elements
  exact ⟨_, congrArg Prod.fst (show c.begin_middle_out_order this = (_, c) from
    congrArg (fun x => (x, c)) (middle_out_init c.elements 0 this h)),
    hp.length_eq, hp, fun x => hp.count_eq x, middle_out_ref_positions c.elements,
    middle_out_ref_perm _⟩

/-- Witness for C15: the middle-out views of `[5, 15, 25, 35]` (even length)
and of `[7, 15, 6, 1, 2]` (odd length) keep all elements. -/
theorem middle_out_view_is_permutation_witness :
    (∃ it : MiddleOutIterator Int,
      ((MyContainer.mk [5, 15, 25, 35]).begin_middle_out_order 0).1 = some it ∧
      it.middle_out_order.length = 4 ∧
      List.Perm it.middle_out_order [5, 15, 25, 35]) ∧
    ((MyContainer.mk [7, 15, 6, 1, (2 : Int)]).begin_middle_out_order 0).1.map
      (fun it => it.middle_out_order) = some [6, 15, 1, 7, 2] := by
  refine ⟨?_, by decide⟩
  obtain ⟨it, h1, h2, h3, _⟩ :=
    middle_out_view_is_permutation (MyContainer.mk [5, 15, 25, (35 : Int)]) 0 (by decide)
  exact ⟨it, h1, h2, h3⟩

/-- C16: for every container and each of the six strategies, dereferencing the
cursor returned by `end_<strategy>()` throws the out-of-range exception; the
side-cross and middle-out constructors return, and their sequences have
exactly `size()` elements. -/
theorem end_cursor_dereference_throws {T : Type} [LinearOrder T] (c : MyContainer T)
    (this : Nat) (h : c.size < USIZE) :
    (c.end_order this).1.operator_star.1 = Except.error outOfBounds ∧
    (c.end_reverse_order this).1.operator_star.1 = Except.error outOfBounds ∧
    (c.end_ascending_order this).1.operator_star.1 = Except.error outOfBounds ∧
    (c.end_descending_order this).1.operator_star.1 = Except.error outOfBounds ∧
    (∃ it : SideCrossIterator T, (c.end_side_cross_order this).1 = some it ∧ it.side_cross_order.length = c.size ∧
      it.operator_star.1 = Except.error outOfBounds) ∧
    (∃ it : MiddleOutIterator T, (c.end_middle_out_order this).1 = some it ∧ it.middle_out_order.length = c.size ∧
      it.operator_star.1 = Except.error outOfBounds) := by
  refine ⟨?_, ?_, ?_, ?_, ?_, ?_⟩
  · exact order_operator_star_of_ge _ (Nat.le_refl _)
  · exact reverse_operator_star_of_ge _ (by
      simp [MyContainer.end_reverse_order, ReverseOrderIterator.init, std_reverse])
  · exact ascending_operator_star_of_ge _ (by
      simp [MyContainer.end_ascending_order, AscendingIterator.init, length_std_sort])
  · exact descending_operator_star_of_ge _ (by
      simp [MyContainer.end_descending_order, DescendingOrder.init, length_std_sort])
  · have hl : (alternate_ends (std_sort (fun a b : T => a < b) c.elements)).length = c.size := by
      rw [length_alternate_ends, length_std_sort]; rfl
    exact ⟨_, congrArg Prod.fst (show c.end_side_cross_order this = (_, c) from
      congrArg (fun x => (x, c)) (side_cross_init c.elements c.elements.length this h)), hl,
      side_cross_operator_star_of_ge _ (Nat.le_of_eq hl)⟩
  · have hl : (middle_out_ref c.elements).length = c.size := length_middle_out_ref _
    exact ⟨_, congrArg Prod.fst (show c.end_middle_out_order this = (_, c) from
      congrArg (fun x => (x, c)) (middle_out_init c.elements c.elements.length this h)), hl,
      middle_out_operator_star_of_ge _ (Nat.le_of_eq hl)⟩

/-- Witness for C16: the end cursors of `[1, 2, 3]` and of the empty container
throw on dereference. -/
theorem end_cursor_dereference_throws_witness :
    ((MyContainer.mk [1, 2, (3 : Int)]).end_order 0).1.operator_star.1 = Except.error outOfBounds ∧
    (∃ it : SideCrossIterator Int,
      ((MyContainer.mk [1, 2, (3 : Int)]).end_side_cross_order 0).1 = some it ∧
      it.side_cross_order.length = 3 ∧ it.operator_star.1 = Except.error outOfBounds) ∧
    (∃ it : MiddleOutIterator Int,
      ((MyContainer.empty : MyContainer Int).end_middle_out_order 0).1 = some it ∧
      it.middle_out_order.length = 0 ∧ it.operator_star.1 = Except.error outOfBounds) :=
  ⟨(end_cursor_dereference_throws (MyContainer.mk [1, 2, (3 : Int)]) 0 (by decide)).1,
    (end_cursor_dereference_throws (MyContainer.mk [1, 2, (3 : Int)]) 0 (by decide)).2.2.2.2.1,
    (end_cursor_dereference_throws (MyContainer.empty : MyContainer Int) 0 (by decide)).2.2.2.2.2⟩

/-- C17: for a cursor of any of the six classes with index `i` over a sequence
of length `L`, dereferencing returns the element at position `i` when `i < L`
and throws the out-of-range exception exactly when `i ≥ L`; either way the
cursor after the call is the cursor before it. -/
theorem dereference_is_bounds_checked {T : Type} (a : OrderIterator T) (b : ReverseOrderIterator T) (d : AscendingIterator T) (e : DescendingOrder T) (f : SideCrossIterator T) (g : MiddleOutIterator T) :
    (((a.current_index < a._elements.length →
        ∃ x, a._elements[a.current_index]? = some x ∧ a.operator_star.1 = Except.ok x) ∧
      (a.operator_star.1 = Except.error outOfBounds ↔ a._elements.length ≤ a.current_index)) ∧
      a.operator_star.2 = a) ∧
    (((b.current_index < b.reverse_elements.length →
        ∃ x, b.reverse_elements[b.current_index]? = some x ∧ b.operator_star.1 = Except.ok x) ∧
      (b.operator_star.1 = Except.error outOfBounds ↔ b.reverse_elements.length ≤ b.current_index)) ∧
      b.operator_star.2 = b) ∧
    (((d.current_index < d.sorted_elements.length →
        ∃ x, d.sorted_elements[d.current_index]? = some x ∧ d.operator_star.1 = Except.ok x) ∧
      (d.operator_star.1 = Except.error outOfBounds ↔ d.sorted_elements.length ≤ d.current_index)) ∧
      d.operator_star.2 = d) ∧
    (((e.current_index < e.reverse_sorted_elements.length →
        ∃ x, e.reverse_sorted_elements[e.current_index]? = some x ∧ e.operator_star.1 = Except.ok x) ∧
      (e.operator_star.1 = Except.error outOfBounds ↔ e.reverse_sorted_elements.length ≤ e.current_index)) ∧
      e.operator_star.2 = e) ∧
    (((f.current_index < f.side_cross_order.length →
        ∃ x, f.side_cross_order[f.current_index]? = some x ∧ f.operator_star.1 = Except.ok x) ∧
      (f.operator_star.1 = Except.error outOfBounds ↔ f.side_cross_order.length ≤ f.current_index)) ∧
      f.operator_star.2 = f) ∧
    (((g.current_index < g.middle_out_order.length →
        ∃ x, g.middle_out_order[g.current_index]? = some x ∧ g.operator_star.1 = Except.ok x) ∧
      (g.operator_star.1 = Except.error outOfBounds ↔ g.middle_out_order.length ≤ g.current_index)) ∧
      g.operator_star.2 = g) := by
  refine ⟨?_, ?_, ?_, ?_, ?_, ?_⟩
  · exact ⟨⟨order_operator_star_of_lt a, order_operator_star_error_iff a⟩,
      order_operator_star_snd a⟩
  · exact ⟨⟨reverse_operator_star_of_lt b, reverse_operator_star_error_iff b⟩,
      reverse_operator_star_snd b⟩
  · exact ⟨⟨ascending_operator_star_of_lt d, ascending_operator_star_error_iff d⟩,
      ascending_operator_star_snd d⟩
  · exact ⟨⟨descending_operator_star_of_lt e, descending_operator_star_error_iff e⟩,
      descending_operator_star_snd e⟩
  · exact ⟨⟨side_cross_operator_star_of_lt f, side_cross_operator_star_error_iff f⟩,
      side_cross_operator_star_snd f⟩
  · exact ⟨⟨middle_out_operator_star_of_lt g, middle_out_operator_star_error_iff g⟩,
      middle_out_operator_star_snd g⟩

/-- Witness for C17: over `[10, 20, 30]` index `1` reads `20`, and the indices
`3` (terminal) and `7` (past it) throw. -/
theorem dereference_is_bounds_checked_witness :
    (OrderIterator.mk [10, 20, (30 : Int)] 1 0).operator_star.1 = Except.ok 20 ∧
    (OrderIterator.mk [10, 20, (30 : Int)] 3 0).operator_star.1 = Except.error outOfBounds ∧
    (OrderIterator.mk [10, 20, (30 : Int)] 7 0).operator_star.1 = Except.error outOfBounds ∧
    (OrderIterator.mk [10, 20, (30 : Int)] 7 0).operator_star.2
      = OrderIterator.mk [10, 20, (30 : Int)] 7 0 := by
  have h3 := dereference_is_bounds_checked (OrderIterator.mk [10, 20, (30 : Int)] 3 0)
    (ReverseOrderIterator.mk [] 0 0) (AscendingIterator.mk [] 0 0) (DescendingOrder.mk [] 0 0)
    (SideCrossIterator.mk [] [] 0 0) (MiddleOutIterator.mk [] 0 0)
  have h7 := dereference_is_bounds_checked (OrderIterator.mk [10, 20, (30 : Int)] 7 0)
    (ReverseOrderIterator.mk [] 0 0) (AscendingIterator.mk [] 0 0) (DescendingOrder.mk [] 0 0)
    (SideCrossIterator.mk [] [] 0 0) (MiddleOutIterator.mk [] 0 0)
  exact ⟨by rfl, h3.1.1.2.mpr (by decide), h7.1.1.2.mpr (by decide), h7.1.2⟩


/-- C18: two cursors of the same class compare equal exactly when they have the
same owner and the same index, and `!=` is the negation of `==`.  So two begin
cursors of one container are equal, a begin cursor and the same cursor advanced
once are not, and begin cursors of containers at two different addresses are
not equal, whatever the two containers hold. -/
theorem cursor_equality_is_owner_and_index {T : Type} [LinearOrder T]
    (c c2 : MyContainer T) (this other : Nat) (hc : c.size < USIZE) (hc2 : c2.size < USIZE)
    (hne : this ≠ other) :
    (∀ a b : OrderIterator T,
      (a.operator_eq b = true ↔ a.owner = b.owner ∧ a.current_index = b.current_index) ∧
      a.operator_ne b = !a.operator_eq b) ∧
    (∀ a b : ReverseOrderIterator T,
      (a.operator_eq b = true ↔ a.owner = b.owner ∧ a.current_index = b.current_index) ∧
      a.operator_ne b = !a.operator_eq b) ∧
    (∀ a b : AscendingIterator T,
      (a.operator_eq b = true ↔ a.owner = b.owner ∧ a.current_index = b.current_index) ∧
      a.operator_ne b = !a.operator_eq b) ∧
    (∀ a b : DescendingOrder T,
      (a.operator_eq b = true ↔ a.owner = b.owner ∧ a.current_index = b.current_index) ∧
      a.operator_ne b = !a.operator_eq b) ∧
    (∀ a b : SideCrossIterator T,
      (a.operator_eq b = true ↔ a.owner = b.owner ∧ a.current_index = b.current_index) ∧
      a.operator_ne b = !a.operator_eq b) ∧
    (∀ a b : MiddleOutIterator T,
      (a.operator_eq b = true ↔ a.owner = b.owner ∧ a.current_index = b.current_index) ∧
      a.operator_ne b = !a.operator_eq b) ∧
    ((c.begin_order this).1.operator_eq (c.begin_order this).1 = true ∧
      (c.begin_order this).1.operator_eq (c.begin_order this).1.operator_pre_increment.2 = false ∧
      (c.begin_order this).1.operator_eq (c2.begin_order other).1 = false) ∧
    ((c.begin_reverse_order this).1.operator_eq (c.begin_reverse_order this).1 = true ∧
      (c.begin_reverse_order this).1.operator_eq (c.begin_reverse_order this).1.operator_pre_increment.2 = false ∧
      (c.begin_reverse_order this).1.operator_eq (c2.begin_reverse_order other).1 = false) ∧
    ((c.begin_ascending_order this).1.operator_eq (c.begin_ascending_order this).1 = true ∧
      (c.begin_ascending_order this).1.operator_eq (c.begin_ascending_order this).1.operator_pre_increment.2 = false ∧
      (c.begin_ascending_order this).1.operator_eq (c2.begin_ascending_order other).1 = false) ∧
    ((c.begin_descending_order this).1.operator_eq (c.begin_descending_order this).1 = true ∧
      (c.begin_descending_order this).1.operator_eq (c.begin_descending_order this).1.operator_pre_increment.2 = false ∧
      (c.begin_descending_order this).1.operator_eq (c2.begin_descending_order other).1 = false) ∧
    (∃ it it2 : SideCrossIterator T,
      (c.begin_side_cross_order this).1 = some it ∧ (c2.begin_side_cross_order other).1 = some it2 ∧
      it.operator_eq it = true ∧ it.operator_eq it.operator_pre_increment.2 = false ∧
      it.operator_eq it2 = false) ∧
    (∃ it it2 : MiddleOutIterator T,
      (c.begin_middle_out_order this).1 = some it ∧ (c2.begin_middle_out_order other).1 = some it2 ∧
      it.operator_eq it = true ∧ it.operator_eq it.operator_pre_increment.2 = false ∧
      it.operator_eq it2 = false) := by
  have h01 : ¬ (0 = usize_inc 0) := by decide
  refine ⟨?_, ?_, ?_, ?_, ?_, ?_, ?_, ?_, ?_, ?_, ?_, ?_⟩
  · exact fun a b => ⟨order_operator_eq_iff a b, rfl⟩
  · exact fun a b => ⟨reverse_operator_eq_iff a b, rfl⟩
  · exact fun a b => ⟨ascending_operator_eq_iff a b, rfl⟩
  · exact fun a b => ⟨descending_operator_eq_iff a b, rfl⟩
  · exact fun a b => ⟨side_cross_operator_eq_iff a b, rfl⟩
  · exact fun a b => ⟨middle_out_operator_eq_iff a b, rfl⟩
  · refine ⟨?_, ?_, ?_⟩
    · simp [OrderIterator.operator_eq]
    · simp [OrderIterator.operator_eq, OrderIterator.operator_pre_increment, MyContainer.begin_order, OrderIterator.init, h01]
    · simp [OrderIterator.operator_eq, MyContainer.begin_order, OrderIterator.init, hne]
  · refine ⟨?_, ?_, ?_⟩
    · simp [ReverseOrderIterator.operator_eq]
    · simp [ReverseOrderIterator.operator_eq, ReverseOrderIterator.operator_pre_increment, MyContainer.begin_reverse_order, ReverseOrderIterator.init, h01]
    · simp [ReverseOrderIterator.operator_eq, MyContainer.begin_reverse_order, ReverseOrderIterator.init, hne]
  · refine ⟨?_, ?_, ?_⟩
    · simp [AscendingIterator.operator_eq]
    · simp [AscendingIterator.operator_eq, AscendingIterator.operator_pre_increment, MyContainer.begin_ascending_order, AscendingIterator.init, h01]
    · simp [AscendingIterator.operator_eq, MyContainer.begin_ascending_order, AscendingIterator.init, hne]
  · refine ⟨?_, ?_, ?_⟩
    · simp [DescendingOrder.operator_eq]
    · simp [DescendingOrder.operator_eq, DescendingOrder.operator_pre_increment, MyContainer.begin_descending_order, DescendingOrder.init, h01]
    · simp [DescendingOrder.operator_eq, MyContainer.begin_descending_order, DescendingOrder.init, hne]
  · refine ⟨_, _, congrArg Prod.fst (show c.begin_side_cross_order this = (_, c) from
      congrArg (fun x => (x, c)) (side_cross_init c.elements 0 this hc)),
      congrArg Prod.fst (show c2.begin_side_cross_order other = (_, c2) from
      congrArg (fun x => (x, c2)) (side_cross_init c2.elements 0 other hc2)), ?_, ?_, ?_⟩
    · simp [SideCrossIterator.operator_eq]
    · simp [SideCrossIterator.operator_eq, SideCrossIterator.operator_pre_increment, h01]
    · simp [SideCrossIterator.operator_eq, hne]
  · refine ⟨_, _, congrArg Prod.fst (show c.begin_middle_out_order this = (_, c) from
      congrArg (fun x => (x, c)) (middle_out_init c.elements 0 this hc)),
      congrArg Prod.fst (show c2.begin_middle_out_order other = (_, c2) from
      congrArg (fun x => (x, c2)) (middle_out_init c2.elements 0 other hc2)), ?_, ?_, ?_⟩
    · simp [MiddleOutIterator.operator_eq]
    · simp [MiddleOutIterator.operator_eq, MiddleOutIterator.operator_pre_increment, h01]
    · simp [MiddleOutIterator.operator_eq, hne]

/-- Witness for C18: two containers that both hold `[1, 2]`, at the addresses
`0` and `1`. -/
theorem cursor_equality_is_owner_and_index_witness :
    ((MyContainer.mk [1, (2 : Int)]).begin_order 0).1.operator_eq
      ((MyContainer.mk [1, (2 : Int)]).begin_order 0).1 = true ∧
    ((MyContainer.mk [1, (2 : Int)]).begin_order 0).1.operator_eq
      ((MyContainer.mk [1, (2 : Int)]).begin_order 0).1.operator_pre_increment.2 = false ∧
    ((MyContainer.mk [1, (2 : Int)]).begin_order 0).1.operator_eq
      ((MyContainer.mk [1, (2 : Int)]).begin_order 1).1 = false :=
  (cursor_equality_is_owner_and_index (MyContainer.mk [1, (2 : Int)])
    (MyContainer.mk [1, (2 : Int)]) 0 1 (by decide) (by decide) (by decide)).2.2.2.2.2.2.1


/-- Counterexample to C19 as stated: the begin cursors taken from the container
at address `0` before and after `add(2)` own the different sequences `[1]` and
`[1, 2]` and compare equal, in insertion order and in side-cross order; the
same happens around the successful `remove(2)` on `[1, 2]`. -/
theorem cursor_equality_ignores_sequence_counterexample :
    ((MyContainer.mk [(1 : Int)]).begin_order 0).1._elements ≠
      (((MyContainer.mk [(1 : Int)]).add 2).begin_order 0).1._elements ∧
    ((MyContainer.mk [(1 : Int)]).begin_order 0).1.operator_eq
      (((MyContainer.mk [(1 : Int)]).add 2).begin_order 0).1 = true ∧
    (∃ it it2 : SideCrossIterator Int,
      ((MyContainer.mk [(1 : Int)]).begin_side_cross_order 0).1 = some it ∧
      (((MyContainer.mk [(1 : Int)]).add 2).begin_side_cross_order 0).1 = some it2 ∧
      it.side_cross_order ≠ it2.side_cross_order ∧ it.operator_eq it2 = true) ∧
    ((MyContainer.mk [1, (2 : Int)]).remove 2).1 = Except.ok () ∧
    ((MyContainer.mk [1, (2 : Int)]).begin_order 0).1._elements ≠
      ((((MyContainer.mk [1, (2 : Int)]).remove 2).2).begin_order 0).1._elements ∧
    ((MyContainer.mk [1, (2 : Int)]).begin_order 0).1.operator_eq
      ((((MyContainer.mk [1, (2 : Int)]).remove 2).2).begin_order 0).1 = true := by
  refine ⟨by decide, by decide, ?_, by rfl, by decide, by decide⟩
  exact ⟨SideCrossIterator.mk [1] [1] 0 0, SideCrossIterator.mk [1, 2] [1, 2] 0 0,
    by decide, by decide, by decide, by decide⟩

/-- C19 (amended): equality of cursors does not look at the sequences they
own.  Begin cursors of one strategy taken at the same address compare equal
whatever the container holds at the two moments, so a cursor taken before an
`add` and one taken after it are equal although their sequences differ. -/
theorem cursor_equality_ignores_sequence {T : Type} [LinearOrder T]
    (c c2 : MyContainer T) (v : T) (this : Nat) (hc : c.size < USIZE) (hc2 : c2.size < USIZE) :
    (c.begin_order this).1.operator_eq (c2.begin_order this).1 = true ∧
    (c.begin_reverse_order this).1.operator_eq (c2.begin_reverse_order this).1 = true ∧
    (c.begin_ascending_order this).1.operator_eq (c2.begin_ascending_order this).1 = true ∧
    (c.begin_descending_order this).1.operator_eq (c2.begin_descending_order this).1 = true ∧
    (∃ it it2 : SideCrossIterator T,
      (c.begin_side_cross_order this).1 = some it ∧ (c2.begin_side_cross_order this).1 = some it2 ∧
      it.operator_eq it2 = true) ∧
    (∃ it it2 : MiddleOutIterator T,
      (c.begin_middle_out_order this).1 = some it ∧ (c2.begin_middle_out_order this).1 = some it2 ∧
      it.operator_eq it2 = true) ∧
    (c.begin_order this).1._elements ≠ ((c.add v).begin_order this).1._elements := by
  refine ⟨?_, ?_, ?_, ?_, ?_, ?_, ?_⟩
  · simp [OrderIterator.operator_eq, MyContainer.begin_order, OrderIterator.init]
  · simp [ReverseOrderIterator.operator_eq, MyContainer.begin_reverse_order,
      ReverseOrderIterator.init]
  · simp [AscendingIterator.operator_eq, MyContainer.begin_ascending_order,
      AscendingIterator.init]
  · simp [DescendingOrder.operator_eq, MyContainer.begin_descending_order,
      DescendingOrder.init]
  · refine ⟨_, _, congrArg Prod.fst (show c.begin_side_cross_order this = (_, c) from
      congrArg (fun x => (x, c)) (side_cross_init c.elements 0 this hc)),
      congrArg Prod.fst (show c2.begin_side_cross_order this = (_, c2) from
      congrArg (fun x => (x, c2)) (side_cross_init c2.elements 0 this hc2)), ?_⟩
    simp [SideCrossIterator.operator_eq]
  · refine ⟨_, _, congrArg Prod.fst (show c.begin_middle_out_order this = (_, c) from
      congrArg (fun x => (x, c)) (middle_out_init c.elements 0 this hc)),
      congrArg Prod.fst (show c2.begin_middle_out_order this = (_, c2) from
      congrArg (fun x => (x, c2)) (middle_out_init c2.elements 0 this hc2)), ?_⟩
    simp [MiddleOutIterator.operator_eq]
  · intro he
    have hl := congrArg List.length he
    simp [MyContainer.begin_order, OrderIterator.init, MyContainer.add, push_back] at hl

/-- Witness for C19 (amended): the container at address `0` before and after
`add(2)`. -/
theorem cursor_equality_ignores_sequence_witness :
    ((MyContainer.mk [(1 : Int)]).begin_order 0).1.operator_eq
      (((MyContainer.mk [(1 : Int)]).add 2).begin_order 0).1 = true ∧
    ((MyContainer.mk [(1 : Int)]).begin_order 0).1._elements ≠
      (((MyContainer.mk [(1 : Int)]).add 2).begin_order 0).1._elements :=
  have h := cursor_equality_ignores_sequence (MyContainer.mk [(1 : Int)])
    ((MyContainer.mk [(1 : Int)]).add 2) 2 0 (by decide) (by decide)
  ⟨h.1, h.2.2.2.2.2.2⟩

/-- Counterexample to C20 as stated: the end cursor of `[1, 2, 3]` advanced once
has index `4` over a sequence of length `3`, and the begin cursor of the empty
container advanced once has index `1` over a sequence of length `0`. -/
theorem cursor_index_exceeds_length_counterexample :
    ((MyContainer.mk [1, 2, (3 : Int)]).end_order 0).1.operator_pre_increment.2.current_index = 4 ∧
    ((MyContainer.mk [1, 2, (3 : Int)]).end_order 0).1.operator_pre_increment.2._elements.length
      = 3 ∧
    ¬ (((MyContainer.empty : MyContainer Int).begin_order 0).1.operator_pre_increment.2.current_index
      ≤ ((MyContainer.empty : MyContainer Int).begin_order
          0).1.operator_pre_increment.2._elements.length) := by
  refine ⟨by decide, by decide, by decide⟩

/-- C20 (amended): the index of a cursor stays within the length of its
sequence as long as the cursor is advanced only from positions before the
terminal one.  For each strategy the begin cursor has index `0`, the end cursor
has the length of its sequence as index, a begin cursor advanced `k ≤ size()`
times has an index within the length, and advancing any cursor whose index is
below the length leaves the index within the length (pre- and post-increment
leave the same cursor behind). -/
theorem cursor_index_bounded_before_end {T : Type} [LinearOrder T] (c : MyContainer T)
    (this k : Nat) (h : c.size < USIZE) (hk : k ≤ c.size) :
    ((c.begin_order this).1.current_index = 0 ∧
      (c.end_order this).1.current_index = (c.end_order this).1._elements.length ∧
      (Nat.iterate (fun x : OrderIterator T => x.operator_pre_increment.2) k (c.begin_order this).1).current_index ≤
        (Nat.iterate (fun x : OrderIterator T => x.operator_pre_increment.2) k (c.begin_order this).1)._elements.length) ∧
    ((c.begin_reverse_order this).1.current_index = 0 ∧
      (c.end_reverse_order this).1.current_index = (c.end_reverse_order this).1.reverse_elements.length ∧
      (Nat.iterate (fun x : ReverseOrderIterator T => x.operator_pre_increment.2) k (c.begin_reverse_order this).1).current_index ≤
        (Nat.iterate (fun x : ReverseOrderIterator T => x.operator_pre_increment.2) k (c.begin_reverse_order this).1).reverse_elements.length) ∧
    ((c.begin_ascending_order this).1.current_index = 0 ∧
      (c.end_ascending_order this).1.current_index = (c.end_ascending_order this).1.sorted_elements.length ∧
      (Nat.iterate (fun x : AscendingIterator T => x.operator_pre_increment.2) k (c.begin_ascending_order this).1).current_index ≤
        (Nat.iterate (fun x : AscendingIterator T => x.operator_pre_increment.2) k (c.begin_ascending_order this).1).sorted_elements.length) ∧
    ((c.begin_descending_order this).1.current_index = 0 ∧
      (c.end_descending_order this).1.current_index = (c.end_descending_order this).1.reverse_sorted_elements.length ∧
      (Nat.iterate (fun x : DescendingOrder T => x.operator_pre_increment.2) k (c.begin_descending_order this).1).current_index ≤
        (Nat.iterate (fun x : DescendingOrder T => x.operator_pre_increment.2) k (c.begin_descending_order this).1).reverse_sorted_elements.length) ∧
    (∃ first last : SideCrossIterator T,
      (c.begin_side_cross_order this).1 = some first ∧ (c.end_side_cross_order this).1 = some last ∧
      first.current_index = 0 ∧ last.current_index = last.side_cross_order.length ∧
      (Nat.iterate (fun x : SideCrossIterator T => x.operator_pre_increment.2) k first).current_index ≤
        (Nat.iterate (fun x : SideCrossIterator T => x.operator_pre_increment.2) k first).side_cross_order.length) ∧
    (∃ first last : MiddleOutIterator T,
      (c.begin_middle_out_order this).1 = some first ∧ (c.end_middle_out_order this).1 = some last ∧
      first.current_index = 0 ∧ last.current_index = last.middle_out_order.length ∧
      (Nat.iterate (fun x : MiddleOutIterator T => x.operator_pre_increment.2) k first).current_index ≤
        (Nat.iterate (fun x : MiddleOutIterator T => x.operator_pre_increment.2) k first).middle_out_order.length) ∧
    (∀ it : OrderIterator T, it.current_index < it._elements.length →
      it.operator_pre_increment.2.current_index ≤ it.operator_pre_increment.2._elements.length ∧
      it.operator_post_increment.2 = it.operator_pre_increment.2) ∧
    (∀ it : ReverseOrderIterator T, it.current_index < it.reverse_elements.length →
      it.operator_pre_increment.2.current_index ≤ it.operator_pre_increment.2.reverse_elements.length ∧
      it.operator_post_increment.2 = it.operator_pre_increment.2) ∧
    (∀ it : AscendingIterator T, it.current_index < it.sorted_elements.length →
      it.operator_pre_increment.2.current_index ≤ it.operator_pre_increment.2.sorted_elements.length ∧
      it.operator_post_increment.2 = it.operator_pre_increment.2) ∧
    (∀ it : DescendingOrder T, it.current_index < it.reverse_sorted_elements.length →
      it.operator_pre_increment.2.current_index ≤ it.operator_pre_increment.2.reverse_sorted_elements.length ∧
      it.operator_post_increment.2 = it.operator_pre_increment.2) ∧
    (∀ it : SideCrossIterator T, it.current_index < it.side_cross_order.length →
      it.operator_pre_increment.2.current_index ≤ it.operator_pre_increment.2.side_cross_order.length ∧
      it.operator_post_increment.2 = it.operator_pre_increment.2) ∧
    (∀ it : MiddleOutIterator T, it.current_index < it.middle_out_order.length →
      it.operator_pre_increment.2.current_index ≤ it.operator_pre_increment.2.middle_out_order.length ∧
      it.operator_post_increment.2 = it.operator_pre_increment.2) := by
  refine ⟨?_, ?_, ?_, ?_, ?_, ?_, ?_, ?_, ?_, ?_, ?_, ?_⟩
  · have ha := order_advance_index_le (c.begin_order this).1 k
    refine ⟨rfl, ?_, ?_⟩
    · simp [MyContainer.end_order, OrderIterator.init]
    · rw [ha.2]
      have hl : (c.begin_order this).1._elements.length = c.size := by
        simp [MyContainer.begin_order, OrderIterator.init, MyContainer.size]
      have h0 : (c.begin_order this).1.current_index = 0 := rfl
      rw [hl]
      rw [h0] at ha
      omega
  · have ha := reverse_advance_index_le (c.begin_reverse_order this).1 k
    refine ⟨rfl, ?_, ?_⟩
    · simp [MyContainer.end_reverse_order, ReverseOrderIterator.init, std_reverse]
    · rw [ha.2]
      have hl : (c.begin_reverse_order this).1.reverse_elements.length = c.size := by
        simp [MyContainer.begin_reverse_order, ReverseOrderIterator.init, MyContainer.size, std_reverse]
      have h0 : (c.begin_reverse_order this).1.current_index = 0 := rfl
      rw [hl]
      rw [h0] at ha
      omega
  · have ha := ascending_advance_index_le (c.begin_ascending_order this).1 k
    refine ⟨rfl, ?_, ?_⟩
    · simp [MyContainer.end_ascending_order, AscendingIterator.init, length_std_sort]
    · rw [ha.2]
      have hl : (c.begin_ascending_order this).1.sorted_elements.length = c.size := by
        simp [MyContainer.begin_ascending_order, AscendingIterator.init, MyContainer.size, length_std_sort]
      have h0 : (c.begin_ascending_order this).1.current_index = 0 := rfl
      rw [hl]
      rw [h0] at ha
      omega
  · have ha := descending_advance_index_le (c.begin_descending_order this).1 k
    refine ⟨rfl, ?_, ?_⟩
    · simp [MyContainer.end_descending_order, DescendingOrder.init, length_std_sort]
    · rw [ha.2]
      have hl : (c.begin_descending_order this).1.reverse_sorted_elements.length = c.size := by
        simp [MyContainer.begin_descending_order, DescendingOrder.init, MyContainer.size, length_std_sort]
      have h0 : (c.begin_descending_order this).1.current_index = 0 := rfl
      rw [hl]
      rw [h0] at ha
      omega
  · have hl : (alternate_ends (std_sort (fun a b : T => a < b) c.elements)).length = c.size := by
      rw [length_alternate_ends, length_std_sort]; rfl
    refine ⟨_, _, congrArg Prod.fst (show c.begin_side_cross_order this = (_, c) from
      congrArg (fun x => (x, c)) (side_cross_init c.elements 0 this h)),
      congrArg Prod.fst (show c.end_side_cross_order this = (_, c) from
      congrArg (fun x => (x, c)) (side_cross_init c.elements c.elements.length this h)),
      rfl, hl.symm, ?_⟩
    have ha := side_cross_advance_index_le (SideCrossIterator.mk
      (std_sort (fun a b : T => a < b) c.elements)
      (alternate_ends (std_sort (fun a b : T => a < b) c.elements)) 0 this) k
    rw [ha.2]
    simp only [hl]
    have := ha.1
    simp only [Nat.zero_add] at this
    omega
  · have hl : (middle_out_ref c.elements).length = c.size := length_middle_out_ref _
    refine ⟨_, _, congrArg Prod.fst (show c.begin_middle_out_order this = (_, c) from
      congrArg (fun x => (x, c)) (middle_out_init c.elements 0 this h)),
      congrArg Prod.fst (show c.end_middle_out_order this = (_, c) from
      congrArg (fun x => (x, c)) (middle_out_init c.elements c.elements.length this h)),
      rfl, hl.symm, ?_⟩
    have ha := middle_out_advance_index_le (MiddleOutIterator.mk
      (middle_out_ref c.elements) 0 this) k
    rw [ha.2]
    simp only [hl]
    have := ha.1
    simp only [Nat.zero_add] at this
    omega
  · intro it hit
    refine ⟨?_, rfl⟩
    have h1 := usize_inc_le it.current_index
    show usize_inc it.current_index ≤ it._elements.length
    omega
  · intro it hit
    refine ⟨?_, rfl⟩
    have h1 := usize_inc_le it.current_index
    show usize_inc it.current_index ≤ it.reverse_elements.length
    omega
  · intro it hit
    refine ⟨?_, rfl⟩
    have h1 := usize_inc_le it.current_index
    show usize_inc it.current_index ≤ it.sorted_elements.length
    omega
  · intro it hit
    refine ⟨?_, rfl⟩
    have h1 := usize_inc_le it.current_index
    show usize_inc it.current_index ≤ it.reverse_sorted_elements.length
    omega
  · intro it hit
    refine ⟨?_, rfl⟩
    have h1 := usize_inc_le it.current_index
    show usize_inc it.current_index ≤ it.side_cross_order.length
    omega
  · intro it hit
    refine ⟨?_, rfl⟩
    have h1 := usize_inc_le it.current_index
    show usize_inc it.current_index ≤ it.middle_out_order.length
    omega

/-- Witness for C20 (amended): the begin cursor of `[1, 2, 3]` advanced three
times has index `3`, the length of its sequence. -/
theorem cursor_index_bounded_before_end_witness :
    (Nat.iterate (fun x : OrderIterator Int => x.operator_pre_increment.2) 3
        ((MyContainer.mk [1, 2, (3 : Int)]).begin_order 0).1).current_index = 3 ∧
    (Nat.iterate (fun x : OrderIterator Int => x.operator_pre_increment.2) 3
        ((MyContainer.mk [1, 2, (3 : Int)]).begin_order 0).1).current_index ≤
      (Nat.iterate (fun x : OrderIterator Int => x.operator_pre_increment.2) 3
        ((MyContainer.mk [1, 2, (3 : Int)]).begin_order 0).1)._elements.length :=
  ⟨by decide, (cursor_index_bounded_before_end (MyContainer.mk [1, 2, (3 : Int)]) 0 3
    (by decide) (by decide)).1.2.2⟩

/-- C21: for a container of size `n` and each of the six strategies, the loop
that starts at `begin_<strategy>()` and dereferences and advances while the
cursor differs from `end_<strategy>()` ends, given more than `n` tests of its
condition, without a throw, and has collected the `n` elements of the view in
order; for `n = 0` the begin cursor equals the end cursor. -/
theorem scan_collects_the_view {T : Type} [LinearOrder T] (c : MyContainer T)
    (this fuel : Nat) (h : c.size < USIZE) (hf : c.size < fuel) :
    (c.scan_order this fuel = some (Except.ok (c.begin_order this).1._elements) ∧
      (c.begin_order this).1._elements.length = c.size ∧
      (c.size = 0 → (c.begin_order this).1.operator_eq (c.end_order this).1 = true)) ∧
    (c.scan_reverse_order this fuel = some (Except.ok (c.begin_reverse_order this).1.reverse_elements) ∧
      (c.begin_reverse_order this).1.reverse_elements.length = c.size ∧
      (c.size = 0 → (c.begin_reverse_order this).1.operator_eq (c.end_reverse_order this).1 = true)) ∧
    (c.scan_ascending_order this fuel = some (Except.ok (c.begin_ascending_order this).1.sorted_elements) ∧
      (c.begin_ascending_order this).1.sorted_elements.length = c.size ∧
      (c.size = 0 → (c.begin_ascending_order this).1.operator_eq (c.end_ascending_order this).1 = true)) ∧
    (c.scan_descending_order this fuel = some (Except.ok (c.begin_descending_order this).1.reverse_sorted_elements) ∧
      (c.begin_descending_order this).1.reverse_sorted_elements.length = c.size ∧
      (c.size = 0 → (c.begin_descending_order this).1.operator_eq (c.end_descending_order this).1 = true)) ∧
    (∃ first last : SideCrossIterator T,
      (c.begin_side_cross_order this).1 = some first ∧ (c.end_side_cross_order this).1 = some last ∧
      c.scan_side_cross_order this fuel = some (Except.ok first.side_cross_order) ∧
      first.side_cross_order.length = c.size ∧
      (c.size = 0 → first.operator_eq last = true)) ∧
    (∃ first last : MiddleOutIterator T,
      (c.begin_middle_out_order this).1 = some first ∧ (c.end_middle_out_order this).1 = some last ∧
      c.scan_middle_out_order this fuel = some (Except.ok first.middle_out_order) ∧
      first.middle_out_order.length = c.size ∧
      (c.size = 0 → first.operator_eq last = true)) := by
  have hz : ∀ n : Nat, c.size = 0 → c.elements.length = 0 := fun _ h0 => h0
  refine ⟨⟨scan_order_spec c this fuel h hf, rfl, ?_⟩,
    ⟨scan_reverse_order_spec c this fuel h hf, ?_, ?_⟩,
    ⟨scan_ascending_order_spec c this fuel h hf, length_std_sort _ _, ?_⟩,
    ⟨scan_descending_order_spec c this fuel h hf, length_std_sort _ _, ?_⟩, ?_, ?_⟩
  · intro h0
    simp [OrderIterator.operator_eq, MyContainer.begin_order, MyContainer.end_order,
      OrderIterator.init, hz 0 h0]
  · simp [MyContainer.begin_reverse_order, ReverseOrderIterator.init, std_reverse,
      MyContainer.size]
  · intro h0
    simp [ReverseOrderIterator.operator_eq, MyContainer.begin_reverse_order,
      MyContainer.end_reverse_order, ReverseOrderIterator.init, hz 0 h0]
  · intro h0
    simp [AscendingIterator.operator_eq, MyContainer.begin_ascending_order,
      MyContainer.end_ascending_order, AscendingIterator.init, hz 0 h0]
  · intro h0
    simp [DescendingOrder.operator_eq, MyContainer.begin_descending_order,
      MyContainer.end_descending_order, DescendingOrder.init, hz 0 h0]
  · obtain ⟨hb, he, _⟩ := begin_side_cross_order_eq c this 0 h
    refine ⟨_, _, congrArg Prod.fst hb, congrArg Prod.fst he,
      scan_side_cross_order_spec c this fuel h hf, ?_, ?_⟩
    · rw [length_alternate_ends, length_std_sort]; rfl
    · intro h0
      simp [SideCrossIterator.operator_eq, hz 0 h0]
  · obtain ⟨hb, he, _⟩ := begin_middle_out_order_eq c this 0 h
    refine ⟨_, _, congrArg Prod.fst hb, congrArg Prod.fst he,
      scan_middle_out_order_spec c this fuel h hf, length_middle_out_ref _, ?_⟩
    intro h0
    simp [MiddleOutIterator.operator_eq, hz 0 h0]

/-- Witness for C21: the scans of `[7, 15, 6, 1, 2]` in reverse and in
side-cross order, and the scan of the empty container. -/
theorem scan_collects_the_view_witness :
    (MyContainer.mk [7, 15, 6, 1, (2 : Int)]).scan_reverse_order 0 6
      = some (Except.ok [2, 1, 6, 15, 7]) ∧
    (MyContainer.mk [7, 15, 6, 1, (2 : Int)]).scan_side_cross_order 0 6
      = some (Except.ok [1, 15, 2, 7, 6]) ∧
    (MyContainer.empty : MyContainer Int).scan_order 0 1 = some (Except.ok []) := by
  have h5 := scan_collects_the_view (MyContainer.mk [7, 15, 6, 1, (2 : Int)]) 0 6
    (by decide) (by decide)
  have h0 := scan_collects_the_view (MyContainer.empty : MyContainer Int) 0 1
    (by decide) (by decide)
  exact ⟨h5.2.1.1.trans (by rfl), by rfl, h0.1.1.trans (by rfl)⟩

/-- C22: a view already materialized is not affected by later mutation.  The
container lives at the address `this` and a cursor at another address `it`.
After any sequence of calls on the container the object at `it` is what it
was, and dereferencing it at each index, that is after any number `k` of
`++it`, gives what it gives without the calls: the same element or the same
exception.  For a cursor of any strategy taken by any of the twelve accessors:
the accessor returns and leaves the container as it is, the cursor still holds
after the calls the view the accessor computed from the container as it was,
and the container itself has changed as the calls say. -/
theorem held_cursor_ignores_later_calls {T : Type} [LinearOrder T] (m : Memory T)
    (this it : Nat) (hne : it ≠ this) (calls : List (Call T)) (k : Nat) :
    (mem_run m this calls) it = m it ∧
    mem_operator_star (mem_advance (mem_run m this calls) it k) it =
      mem_operator_star (mem_advance m it k) it ∧
    (∀ (c : MyContainer T) (a : Call T), c.size < USIZE → m this = some (Obj.container c) →
      a.is_remove = false → (∀ v, a ≠ Call.add v) →
      ∃ (m1 : Memory T) (o : Obj T),
        mem_declare m this it a = some m1 ∧ returned this c a = some o ∧
        m1 it = some o ∧ m1 this = some (Obj.container c) ∧
        (mem_run m1 this calls) it = some o ∧
        (mem_run m1 this calls) this = some (Obj.container (run this c calls)) ∧
        mem_operator_star (mem_advance (mem_run m1 this calls) it k) it =
          mem_operator_star (mem_advance m1 it k) it) := by
  have hstar : ∀ m : Memory T,
      mem_operator_star (mem_advance (mem_run m this calls) it k) it =
        mem_operator_star (mem_advance m it k) it := fun m =>
    mem_operator_star_congr _ _ it
      (mem_advance_congr it k _ _ (mem_run_other this it hne calls m))
  refine ⟨mem_run_other this it hne calls m, hstar m, ?_⟩
  intro c a hc hm hr ha
  obtain ⟨o, ho⟩ := returned_accessor this c hc a hr ha
  have hne2 : this ≠ it := fun e => hne e.symm
  have hsame : exec this c a = c := exec_view this c a hr ha
  have h1 : (Function.update (mem_call m this a) it (some o)) it = some o := by
    simp [Function.update]
  have h2 : (Function.update (mem_call m this a) it (some o)) this
      = some (Obj.container c) := by
    simp only [Function.update, hne2, dif_neg, not_false_eq_true]
    rw [mem_call_same m this c hm a, hsame]
  refine ⟨Function.update (mem_call m this a) it (some o), o, ?_, ho, h1, h2, ?_, ?_, hstar _⟩
  · simp [mem_declare, hm, ho]
  · rw [mem_run_other this it hne calls, h1]
  · exact mem_run_same this calls _ c h2

/-- Witness for C22: the container `[1, 2, 3]` lives at address 0 and a cursor
taken by `begin_order()` at address 1.  After `remove(2)` and `add(9)` the
container is `[1, 3, 9]`; the cursor advanced once still reads `2`, where a
cursor taken after the calls reads `3`.  A cursor taken by
`begin_side_cross_order()` into address 2 is after the same calls still the
one the accessor returned for `[1, 2, 3]`. -/
theorem held_cursor_ignores_later_calls_witness :
    (mem_run (fun a => if a = 0 then some (Obj.container (MyContainer.mk [1, 2, (3 : Int)]))
        else if a = 1 then some (Obj.order ((MyContainer.mk [1, 2, (3 : Int)]).begin_order 0).1)
        else none) 0 [Call.remove 2, Call.add 9]) 0
      = some (Obj.container (MyContainer.mk [1, 3, 9])) ∧
    mem_operator_star (mem_advance (mem_run
      (fun a => if a = 0 then some (Obj.container (MyContainer.mk [1, 2, (3 : Int)]))
        else if a = 1 then some (Obj.order ((MyContainer.mk [1, 2, (3 : Int)]).begin_order 0).1)
        else none) 0 [Call.remove 2, Call.add 9]) 1 1) 1 = some (Except.ok 2) ∧
    ((MyContainer.mk [1, 3, (9 : Int)]).begin_order 0).1.operator_pre_increment.2.operator_star.1
      = Except.ok 3 ∧
    (∃ m1 : Memory Int,
      mem_declare (fun a => if a = 0 then some (Obj.container (MyContainer.mk [1, 2, (3 : Int)]))
        else none) 0 2 Call.begin_side_cross_order = some m1 ∧
      (mem_run m1 0 [Call.remove 2, Call.add 9]) 2 =
        some (Obj.side_cross (SideCrossIterator.mk [1, 2, 3] [1, 3, 2] 0 0)) ∧
      (mem_run m1 0 [Call.remove 2, Call.add 9]) 0 =
        some (Obj.container (MyContainer.mk [1, 3, 9])) ∧
      mem_operator_star (mem_advance (mem_run m1 0 [Call.remove 2, Call.add 9]) 2 1) 2 =
        some (Except.ok 3)) := by
  have h := held_cursor_ignores_later_calls
    (fun a => if a = 0 then some (Obj.container (MyContainer.mk [1, 2, (3 : Int)]))
        else if a = 1 then some (Obj.order ((MyContainer.mk [1, 2, (3 : Int)]).begin_order 0).1)
        else none) 0 1 (by decide) [Call.remove 2, Call.add 9] 1
  obtain ⟨m1, o, hd, hr, h1, _, h3, h4, h5⟩ :=
    (held_cursor_ignores_later_calls
      (fun a => if a = 0 then some (Obj.container (MyContainer.mk [1, 2, (3 : Int)]))
        else none) 0 2 (by decide) [Call.remove 2, Call.add 9] 1).2.2
      (MyContainer.mk [1, 2, (3 : Int)]) Call.begin_side_cross_order (by decide) rfl rfl
      (fun v => by simp)
  have ho : o = Obj.side_cross (SideCrossIterator.mk [1, 2, 3] [1, 3, 2] 0 0) :=
    Option.some.inj (hr.symm.trans (by decide))
  subst ho
  refine ⟨by decide, h.2.1.trans (by rfl), by rfl, m1, hd, h3, h4.trans (by decide), ?_⟩
  rw [h5]
  exact (mem_operator_star_congr _ _ 2
    (mem_advance_congr 2 1 m1
      (fun a => if a = 2 then some (Obj.side_cross (SideCrossIterator.mk [1, 2, 3] [1, 3, 2] 0 0))
        else none) h1)).trans (by rfl)

/-- C23: copy construction and assignment give the target the element sequence
of the source and leave the source as it was; afterwards any calls made on one
of the two containers leave the other one, its size and its rendering
unchanged, in both directions; assigning a container to itself leaves it
unchanged. -/
theorem copies_are_independent {T : Type} [LinearOrder T] [ToString T] (st : Store T)
    (src dst : Nat) (hne : dst ≠ src) (calls : List (Call T)) (os : String) :
    ((store_copy_construct st dst src) dst).elements = (st src).elements ∧
    (store_copy_construct st dst src) src = st src ∧
    ((store_assign st dst src) dst).elements = (st src).elements ∧
    (store_assign st dst src) src = st src ∧
    ((store_run (store_copy_construct st dst src) dst calls) src = st src ∧
      ((store_run (store_copy_construct st dst src) dst calls) src).size = (st src).size ∧
      ((store_run (store_copy_construct st dst src) dst calls) src).operator_lshift os =
        (st src).operator_lshift os) ∧
    (((store_run (store_copy_construct st dst src) src calls) dst).elements = (st src).elements ∧
      ((store_run (store_copy_construct st dst src) src calls) dst).size = (st src).size ∧
      ((store_run (store_copy_construct st dst src) src calls) dst).operator_lshift os =
        (st src).operator_lshift os) ∧
    ((store_run (store_assign st dst src) dst calls) src = st src ∧
      ((store_run (store_assign st dst src) src calls) dst).elements = (st src).elements) ∧
    ((∀ a : Nat, (store_assign st src src) a = st a) ∧
      (st src).operator_assign src (st src) src = st src) := by
  have hne2 : src ≠ dst := fun e => hne e.symm
  have hc1 : (store_copy_construct st dst src) dst = MyContainer.mk (st src).elements := by
    simp [store_copy_construct, Function.update, MyContainer.copy]
  have hc2 : (store_copy_construct st dst src) src = st src := by
    simp [store_copy_construct, Function.update, hne2]
  have ha1 : (store_assign st dst src) dst = MyContainer.mk (st src).elements := by
    simp [store_assign, Function.update, MyContainer.operator_assign, hne]
  have ha2 : (store_assign st dst src) src = st src := by
    simp [store_assign, Function.update, hne2]
  have hr1 : (store_run (store_copy_construct st dst src) dst calls) src = st src := by
    rw [store_run_other dst src hne2, hc2]
  have hr2 : (store_run (store_copy_construct st dst src) src calls) dst
      = MyContainer.mk (st src).elements := by
    rw [store_run_other src dst hne, hc1]
  refine ⟨by rw [hc1], hc2, by rw [ha1], ha2, ⟨hr1, by rw [hr1], by rw [hr1]⟩,
    ⟨by rw [hr2], by rw [hr2], by rw [hr2]⟩, ⟨?_, ?_⟩, ⟨?_, ?_⟩⟩
  · rw [store_run_other dst src hne2, ha2]
  · rw [store_run_other src dst hne, ha1]
  · intro a
    by_cases h : a = src
    · subst h; simp [store_assign, Function.update, MyContainer.operator_assign]
    · simp [store_assign, Function.update, h]
  · simp [MyContainer.operator_assign]

/-- Witness for C23: the container `[4, 5, 6]` at address 0 is copied to
address 1; `add(7)` on the copy leaves the original `[4, 5, 6]`, and `add(7)`
on the original leaves the copy `[4, 5, 6]`. -/
theorem copies_are_independent_witness :
    (store_run (store_copy_construct (fun _ => MyContainer.mk [4, 5, (6 : Int)]) 1 0) 1
      [Call.add 7]) 1 = MyContainer.mk [4, 5, 6, 7] ∧
    (store_run (store_copy_construct (fun _ => MyContainer.mk [4, 5, (6 : Int)]) 1 0) 1
      [Call.add 7]) 0 = MyContainer.mk [4, 5, 6] ∧
    ((store_run (store_copy_construct (fun _ => MyContainer.mk [4, 5, (6 : Int)]) 1 0) 0
      [Call.add 7]) 1).elements = [4, 5, 6] := by
  have h := copies_are_independent (fun _ => MyContainer.mk [4, 5, (6 : Int)]) 0 1
    (by decide) [Call.add 7] ""
  exact ⟨by decide, h.2.2.2.2.1.1, h.2.2.2.2.2.1.1⟩

/-- C25: for a non-empty container of size `n` the six begin cursors
dereference to the first inserted element (insertion order), the last inserted
element (reverse), a least stored value (ascending and side-cross), a greatest
stored value (descending) and the element stored at index `n / 2`
(middle-out). -/
theorem begin_cursors_read_the_first_elements {T : Type} [LinearOrder T] (c : MyContainer T)
    (this : Nat) (h : c.size < USIZE) (hne : c.elements ≠ []) :
    (∃ x : T, c.elements[0]? = some x ∧
      (c.begin_order this).1.operator_star.1 = Except.ok x) ∧
    (∃ x : T, c.elements.getLast? = some x ∧
      (c.begin_reverse_order this).1.operator_star.1 = Except.ok x) ∧
    (∃ m : T, m ∈ c.elements ∧ (∀ y ∈ c.elements, m ≤ y) ∧
      (c.begin_ascending_order this).1.operator_star.1 = Except.ok m ∧
      ∃ it : SideCrossIterator T, (c.begin_side_cross_order this).1 = some it ∧
        it.operator_star.1 = Except.ok m) ∧
    (∃ m : T, m ∈ c.elements ∧ (∀ y ∈ c.elements, y ≤ m) ∧
      (c.begin_descending_order this).1.operator_star.1 = Except.ok m) ∧
    (∃ (it : MiddleOutIterator T) (x : T), (c.begin_middle_out_order this).1 = some it ∧
      c.elements[c.size / 2]? = some x ∧ it.operator_star.1 = Except.ok x) := by
  have hpos : 0 < c.elements.length := List.length_pos.mpr hne
  refine ⟨?_, ?_, ?_, ?_, ?_⟩
  · exact order_operator_star_of_lt (c.begin_order this).1 hpos
  · obtain ⟨x, hx, hs⟩ := reverse_operator_star_of_lt (c.begin_reverse_order this).1
      (by simpa [MyContainer.begin_reverse_order, ReverseOrderIterator.init, std_reverse]
        using hpos)
    refine ⟨x, ?_, hs⟩
    have hx2 : c.elements.reverse[0]? = some x := hx
    rw [List.getElem?_reverse hpos] at hx2
    rw [List.getLast?_eq_getElem?]
    exact hx2
  · have hl : (std_sort (fun a b : T => a < b) c.elements).length = c.elements.length :=
      length_std_sort _ _
    obtain ⟨m, hm, hs⟩ := ascending_operator_star_of_lt (c.begin_ascending_order this).1
      (by
        show 0 < (std_sort (fun a b : T => a < b) c.elements).length
        rw [hl]; exact hpos)
    have hm2 : (std_sort (fun a b : T => a < b) c.elements)[0]? = some m := hm
    obtain ⟨hmem, hleast⟩ := sorted_head_is_least _ (sorted_std_sort_lt c.elements) m hm2
    have hperm := perm_std_sort (fun a b : T => a < b) c.elements
    refine ⟨m, hperm.mem_iff.mp hmem, fun y hy => hleast y (hperm.mem_iff.mpr hy), hs, ?_⟩
    obtain ⟨hb, _, _⟩ := begin_side_cross_order_eq c this 0 h
    refine ⟨_, congrArg Prod.fst hb, ?_⟩
    obtain ⟨z, hz, hzs⟩ := side_cross_operator_star_of_lt
      (SideCrossIterator.mk (std_sort (fun a b : T => a < b) c.elements)
        (alternate_ends (std_sort (fun a b : T => a < b) c.elements)) 0 this)
      (by
        show 0 < (alternate_ends (std_sort (fun a b : T => a < b) c.elements)).length
        rw [length_alternate_ends, hl]; exact hpos)
    have hz2 : (alternate_ends (std_sort (fun a b : T => a < b) c.elements))[2 * 0]? = some z :=
      hz
    rw [alternate_ends_even _ 0 (by rw [hl]; omega), hm2] at hz2
    rw [hzs, ← Option.some.inj hz2]
  · have hl : (std_sort (fun a b : T => a > b) c.elements).length = c.elements.length :=
      length_std_sort _ _
    obtain ⟨m, hm, hs⟩ := descending_operator_star_of_lt (c.begin_descending_order this).1
      (by
        show 0 < (std_sort (fun a b : T => a > b) c.elements).length
        rw [hl]; exact hpos)
    have hm2 : (std_sort (fun a b : T => a > b) c.elements)[0]? = some m := hm
    obtain ⟨hmem, hgreatest⟩ :=
      sorted_ge_head_is_greatest _ (sorted_std_sort_gt c.elements) m hm2
    have hperm := perm_std_sort (fun a b : T => a > b) c.elements
    exact ⟨m, hperm.mem_iff.mp hmem, fun y hy => hgreatest y (hperm.mem_iff.mpr hy), hs⟩
  · obtain ⟨hb, _, _⟩ := begin_middle_out_order_eq c this 0 h
    have hmid : c.elements.length / 2 < c.elements.length := by omega
    obtain ⟨z, hz, hzs⟩ := middle_out_operator_star_of_lt
      (MiddleOutIterator.mk (middle_out_ref c.elements) 0 this)
      (by
        show 0 < (middle_out_ref c.elements).length
        rw [length_middle_out_ref]; exact hpos)
    refine ⟨_, z, congrArg Prod.fst hb, ?_, hzs⟩
    have hz2 : (middle_out_ref c.elements)[0]? = some z := hz
    rw [middle_out_ref_eq_alternate, List.getElem?_eq_getElem hmid] at hz2
    simp only [Option.toList, List.singleton_append, List.getElem?_cons_zero] at hz2
    simp only [MyContainer.size, List.getElem?_eq_getElem hmid]
    exact hz2

/-- Witness for C25: for `[3, 1, 4, 1, 5]` the begin cursors read `3`, `5`,
`1`, `1`, `5` and `4`. -/
theorem begin_cursors_read_the_first_elements_witness :
    ((MyContainer.mk [3, 1, 4, 1, (5 : Int)]).begin_order 0).1.operator_star.1 = Except.ok 3 ∧
    ((MyContainer.mk [3, 1, 4, 1, (5 : Int)]).begin_reverse_order 0).1.operator_star.1
      = Except.ok 5 ∧
    ((MyContainer.mk [3, 1, 4, 1, (5 : Int)]).begin_ascending_order 0).1.operator_star.1
      = Except.ok 1 ∧
    ((MyContainer.mk [3, 1, 4, 1, (5 : Int)]).begin_side_cross_order 0).1.map
      (fun it => it.operator_star.1) = some (Except.ok 1) ∧
    ((MyContainer.mk [3, 1, 4, 1, (5 : Int)]).begin_descending_order 0).1.operator_star.1
      = Except.ok 5 ∧
    ((MyContainer.mk [3, 1, 4, 1, (5 : Int)]).begin_middle_out_order 0).1.map
      (fun it => it.operator_star.1) = some (Except.ok 4) ∧
    (∃ x : Int, [3, 1, 4, 1, (5 : Int)][0]? = some x ∧
      ((MyContainer.mk [3, 1, 4, 1, (5 : Int)]).begin_order 0).1.operator_star.1 = Except.ok x) :=
  ⟨by rfl, by rfl, by rfl, by rfl, by rfl, by rfl,
    (begin_cursors_read_the_first_elements (MyContainer.mk [3, 1, 4, 1, (5 : Int)]) 0
      (by decide) (by decide)).1⟩


/-- C26: for a container that holds at most one element each of the six views
is the stored sequence: all six are empty for the empty container, whose begin
cursors equal its end cursors, and all six are `[x]` for a container that
holds only `x`. -/
theorem small_container_views {T : Type} [LinearOrder T] (c : MyContainer T) (this : Nat)
    (h1 : c.size ≤ 1) :
    (c.begin_order this).1._elements = c.elements ∧
    (c.begin_reverse_order this).1.reverse_elements = c.elements ∧
    (c.begin_ascending_order this).1.sorted_elements = c.elements ∧
    (c.begin_descending_order this).1.reverse_sorted_elements = c.elements ∧
    (∃ it : SideCrossIterator T,
      (c.begin_side_cross_order this).1 = some it ∧ it.side_cross_order = c.elements) ∧
    (∃ it : MiddleOutIterator T,
      (c.begin_middle_out_order this).1 = some it ∧ it.middle_out_order = c.elements) ∧
    (c.size = 0 →
      (c.begin_order this).1.operator_eq (c.end_order this).1 = true ∧
      (c.begin_reverse_order this).1.operator_eq (c.end_reverse_order this).1 = true ∧
      (c.begin_ascending_order this).1.operator_eq (c.end_ascending_order this).1 = true ∧
      (c.begin_descending_order this).1.operator_eq (c.end_descending_order this).1 = true ∧
      (c.begin_side_cross_order this).1 = (c.end_side_cross_order this).1 ∧
      (c.begin_middle_out_order this).1 = (c.end_middle_out_order this).1 ∧
      (∃ first last : SideCrossIterator T,
        (c.begin_side_cross_order this).1 = some first ∧
        (c.end_side_cross_order this).1 = some last ∧ first.operator_eq last = true) ∧
      (∃ first last : MiddleOutIterator T,
        (c.begin_middle_out_order this).1 = some first ∧
        (c.end_middle_out_order this).1 = some last ∧ first.operator_eq last = true)) := by
  have hU : c.size < USIZE := Nat.lt_of_le_of_lt h1 (by decide)
  obtain ⟨hsb, hse, _⟩ := begin_side_cross_order_eq c this 0 hU
  obtain ⟨hmb, hme, _⟩ := begin_middle_out_order_eq c this 0 hU
  obtain ⟨elements⟩ := c
  simp only [MyContainer.size] at h1
  have hviews : std_reverse elements = elements ∧
      std_sort (fun a b : T => a < b) elements = elements ∧
      std_sort (fun a b : T => a > b) elements = elements ∧
      alternate_ends (std_sort (fun a b : T => a < b) elements) = elements ∧
      middle_out_ref elements = elements := by
    match elements, h1 with
    | [], _ =>
      exact ⟨rfl, rfl, rfl, by simp [std_sort, alternate_ends, alternate],
        by simp [middle_out_ref]⟩
    | [x], _ =>
      exact ⟨rfl, rfl, rfl, by simp [std_sort, alternate_ends, alternate],
        by simp [middle_out_ref]⟩
    | _ :: _ :: _, h => simp at h
  refine ⟨rfl, hviews.1, hviews.2.1, hviews.2.2.1, ⟨_, congrArg Prod.fst hsb, hviews.2.2.2.1⟩,
    ⟨_, congrArg Prod.fst hmb, hviews.2.2.2.2⟩, ?_⟩
  intro h0
  have hlen : elements.length = 0 := h0
  have he : elements = [] := List.length_eq_zero.mp hlen
  subst he
  refine ⟨?_, ?_, ?_, ?_, rfl, rfl, ⟨_, _, rfl, rfl, ?_⟩, ⟨_, _, rfl, rfl, ?_⟩⟩
  · simp [OrderIterator.operator_eq, MyContainer.begin_order, MyContainer.end_order,
      OrderIterator.init]
  · simp [ReverseOrderIterator.operator_eq, MyContainer.begin_reverse_order,
      MyContainer.end_reverse_order, ReverseOrderIterator.init]
  · simp [AscendingIterator.operator_eq, MyContainer.begin_ascending_order,
      MyContainer.end_ascending_order, AscendingIterator.init]
  · simp [DescendingOrder.operator_eq, MyContainer.begin_descending_order,
      MyContainer.end_descending_order, DescendingOrder.init]
  · simp [SideCrossIterator.operator_eq]
  · simp [MiddleOutIterator.operator_eq]

/-- Witness for C26: the six views of the container that holds only `100`. -/
theorem small_container_views_witness :
    ((MyContainer.mk [(100 : Int)]).begin_reverse_order 0).1.reverse_elements = [100] ∧
    ((MyContainer.mk [(100 : Int)]).begin_ascending_order 0).1.sorted_elements = [100] ∧
    (∃ it : SideCrossIterator Int,
      ((MyContainer.mk [(100 : Int)]).begin_side_cross_order 0).1 = some it ∧
      it.side_cross_order = [100]) ∧
    (∃ it : MiddleOutIterator Int,
      ((MyContainer.mk [(100 : Int)]).begin_middle_out_order 0).1 = some it ∧
      it.middle_out_order = [100]) :=
  have h := small_container_views (MyContainer.mk [(100 : Int)]) 0 (by decide)
  ⟨h.2.1, h.2.2.1, h.2.2.2.2.1, h.2.2.2.2.2.1⟩

/-- Counterexample to C27 as stated: the index of a cursor is a `size_t`; a
cursor built with the largest index `2 ^ 64 - 1` has index `0` after
`operator++`, not one more. -/
theorem increment_wraps_counterexample :
    (OrderIterator.mk [1, 2, (3 : Int)] 18446744073709551615 0).operator_pre_increment.2.current_index
      = 0 ∧
    ¬ ((OrderIterator.mk [1, 2, (3 : Int)]
        18446744073709551615 0).operator_pre_increment.2.current_index
      = 18446744073709551615 + 1) := by
  refine ⟨by decide, by decide⟩

/-- C27 (amended): advancing a cursor changes nothing but the index, which
becomes the index plus one in `size_t` arithmetic, that is one more unless the
index was `2 ^ 64 - 1`.  Pre-increment returns the advanced cursor,
post-increment returns the cursor as it was and leaves the same advanced
cursor behind; the sequence and the owner stay.  A begin accessor leaves the
container as it was, so the scan from a fresh begin cursor gives the same
result again. -/
theorem increment_moves_only_the_index {T : Type} [LinearOrder T] (a : OrderIterator T) (b : ReverseOrderIterator T) (d : AscendingIterator T) (e : DescendingOrder T) (f : SideCrossIterator T) (g : MiddleOutIterator T)
    (c : MyContainer T) (this fuel : Nat) :
    (a.operator_pre_increment.1 = a.operator_pre_increment.2 ∧
      a.operator_post_increment.1 = a ∧
      a.operator_post_increment.2 = a.operator_pre_increment.2 ∧
      a.operator_pre_increment.2._elements = a._elements ∧
      a.operator_pre_increment.2.owner = a.owner ∧
      a.operator_pre_increment.2.current_index = (a.current_index + 1) % USIZE ∧
      (a.current_index + 1 < USIZE →
        a.operator_pre_increment.2.current_index = a.current_index + 1)) ∧
    (b.operator_pre_increment.1 = b.operator_pre_increment.2 ∧
      b.operator_post_increment.1 = b ∧
      b.operator_post_increment.2 = b.operator_pre_increment.2 ∧
      b.operator_pre_increment.2.reverse_elements = b.reverse_elements ∧
      b.operator_pre_increment.2.owner = b.owner ∧
      b.operator_pre_increment.2.current_index = (b.current_index + 1) % USIZE ∧
      (b.current_index + 1 < USIZE →
        b.operator_pre_increment.2.current_index = b.current_index + 1)) ∧
    (d.operator_pre_increment.1 = d.operator_pre_increment.2 ∧
      d.operator_post_increment.1 = d ∧
      d.operator_post_increment.2 = d.operator_pre_increment.2 ∧
      d.operator_pre_increment.2.sorted_elements = d.sorted_elements ∧
      d.operator_pre_increment.2.owner = d.owner ∧
      d.operator_pre_increment.2.current_index = (d.current_index + 1) % USIZE ∧
      (d.current_index + 1 < USIZE →
        d.operator_pre_increment.2.current_index = d.current_index + 1)) ∧
    (e.operator_pre_increment.1 = e.operator_pre_increment.2 ∧
      e.operator_post_increment.1 = e ∧
      e.operator_post_increment.2 = e.operator_pre_increment.2 ∧
      e.operator_pre_increment.2.reverse_sorted_elements = e.reverse_sorted_elements ∧
      e.operator_pre_increment.2.owner = e.owner ∧
      e.operator_pre_increment.2.current_index = (e.current_index + 1) % USIZE ∧
      (e.current_index + 1 < USIZE →
        e.operator_pre_increment.2.current_index = e.current_index + 1)) ∧
    (f.operator_pre_increment.1 = f.operator_pre_increment.2 ∧
      f.operator_post_increment.1 = f ∧
      f.operator_post_increment.2 = f.operator_pre_increment.2 ∧
      f.operator_pre_increment.2.side_cross_order = f.side_cross_order ∧
      f.operator_pre_increment.2.owner = f.owner ∧
      f.operator_pre_increment.2.sorted_elements = f.sorted_elements ∧
      f.operator_pre_increment.2.current_index = (f.current_index + 1) % USIZE ∧
      (f.current_index + 1 < USIZE →
        f.operator_pre_increment.2.current_index = f.current_index + 1)) ∧
    (g.operator_pre_increment.1 = g.operator_pre_increment.2 ∧
      g.operator_post_increment.1 = g ∧
      g.operator_post_increment.2 = g.operator_pre_increment.2 ∧
      g.operator_pre_increment.2.middle_out_order = g.middle_out_order ∧
      g.operator_pre_increment.2.owner = g.owner ∧
      g.operator_pre_increment.2.current_index = (g.current_index + 1) % USIZE ∧
      (g.current_index + 1 < USIZE →
        g.operator_pre_increment.2.current_index = g.current_index + 1)) ∧
    ((c.begin_order this).2.scan_order this fuel = c.scan_order this fuel ∧
      (c.begin_reverse_order this).2.scan_reverse_order this fuel = c.scan_reverse_order this fuel ∧
      (c.begin_ascending_order this).2.scan_ascending_order this fuel = c.scan_ascending_order this fuel ∧
      (c.begin_descending_order this).2.scan_descending_order this fuel = c.scan_descending_order this fuel ∧
      (c.begin_side_cross_order this).2.scan_side_cross_order this fuel = c.scan_side_cross_order this fuel ∧
      (c.begin_middle_out_order this).2.scan_middle_out_order this fuel = c.scan_middle_out_order this fuel) := by
  refine ⟨?_, ?_, ?_, ?_, ?_, ?_, ⟨rfl, rfl, rfl, rfl, rfl, rfl⟩⟩
  · exact ⟨rfl, rfl, rfl, rfl, rfl, rfl, fun h => usize_inc_eq _ h⟩
  · exact ⟨rfl, rfl, rfl, rfl, rfl, rfl, fun h => usize_inc_eq _ h⟩
  · exact ⟨rfl, rfl, rfl, rfl, rfl, rfl, fun h => usize_inc_eq _ h⟩
  · exact ⟨rfl, rfl, rfl, rfl, rfl, rfl, fun h => usize_inc_eq _ h⟩
  · exact ⟨rfl, rfl, rfl, rfl, rfl, rfl, rfl, fun h => usize_inc_eq _ h⟩
  · exact ⟨rfl, rfl, rfl, rfl, rfl, rfl, fun h => usize_inc_eq _ h⟩

/-- Witness for C27 (amended): the cursor at index 1 over `[10, 20, 30]` has
index 2 after either increment, and the post-increment returns the cursor at
index 1. -/
theorem increment_moves_only_the_index_witness :
    (OrderIterator.mk [10, 20, (30 : Int)] 1 0).operator_pre_increment.2.current_index = 1 + 1 ∧
    (OrderIterator.mk [10, 20, (30 : Int)] 1 0).operator_post_increment.1
      = OrderIterator.mk [10, 20, (30 : Int)] 1 0 ∧
    (OrderIterator.mk [10, 20, (30 : Int)] 1 0).operator_post_increment.2
      = (OrderIterator.mk [10, 20, (30 : Int)] 1 0).operator_pre_increment.2 := by
  have h := increment_moves_only_the_index (OrderIterator.mk [10, 20, (30 : Int)] 1 0)
    (ReverseOrderIterator.mk [] 0 0) (AscendingIterator.mk [] 0 0) (DescendingOrder.mk [] 0 0)
    (SideCrossIterator.mk [] [] 0 0) (MiddleOutIterator.mk [] 0 0)
    (MyContainer.empty : MyContainer Int) 0 1
  exact ⟨h.1.2.2.2.2.2.2 (by decide), h.1.2.1, h.1.2.2.1⟩

/-- C28: over a linearly ordered element type the descending view is the
ascending view read backwards. -/
theorem descending_view_is_ascending_reversed {T : Type} [LinearOrder T] (c : MyContainer T)
    (this : Nat) :
    (c.begin_descending_order this).1.reverse_sorted_elements =
      (c.begin_ascending_order this).1.sorted_elements.reverse :=
  std_sort_gt_eq_reverse c.elements

/-- Witness for C28: `[7, 15, 6, 1, 2]` has the descending view
`[15, 7, 6, 2, 1]`, the reverse of `[1, 2, 6, 7, 15]`. -/
theorem descending_view_is_ascending_reversed_witness :
    ((MyContainer.mk [7, 15, 6, 1, (2 : Int)]).begin_descending_order 0).1.reverse_sorted_elements
      = [15, 7, 6, 2, 1] ∧
    ((MyContainer.mk [7, 15, 6, 1, (2 : Int)]).begin_ascending_order 0).1.sorted_elements.reverse
      = [15, 7, 6, 2, 1] :=
  ⟨(descending_view_is_ascending_reversed (MyContainer.mk [7, 15, 6, 1, (2 : Int)]) 0).trans
    (by decide), by decide⟩

/-- C29: the ascending, descending and side-cross views depend only on the
multiset of the stored values: two snapshots that are permutations of each
other have the same three views. -/
theorem sorted_views_depend_on_multiset_only {T : Type} [LinearOrder T]
    (c c2 : MyContainer T) (this other : Nat) (hp : List.Perm c.elements c2.elements)
    (h : c.size < USIZE) :
    (c.begin_ascending_order this).1.sorted_elements =
      (c2.begin_ascending_order other).1.sorted_elements ∧
    (c.begin_descending_order this).1.reverse_sorted_elements =
      (c2.begin_descending_order other).1.reverse_sorted_elements ∧
    (∃ it it2 : SideCrossIterator T,
      (c.begin_side_cross_order this).1 = some it ∧
      (c2.begin_side_cross_order other).1 = some it2 ∧
      it.side_cross_order = it2.side_cross_order) := by
  have h2 : c2.size < USIZE := by
    have := hp.length_eq
    simp only [MyContainer.size] at h ⊢
    omega
  obtain ⟨hb, _, _⟩ := begin_side_cross_order_eq c this 0 h
  obtain ⟨hb2, _, _⟩ := begin_side_cross_order_eq c2 other 0 h2
  refine ⟨std_sort_lt_congr _ _ hp, std_sort_gt_congr _ _ hp,
    _, _, congrArg Prod.fst hb, congrArg Prod.fst hb2, ?_⟩
  show alternate_ends (std_sort (fun a b : T => a < b) c.elements) =
    alternate_ends (std_sort (fun a b : T => a < b) c2.elements)
  rw [std_sort_lt_congr _ _ hp]

/-- Witness for C29: `[7, 15, 6, 1, 2]` and `[1, 2, 6, 7, 15]` both have the
side-cross view `[1, 15, 2, 7, 6]`. -/
theorem sorted_views_depend_on_multiset_only_witness :
    (∃ it it2 : SideCrossIterator Int,
      ((MyContainer.mk [7, 15, 6, 1, 2]).begin_side_cross_order 0).1 = some it ∧
      ((MyContainer.mk [1, 2, 6, 7, 15]).begin_side_cross_order 1).1 = some it2 ∧
      it.side_cross_order = it2.side_cross_order) ∧
    ((MyContainer.mk [7, 15, 6, 1, (2 : Int)]).begin_side_cross_order 0).1.map
      (fun it => it.side_cross_order) = some [1, 15, 2, 7, 6] ∧
    ((MyContainer.mk [1, 2, 6, 7, (15 : Int)]).begin_side_cross_order 1).1.map
      (fun it => it.side_cross_order) = some [1, 15, 2, 7, 6] :=
  ⟨(sorted_views_depend_on_multiset_only (MyContainer.mk [7, 15, 6, 1, (2 : Int)])
    (MyContainer.mk [1, 2, 6, 7, (15 : Int)]) 0 1 (by decide) (by decide)).2.2,
    by decide, by decide⟩

/-- C30: in the side-cross view the elements at the even positions are
non-decreasing, the elements at the odd positions are non-increasing, and every
element at an even position is at most every element at an odd position. -/
theorem side_cross_even_and_odd_positions {T : Type} [LinearOrder T] (c : MyContainer T)
    (this : Nat) (h : c.size < USIZE) :
    ∃ it : SideCrossIterator T,
      (c.begin_side_cross_order this).1 = some it ∧
      (∀ (i j : Nat) (a b : T), i ≤ j →
        it.side_cross_order[2 * i]? = some a → it.side_cross_order[2 * j]? = some b → a ≤ b) ∧
      (∀ (i j : Nat) (a b : T), i ≤ j →
        it.side_cross_order[2 * i + 1]? = some a → it.side_cross_order[2 * j + 1]? = some b →
        b ≤ a) ∧
      (∀ (i j : Nat) (a b : T),
        it.side_cross_order[2 * i]? = some a → it.side_cross_order[2 * j + 1]? = some b →
        a ≤ b) := by
  obtain ⟨hb, _, _⟩ := begin_side_cross_order_eq c this 0 h
  have hs := sorted_std_sort_lt c.elements
  have hl : (alternate_ends (std_sort (fun a b : T => a < b) c.elements)).length
      = (std_sort (fun a b : T => a < b) c.elements).length := length_alternate_ends _
  have heven : ∀ (i : Nat) (a : T),
      (alternate_ends (std_sort (fun a b : T => a < b) c.elements))[2 * i]? = some a →
      2 * i < (std_sort (fun a b : T => a < b) c.elements).length ∧
      (std_sort (fun a b : T => a < b) c.elements)[i]? = some a := by
    intro i a ha
    obtain ⟨hi, _⟩ := List.getElem?_eq_some.mp ha
    rw [hl] at hi
    rw [alternate_ends_even _ i hi] at ha
    exact ⟨hi, ha⟩
  have hodd : ∀ (i : Nat) (a : T),
      (alternate_ends (std_sort (fun a b : T => a < b) c.elements))[2 * i + 1]? = some a →
      2 * i + 1 < (std_sort (fun a b : T => a < b) c.elements).length ∧
      (std_sort (fun a b : T => a < b) c.elements)[
        (std_sort (fun a b : T => a < b) c.elements).length - 1 - i]? = some a := by
    intro i a ha
    obtain ⟨hi, _⟩ := List.getElem?_eq_some.mp ha
    rw [hl] at hi
    rw [alternate_ends_odd _ i hi] at ha
    exact ⟨hi, ha⟩
  refine ⟨_, congrArg Prod.fst hb, ?_, ?_, ?_⟩
  · intro i j a b hij ha hb
    obtain ⟨_, ha2⟩ := heven i a ha
    obtain ⟨_, hb2⟩ := heven j b hb
    exact sorted_getElem_le _ hs i j hij a b ha2 hb2
  · intro i j a b hij ha hb
    obtain ⟨_, ha2⟩ := hodd i a ha
    obtain ⟨_, hb2⟩ := hodd j b hb
    exact sorted_getElem_le _ hs _ _ (by omega) b a hb2 ha2
  · intro i j a b ha hb
    obtain ⟨hi, ha2⟩ := heven i a ha
    obtain ⟨hj, hb2⟩ := hodd j b hb
    exact sorted_getElem_le _ hs _ _ (by omega) a b ha2 hb2

/-- Witness for C30: in the side-cross view `[1, 15, 2, 7, 6]` the even
positions hold `1, 2, 6` and the odd positions hold `15, 7`. -/
theorem side_cross_even_and_odd_positions_witness :
    ∃ it : SideCrossIterator Int,
      ((MyContainer.mk [7, 15, 6, 1, 2]).begin_side_cross_order 0).1 = some it ∧
      it.side_cross_order = [1, 15, 2, 7, 6] ∧
      (∀ (i j : Nat) (a b : Int),
        it.side_cross_order[2 * i]? = some a → it.side_cross_order[2 * j + 1]? = some b →
        a ≤ b) := by
  obtain ⟨it, h1, _, _, h4⟩ :=
    side_cross_even_and_odd_positions (MyContainer.mk [7, 15, 6, 1, (2 : Int)]) 0 (by decide)
  have h0 : ((MyContainer.mk [7, 15, 6, 1, (2 : Int)]).begin_side_cross_order 0).1 =
      some (SideCrossIterator.mk [1, 2, 6, 7, 15] [1, 15, 2, 7, 6] 0 0) := by decide
  have he : it = SideCrossIterator.mk [1, 2, 6, 7, 15] [1, 15, 2, 7, 6] 0 0 :=
    Option.some.inj (h1.symm.trans h0)
  exact ⟨it, h1, by rw [he], h4⟩

/-- C31: `add(v)` followed by `remove(v)` succeeds; it restores the stored
sequence when `v` did not occur in it, and gives what `remove(v)` alone gives
when `v` did occur. -/
theorem add_then_remove {T : Type} [DecidableEq T] (c : MyContainer T) (v : T) :
    ((c.add v).remove v).1 = Except.ok () ∧
    (v ∉ c.elements → ((c.add v).remove v).2 = c) ∧
    (v ∈ c.elements →
      (c.remove v).1 = Except.ok () ∧ ((c.add v).remove v).2 = (c.remove v).2) := by
  have hmem : v ∈ (c.add v).elements := by simp [MyContainer.add, push_back]
  have h := remove_of_mem (c.add v) v hmem
  have hf : (c.add v).elements.filter (fun x => x ≠ v) = c.elements.filter (fun x => x ≠ v) :=
    filter_ne_push_back c.elements v
  rw [hf] at h
  refine ⟨by rw [h], ?_, ?_⟩
  · intro hv
    rw [h]
    have : c.elements.filter (fun x => x ≠ v) = c.elements := by
      rw [List.filter_eq_self]
      intro a ha
      have hne : a ≠ v := fun e => hv (e ▸ ha)
      simpa using hne
    show MyContainer.mk (c.elements.filter (fun x => x ≠ v)) = c
    rw [this]
  · intro hv
    rw [h, remove_of_mem c v hv]
    exact ⟨rfl, rfl⟩

/-- Witness for C31: on `[1, 2, 3]`, `add(4)` then `remove(4)` gives
`[1, 2, 3]` back, and `add(2)` then `remove(2)` gives `[1, 3]` as `remove(2)`
alone does. -/
theorem add_then_remove_witness :
    (((MyContainer.mk [1, 2, (3 : Int)]).add 4).remove 4).2 = MyContainer.mk [1, 2, 3] ∧
    (((MyContainer.mk [1, 2, (3 : Int)]).add 2).remove 2).2 =
      ((MyContainer.mk [1, 2, (3 : Int)]).remove 2).2 ∧
    ((MyContainer.mk [1, 2, (3 : Int)]).remove 2).2 = MyContainer.mk [1, 3] :=
  ⟨(add_then_remove (MyContainer.mk [1, 2, (3 : Int)]) 4).2.1 (by decide),
    ((add_then_remove (MyContainer.mk [1, 2, (3 : Int)]) 2).2.2 (by decide)).2, by decide⟩

/-- C32: in the two-cursor loop over a non-empty vector of length `n`, in every
state in which the loop tests its condition `left ≤ right + 1` holds; when the
loop goes on, the read at `left` is inside the vector and `left++` does not
wrap, `left ≤ right + 1` holds again, and when the second emission is made the
read at `right` is inside the vector, `right` is not `0` so that `right--` does
not wrap, and `left ≤ right + 1` holds after it.  The loop exits within `n + 1`
tests of its condition and has then emitted exactly `n` elements. -/
theorem side_cross_cursors_stay_in_bounds {T : Type} (sorted_elements : List T) (fuel : Nat)
    (st : SideCrossState T) (hne : sorted_elements ≠ [])
    (hn : sorted_elements.length < USIZE)
    (hst : st ∈ side_cross_states sorted_elements fuel
      (SideCrossState.mk 0 (usize_sub sorted_elements.length 1) [])) :
    st.left ≤ st.right + 1 ∧
    (st.left ≤ st.right →
      st.left < sorted_elements.length ∧
      usize_inc st.left = st.left + 1 ∧
      usize_inc st.left ≤ st.right + 1 ∧
      (usize_inc st.left ≤ st.right →
        st.right < sorted_elements.length ∧ 0 < st.right ∧
        usize_dec st.right + 1 = st.right ∧
        usize_inc st.left ≤ usize_dec st.right + 1) ∧
      ∃ next : SideCrossState T, side_cross_body sorted_elements st = some next) ∧
    (∃ fin : SideCrossState T,
      side_cross_loop sorted_elements (sorted_elements.length + 1)
        (SideCrossState.mk 0 (usize_sub sorted_elements.length 1) []) = some fin ∧
      ¬ (fin.left ≤ fin.right) ∧
      fin.side_cross_order.length = sorted_elements.length ∧
      (side_cross_states sorted_elements sorted_elements.length
        (SideCrossState.mk 0 (usize_sub sorted_elements.length 1) [])).getLast? = some fin) := by
  have h1 : 1 ≤ sorted_elements.length := List.length_pos.mpr hne
  have hsub : usize_sub sorted_elements.length 1 = sorted_elements.length - 1 :=
    usize_sub_eq _ 1 h1 hn
  rw [hsub] at hst ⊢
  have hq0 : cross_cursors_ok sorted_elements.length 0 (sorted_elements.length - 1) := by
    left; omega
  have hq := side_cross_states_ok sorted_elements hn fuel
    (SideCrossState.mk 0 (sorted_elements.length - 1) []) hq0 st hst
  refine ⟨?_, ?_, ?_⟩
  · rcases hq with h | h <;> omega
  · intro hc
    obtain ⟨hl, hr, hinc, hdec, next, hb, _⟩ := side_cross_body_step sorted_elements hn st hq hc
    refine ⟨hl, hinc, by rw [hinc]; omega, ?_, next, hb⟩
    intro h2
    rw [hinc] at h2 ⊢
    obtain ⟨hpos, hd⟩ := hdec h2
    rw [hd]
    exact ⟨hr, hpos, by omega, by omega⟩
  · have hloop := side_cross_loop_from sorted_elements hn h1 (sorted_elements.length + 1) 0
      (by omega) (by omega)
    have e : cross_emitted sorted_elements 0 = [] := by simp [cross_emitted, alternate]
    rw [e] at hloop
    simp only [Nat.sub_zero] at hloop
    obtain ⟨hlast, hexit⟩ := side_cross_loop_last sorted_elements sorted_elements.length _ _ hloop
    exact ⟨_, hloop, hexit, length_alternate_ends _, hlast⟩

/-- Witness for C32: over `[1, 2, 6, 7, 15]` the loop tests its condition in the
states with cursors `(0, 4)`, `(1, 3)`, `(2, 2)`, `(3, 2)`; in the state
`(1, 3)` both reads are inside the vector and `right` is not `0`. -/
theorem side_cross_cursors_stay_in_bounds_witness :
    (side_cross_states [1, 2, 6, 7, (15 : Int)] 5
      (SideCrossState.mk 0 (usize_sub 5 1) [])).map (fun st => (st.left, st.right))
        = [(0, 4), (1, 3), (2, 2), (3, 2)] ∧
    ((1 : Nat) ≤ 3 + 1 ∧ ((1 : Nat) ≤ 3 → 1 < 5 ∧ (usize_inc 1 ≤ 3 → 3 < 5 ∧ 0 < 3))) := by
  have h := side_cross_cursors_stay_in_bounds [1, 2, 6, 7, (15 : Int)] 5
    (SideCrossState.mk 1 3 [1, 15]) (by decide) (by decide) (by decide)
  exact ⟨by decide, h.1, fun hc => ⟨(h.2.1 hc).1, fun h2 =>
    ⟨((h.2.1 hc).2.2.2.1 h2).1, ((h.2.1 hc).2.2.2.1 h2).2.1⟩⟩⟩

/-- C33: in the middle-out construction over a non-empty vector of length `n`
with `mid = n / 2`, the read at `mid` is inside the vector, and in every round
of the loop (`offset` from `1` to `mid`) the left guard `mid >= offset` is
true, `mid - offset` does not wrap and is inside the vector, and `mid + offset`
does not wrap; the left element is emitted in every round, and the right
element is left out exactly when `offset = mid` and `n` is even. -/
theorem middle_out_reads_stay_in_bounds {T : Type} (elements : List T) (offset : Nat)
    (order : List T) (hne : elements ≠ []) (hn : elements.length < USIZE)
    (ho : offset ∈ List.range' 1 (elements.length / 2)) :
    (elements.length / 2 < elements.length ∧ (elements[elements.length / 2]?).isSome = true) ∧
    (1 ≤ offset ∧ offset ≤ elements.length / 2) ∧
    elements.length / 2 ≥ offset ∧
    (usize_sub (elements.length / 2) offset + offset = elements.length / 2 ∧
      usize_sub (elements.length / 2) offset < elements.length) ∧
    (usize_add (elements.length / 2) offset = elements.length / 2 + offset ∧
      (usize_add (elements.length / 2) offset < elements.length →
        (elements[usize_add (elements.length / 2) offset]?).isSome = true)) ∧
    (¬ (usize_add (elements.length / 2) offset < elements.length) ↔
      offset = elements.length / 2 ∧ elements.length % 2 = 0) ∧
    (∃ (x : T) (rest : List T),
      elements[usize_sub (elements.length / 2) offset]? = some x ∧
      middle_out_body elements elements.length (elements.length / 2) (some order) offset =
        some (order ++ x :: rest) ∧
      rest.length ≤ 1 ∧
      (rest = [] ↔ offset = elements.length / 2 ∧ elements.length % 2 = 0)) := by
  have hpos : 0 < elements.length := List.length_pos.mpr hne
  have hmid : elements.length / 2 < elements.length := by omega
  rw [List.mem_range'_1] at ho
  have ho2 : offset ≤ elements.length / 2 := by omega
  have hs : usize_sub (elements.length / 2) offset = elements.length / 2 - offset :=
    usize_sub_eq _ _ ho2 (by omega)
  have ha : usize_add (elements.length / 2) offset = elements.length / 2 + offset :=
    usize_add_eq _ _ (by omega)
  have hl : elements.length / 2 - offset < elements.length := by omega
  have hskip : ¬ (elements.length / 2 + offset < elements.length) ↔
      offset = elements.length / 2 ∧ elements.length % 2 = 0 := by
    constructor
    · intro h; omega
    · intro h; omega
  refine ⟨⟨hmid, by rw [List.getElem?_eq_getElem hmid]; rfl⟩, ⟨ho.1, ho2⟩, ho2,
    ⟨by rw [hs]; omega, by rw [hs]; exact hl⟩, ⟨ha, ?_⟩, by rw [ha]; exact hskip, ?_⟩
  · intro h
    rw [List.getElem?_eq_getElem h]; rfl
  · rw [hs, middle_out_body_some elements order offset hn ho.1 ho2]
    by_cases hr : elements.length / 2 + offset < elements.length
    · refine ⟨elements.get ⟨elements.length / 2 - offset, hl⟩,
        [elements.get ⟨elements.length / 2 + offset, hr⟩],
        List.getElem?_eq_getElem hl, ?_, by simp, ?_⟩
      · simp [middle_out_emission, List.getElem?_eq_getElem hl, List.getElem?_eq_getElem hr, hr]
      · constructor
        · intro h; simp at h
        · intro h; exact absurd hr (hskip.mpr h)
    · refine ⟨elements.get ⟨elements.length / 2 - offset, hl⟩, [],
        List.getElem?_eq_getElem hl, ?_, by simp, ?_⟩
      · simp [middle_out_emission, List.getElem?_eq_getElem hl, hr]
      · exact ⟨fun _ => hskip.mp hr, fun _ => rfl⟩

/-- Witness for C33: over `[5, 15, 25, 35]` (`mid = 2`) the round with
`offset = 2` emits the left element `5` and leaves the right one out. -/
theorem middle_out_reads_stay_in_bounds_witness :
    (2 : Nat) ∈ List.range' 1 (4 / 2) ∧
    middle_out_body [5, 15, 25, (35 : Int)] 4 2 (some [25, 15, 35]) 2 = some [25, 15, 35, 5] ∧
    (¬ (usize_add (4 / 2) 2 < 4) ↔ 2 = 4 / 2 ∧ 4 % 2 = 0) :=
  ⟨by decide, by decide,
    (middle_out_reads_stay_in_bounds [5, 15, 25, (35 : Int)] 2 [25, 15, 35] (by decide)
      (by decide) (by decide)).2.2.2.2.2.1⟩

end ex4
